import Mathlib

/-!
# A shallow embedding of the Lua C API (`lapi.c`, `lstate.h`)

Conventions of the embedding.

* A `StkId` (pointer to a stack slot) is an `Int` counted in slots; the contents of the
  slots are the field `mem` of the thread state.  Pointer arithmetic is integer arithmetic.
* C `int` and `ptrdiff_t` values are `Int`; none of the modelled computations leaves the
  range of its C type on the inputs the theorems speak about.
* `api_check` is a contract assertion that the default build compiles to nothing: the
  functions below compute what the code computes when the assertion is compiled out, and
  the asserted conditions appear as hypotheses of the theorems that need them.
* A function returns `none` exactly where the C code has no behaviour the embedding can
  express: a `TValue*` that is not a stack slot used in stack pointer arithmetic, an object
  read through the wrong type (`clCvalue`, `clLvalue`, `hvalue`), or a loop whose fuel ran
  out (the fuel handed to every loop is shown to be enough).
* Heap objects are referred to by a number; the engine-wide state maps the number to the
  object (`cclosures`, `lclosures`, `upvals`, `tables`, `udata`).
* A function that can raise an error (`luaD_throw`) returns an `Except`: `error` is the
  error in flight, which leaves the function for the enclosing recovery boundary.
* The release of an upvalue cell (`luaM_free`) marks the cell as `freed` and keeps its
  content in place; the C code has no defined behaviour when it goes on to use the cell,
  so the sharing of a cell is stated for slots that reference no released cell, and the
  one call that releases a cell it still references is exhibited separately.
* The write-barrier macros of `lgc.h` only recolour objects for the collector; an
  invocation is recorded, with its arguments, in the field `barriers` of the thread state
  and changes nothing else.
* Where a function takes two threads, the threads of the engine are numbered and a map
  from the numbers to the thread states stands for the memory; a `lua_State *` is the
  number of a thread.
-/

namespace LuaApi

/-! ## Data model -/

/-- Modelled from the spec: the tagged value of `lobject.h` (not part of the sources at
hand), a closed variant over nil, boolean, integer, float, light pointer, short and long
string, table, the two closure kinds, full userdata and thread, plus the bare native
function reference (`ttislcf`).  Collectable values carry the number of their heap object;
a float carries its bit pattern. -/
inductive TValue where
  | nil
  | boolean (b : Bool)
  | integer (i : Int)
  | float (bits : Nat)
  | lightuserdata (p : Nat)
  | shrstr (ref : Nat)
  | lngstr (ref : Nat)
  | table (ref : Nat)
  | lcl (ref : Nat)
  | lcf (f : Nat)
  | ccl (ref : Nat)
  | userdata (ref : Nat)
  | thread (ref : Nat)
  deriving DecidableEq, Repr

/-- Modelled from the spec: the basic type tags of `lua.h` (not part of the sources at
hand); `LUA_TNONE` is the tag reported for an index that designates no value. -/
inductive LuaType where
  | LUA_TNONE
  | LUA_TNIL
  | LUA_TBOOLEAN
  | LUA_TLIGHTUSERDATA
  | LUA_TNUMBER
  | LUA_TSTRING
  | LUA_TTABLE
  | LUA_TFUNCTION
  | LUA_TUSERDATA
  | LUA_TTHREAD
  deriving DecidableEq, Repr

/-- Modelled from the spec: the macro `ttnov` of `lobject.h`, the basic type tag of a
value with its variant bits removed. -/
def ttnov : TValue → LuaType
  | .nil => .LUA_TNIL
  | .boolean _ => .LUA_TBOOLEAN
  | .integer _ => .LUA_TNUMBER
  | .float _ => .LUA_TNUMBER
  | .lightuserdata _ => .LUA_TLIGHTUSERDATA
  | .shrstr _ => .LUA_TSTRING
  | .lngstr _ => .LUA_TSTRING
  | .table _ => .LUA_TTABLE
  | .lcl _ => .LUA_TFUNCTION
  | .lcf _ => .LUA_TFUNCTION
  | .ccl _ => .LUA_TFUNCTION
  | .userdata _ => .LUA_TUSERDATA
  | .thread _ => .LUA_TTHREAD

/-- Constants of `lua.h`, `luaconf.h` and `lfunc.h` that `lapi.c` uses and the sources at
hand do not define; they are parameters of the embedding. -/
structure LuaConf where
  LUA_REGISTRYINDEX : Int
  MAXUPVAL : Int

/-- A `TValue *` as `index2addr` and `aux_upvalue` produce it: a slot of the stack, the
registry field of the global state, cell `i` of the upvalue array of C closure `cl`, the
value owned by the closed upvalue cell `uv` of a script closure, or the address
`luaO_nilobject` that serves as the invalid sentinel. -/
inductive Addr where
  | stack (o : Int)
  | registry
  | upvalue (cl : Nat) (i : Int)
  | upval (uv : Nat)
  | nilobject
  deriving DecidableEq, Repr

/-- Modelled from the spec: the C closure of `lobject.h`, which stores its upvalues by
value directly in the array `upvalue[0 .. nupvalues-1]`. -/
structure CClosure where
  nupvalues : Int
  f : Nat
  upvalue : Int → TValue

/-- Modelled from the spec: the part of a function prototype that `aux_upvalue` reads,
the number of upvalues and the name of each (`none` for a NULL name). -/
structure Proto where
  sizeupvalues : Int
  upvalues : Int → Option String

/-- Modelled from the spec: the script closure of `lobject.h`, whose array `upvals` holds
pointers to shared upvalue cells. -/
structure LClosure where
  nupvalues : Int
  p : Proto
  upvals : Int → Nat

/-- Modelled from the spec: the shared upvalue cell of `lfunc.h`: `v` points to the stack
slot the cell aliases while it is open (`some o`) and to the cell's own `value` once it is
closed (`none`); `refcount` counts the closure slots that reference the cell; `freed`
records that the memory of the cell has been released (`luaM_free`).  The C code has no
defined behaviour when it reads or writes a released cell; the embedding keeps the content
of such a cell in place, the way the memory does until it is reused, and `slot_released`
tells whether a closure slot references one. -/
structure UpVal where
  v : Option Int
  refcount : Int
  touched : Int
  value : TValue
  freed : Bool

/-- Modelled from the spec: the table of `lobject.h`: the cached flags that record absent
metamethods, the metatable (`none` for NULL) and the entries, a value for every key (nil
for an absent one). -/
structure Table where
  flags : Nat
  metatable : Option Nat
  node : TValue → TValue

/-- Modelled from the spec: the full userdata of `lobject.h`, of which the API functions
embedded here read and write the metatable (`none` for NULL). -/
structure Udata where
  metatable : Option Nat

/-- An invocation of one of the write-barrier macros of `lgc.h`: `luaC_barrier(L, p, v)`
on C closure `cl` with the value `v`, `luaC_barrierback(L, t, v)` on table `t` with the
value `v`, `luaC_upvalbarrier(L, uv)` on upvalue cell `uv`, and `luaC_objbarrier(L, p, o)`
on the object `obj` with the table `mt`.  A barrier only recolours objects for the
collector; the embedding records that the macro was invoked and with what. -/
inductive BarrierCall where
  | barrier (cl : Nat) (v : TValue)
  | barrierback (t : Nat) (v : TValue)
  | upvalbarrier (uv : Nat)
  | objbarrier (obj : TValue) (mt : Nat)
  deriving DecidableEq, Repr

/-- The fields of `CallInfo` (`lstate.h`) for a frame of a C function. -/
structure CallInfo where
  func : Int
  top : Int
  k : Option Nat
  old_errfunc : Int
  ctx : Int
  extra : Int
  nresults : Int
  callstatus : Nat

/-- The fields of `global_State` (`lstate.h`) that the API functions read or write,
together with the heap objects reachable through it; `mt` is the array of metatables
for the basic types (`none` for NULL). -/
structure global_State where
  totalbytes : Int
  GCdebt : Int
  l_registry : TValue
  gcrunning : Int
  gcpause : Int
  gcstepmul : Int
  cclosures : Nat → CClosure
  lclosures : Nat → LClosure
  upvals : Nat → UpVal
  tables : Nat → Table
  udata : Nat → Udata
  mt : LuaType → Option Nat

/-- The fields of `lua_State` (`lstate.h`) that the API functions read or write; `mem`
is the content of the stack slots, `ci` the current call frame, and `barriers` the
write-barrier macros invoked on this thread so far, oldest first. -/
structure lua_State where
  status : Int
  top : Int
  l_G : global_State
  ci : CallInfo
  stack_last : Int
  stack : Int
  errfunc : Int
  stacksize : Int
  nny : Int
  nCcalls : Int
  allowhook : Int
  mem : Int → TValue
  barriers : List BarrierCall

/-! ## Index resolution -/

/-- The address `luaO_nilobject` in the role of `NONVALIDVALUE`. -/
def NONVALIDVALUE : Addr := Addr.nilobject

/-- Macro `isvalid(o)`. -/
def isvalid (o : Addr) : Bool := o != Addr.nilobject

/-- Macro `ispseudo(i)`. -/
def ispseudo (K : LuaConf) (i : Int) : Bool := decide (i ≤ K.LUA_REGISTRYINDEX)

/-- Macro `isupvalue(i)`. -/
def isupvalue (K : LuaConf) (i : Int) : Bool := decide (i < K.LUA_REGISTRYINDEX)

/-- Macro `isstackindex(i, o)`. -/
def isstackindex (K : LuaConf) (i : Int) (o : Addr) : Bool := isvalid o && !ispseudo K i

/-- The value stored at an address (`*o`); `luaO_nilobject` is the constant nil object. -/
def getobj (L : lua_State) : Addr → TValue
  | .stack o => L.mem o
  | .registry => L.l_G.l_registry
  | .upvalue cl i => (L.l_G.cclosures cl).upvalue i
  | .upval uv => (L.l_G.upvals uv).value
  | .nilobject => TValue.nil

/-- Function `index2addr` of `lapi.c`. -/
def index2addr (K : LuaConf) (L : lua_State) (idx : Int) : Option Addr :=
  let ci := L.ci
  if idx > 0 then
    let o := ci.func + idx
    -- api_check: idx <= ci->top - (ci->func + 1)
    if o ≥ L.top then some NONVALIDVALUE
    else some (Addr.stack o)
  else if !ispseudo K idx then
    -- api_check: idx != 0 && -idx <= L->top - (ci->func + 1)
    some (Addr.stack (L.top + idx))
  else if idx = K.LUA_REGISTRYINDEX then
    some Addr.registry
  else
    let idx := K.LUA_REGISTRYINDEX - idx
    -- api_check: idx <= MAXUPVAL + 1
    match L.mem ci.func with
    | TValue.lcf _ => some NONVALIDVALUE
    | TValue.ccl r =>
      let func := L.l_G.cclosures r
      if idx ≤ func.nupvalues then some (Addr.upvalue r (idx - 1)) else some NONVALIDVALUE
    | _ => none  -- clCvalue of a value that is no C closure

/-- Function `lua_gettop` of `lapi.c`. -/
def lua_gettop (L : lua_State) : Int := L.top - (L.ci.func + 1)

/-- Function `lua_type` of `lapi.c`. -/
def lua_type (K : LuaConf) (L : lua_State) (idx : Int) : Option LuaType :=
  match index2addr K L idx with
  | none => none
  | some o => some (if isvalid o then ttnov (getobj L o) else LuaType.LUA_TNONE)

/-! ## Basic stack manipulation -/

/-- The loop `while (L->top < (func + 1) + idx) setnilvalue(L->top++);` of `lua_settop`,
with `lim` standing for `(func + 1) + idx`; fuel counts the remaining iterations. -/
def settop_loop : Nat → lua_State → Int → Option lua_State
  | 0, L, lim => if L.top < lim then none else some L
  | fuel + 1, L, lim =>
    if L.top < lim then
      settop_loop fuel { L with mem := Function.update L.mem L.top TValue.nil, top := L.top + 1 } lim
    else some L

/-- Function `lua_settop` of `lapi.c`. -/
def lua_settop (L : lua_State) (idx : Int) : Option lua_State :=
  let func := L.ci.func
  if idx ≥ 0 then
    -- api_check: idx <= L->stack_last - (func + 1)
    match settop_loop ((func + 1) + idx - L.top).toNat L ((func + 1) + idx) with
    | none => none
    | some L1 => some { L1 with top := (func + 1) + idx }
  else
    -- api_check: -(idx+1) <= (L->top - (func + 1))
    some { L with top := L.top + (idx + 1) }

/-- The loop of `reverse`: while `frm < to_`, swap the two slots, then `frm++, to_--`. -/
def reverse_loop : Nat → lua_State → Int → Int → Option lua_State
  | 0, L, frm, to_ => if frm < to_ then none else some L
  | fuel + 1, L, frm, to_ =>
    if frm < to_ then
      let temp := L.mem frm
      let L1 := { L with mem := Function.update L.mem frm (L.mem to_) }
      let L2 := { L1 with mem := Function.update L1.mem to_ temp }
      reverse_loop fuel L2 (frm + 1) (to_ - 1)
    else some L

/-- Function `reverse` of `lapi.c`: reverse the stack segment from `frm` to `to_`. -/
def reverse (L : lua_State) (frm to_ : Int) : Option lua_State :=
  reverse_loop (to_ - frm).toNat L frm to_

/-- Function `lua_rotate` of `lapi.c`. -/
def lua_rotate (K : LuaConf) (L : lua_State) (idx n : Int) : Option lua_State :=
  let t := L.top - 1
  match index2addr K L idx with
  | some (Addr.stack p) =>
    -- api_checkstackindex: isstackindex(idx, p)
    -- api_check: (n >= 0 ? n : -n) <= (t - p + 1)
    let m := if n ≥ 0 then t - n else p - n - 1
    match reverse L p m with
    | none => none
    | some L1 =>
      match reverse L1 (m + 1) t with
      | none => none
      | some L2 => reverse L2 p t
  | _ => none  -- stack pointer arithmetic on an address outside the stack

/-! ## Closures and upvalues -/

/-- Modelled from the spec: `luaF_newCclosure` of `lfunc.c` (not part of the sources at
hand) constructs a C closure with `n` upvalues; `cl` is the number of the object the
allocator hands out, and the new object's function and upvalue cells are not initialised
(they keep whatever the memory held). -/
def luaF_newCclosure (L : lua_State) (n : Int) (cl : Nat) : lua_State :=
  { L with l_G := { L.l_G with
      cclosures := Function.update L.l_G.cclosures cl
        { L.l_G.cclosures cl with nupvalues := n } } }

/-- The assignment `cl->f = fn`. -/
def setclf (L : lua_State) (cl : Nat) (fn : Nat) : lua_State :=
  { L with l_G := { L.l_G with
      cclosures := Function.update L.l_G.cclosures cl { L.l_G.cclosures cl with f := fn } } }

/-- The store `setobj2n(L, &cl->upvalue[i], v)` into cell `i` of C closure `cl`. -/
def setobj2n_upvalue (L : lua_State) (cl : Nat) (i : Int) (v : TValue) : lua_State :=
  { L with l_G := { L.l_G with
      cclosures := Function.update L.l_G.cclosures cl
        { L.l_G.cclosures cl with
          upvalue := Function.update (L.l_G.cclosures cl).upvalue i v } } }

/-- The loop `while (n--) setobj2n(L, &cl->upvalue[n], L->top + n);` of
`lua_pushcclosure`; fuel counts the remaining iterations. -/
def pushcclosure_loop : Nat → lua_State → Nat → Int → Option lua_State
  | 0, L, _, n => if n ≠ 0 then none else some L
  | fuel + 1, L, cl, n =>
    if n ≠ 0 then
      let n1 := n - 1
      pushcclosure_loop fuel (setobj2n_upvalue L cl n1 (L.mem (L.top + n1))) cl n1
    else some L

/-- Modelled from the spec: `luaC_checkGC` of `lgc.h` (not part of the sources at hand)
may run a collector step, which leaves every field of the embedding as it is. -/
def luaC_checkGC (L : lua_State) : lua_State := L

/-- Macro `api_incr_top`: `L->top++` (with the contract `L->top <= L->ci->top`). -/
def api_incr_top (L : lua_State) : lua_State := { L with top := L.top + 1 }

/-- Function `lua_pushcclosure` of `lapi.c`; `cl` is the object `luaF_newCclosure`
returns when `n` is not 0. -/
def lua_pushcclosure (L : lua_State) (fn : Nat) (n : Int) (cl : Nat) : Option lua_State :=
  let body : Option lua_State :=
    if n = 0 then
      some { L with mem := Function.update L.mem L.top (TValue.lcf fn) }
    else
      -- api_checknelems(L, n); api_check: n <= MAXUPVAL
      let L1 := luaF_newCclosure L n cl
      let L2 := setclf L1 cl fn
      let L3 := { L2 with top := L2.top - n }
      match pushcclosure_loop n.toNat L3 cl n with
      | none => none
      | some L4 => some { L4 with mem := Function.update L4.mem L4.top (TValue.ccl cl) }
  match body with
  | none => none
  | some L5 => some (luaC_checkGC (api_incr_top L5))

/-- What `aux_upvalue` hands back when it does not return NULL: the name, and the values
it stores through `val`, `owner` and `uv`. -/
structure UpvalueInfo where
  name : String
  val : Addr
  owner : Option Nat
  uv : Option Nat

/-- Function `aux_upvalue` of `lapi.c`; `none` is the NULL result.  The pointer
`f->upvals[n-1]->v` is the aliased stack slot of an open cell and the cell's own value
otherwise. -/
def aux_upvalue (L : lua_State) (fi : Addr) (n : Int) : Option UpvalueInfo :=
  match getobj L fi with
  | TValue.ccl r =>
    let f := L.l_G.cclosures r
    if !(decide (1 ≤ n) && decide (n ≤ f.nupvalues)) then none
    else some ⟨"", Addr.upvalue r (n - 1), some r, none⟩
  | TValue.lcl r =>
    let f := L.l_G.lclosures r
    let p := f.p
    if !(decide (1 ≤ n) && decide (n ≤ p.sizeupvalues)) then none
    else
      let u := f.upvals (n - 1)
      let val := match (L.l_G.upvals u).v with
        | some o => Addr.stack o
        | none => Addr.upval u
      let name := match p.upvalues (n - 1) with
        | none => "(*no name)"
        | some s => s
      some ⟨name, val, none, some u⟩
  | _ => none

/-- Function `lua_getupvalue` of `lapi.c`: the returned name (`none` for NULL) and the
state after the call. -/
def lua_getupvalue (K : LuaConf) (L : lua_State) (funcindex n : Int) :
    Option (Option String × lua_State) :=
  match index2addr K L funcindex with
  | none => none
  | some fi =>
    match aux_upvalue L fi n with
    | some r =>
      let L1 := { L with mem := Function.update L.mem L.top (getobj L r.val) }
      some (some r.name, api_incr_top L1)
    | none => some (none, L)

/-! ## Closed forms used to state what the loops compute -/

/-- The slots after reversing the segment from `frm` to `to_`. -/
def revmem (m : Int → TValue) (frm to_ : Int) : Int → TValue :=
  fun a => if frm ≤ a ∧ a ≤ to_ then m (frm + to_ - a) else m a

/-- The slots after shifting the segment from `p` to `t` cyclically by `n` positions
toward `t` (by `-n` positions toward `p` when `n` is negative). -/
def rotmem (m : Int → TValue) (p t n : Int) : Int → TValue :=
  fun a =>
    if p ≤ a ∧ a ≤ t then
      let s := if n ≥ 0 then n else (t - p + 1) + n
      if a < p + s then m (a + (t - p + 1) - s) else m (a - s)
    else m a

/-- The state with the content of the stack slots replaced by `m`. -/
def setmem (L : lua_State) (m : Int → TValue) : lua_State := { L with mem := m }

/-- The slots after storing nil in every slot from `lo` up to, not including, `hi`. -/
def nilmem (m : Int → TValue) (lo hi : Int) : Int → TValue :=
  fun a => if lo ≤ a ∧ a < hi then TValue.nil else m a

/-! ## Status codes and fixed-width integers -/

/-- Modelled from the spec: the status codes of `lua.h` (not part of the sources at
hand) that protected operations report: normal completion, runtime error, syntax error,
out-of-memory, and error raised while already handling an error. -/
inductive Status where
  | LUA_OK
  | LUA_ERRRUN
  | LUA_ERRSYNTAX
  | LUA_ERRMEM
  | LUA_ERRERR
  deriving DecidableEq, Repr

/-- The kinds of error a function can raise (`luaD_throw`): every status but `LUA_OK`. -/
inductive ErrorCode where
  | ERRRUN
  | ERRSYNTAX
  | ERRMEM
  | ERRERR
  deriving DecidableEq, Repr

/-- The status code that reports an error of the given kind. -/
def ErrorCode.status : ErrorCode → Status
  | .ERRRUN => Status.LUA_ERRRUN
  | .ERRSYNTAX => Status.LUA_ERRSYNTAX
  | .ERRMEM => Status.LUA_ERRMEM
  | .ERRERR => Status.LUA_ERRERR

/-- Further constants of `lua.h`, `luaconf.h` and `llimits.h` that `lapi.c` uses and the
sources at hand do not define; they are parameters of the embedding. -/
structure LuaLimits where
  LUA_MULTRET : Int
  LUAI_MAXSTACK : Int
  EXTRA_STACK : Int

/-- Macro `cast_int` applied to a value wider than `int`: the value reduced to a signed
32-bit integer. -/
def cast_int (x : Int) : Int := (x + 2 ^ 31) % 2 ^ 32 - 2 ^ 31

/-- The conversion `cast(lu_mem, x)` to the unsigned 64-bit type `lu_mem`. -/
def cast_lu_mem (x : Int) : Int := x % 2 ^ 64

/-! ## Stack growth -/

/-- Modelled from the spec: `luaD_rawrunprotected(L, &growstack, &n)` of `ldo.c` (not part
of the sources at hand) performs the growth as an allocation wrapped by the protected call
engine, so that out-of-memory becomes a reported status.  `newsize` is what the allocator
answers: `none` when it fails, the new stack size otherwise.  A successful growth keeps
the slots, `top` and the frames where they are (slots are numbered from the stack base)
and moves `stack_last`. -/
def luaD_rawrunprotected_growstack (X : LuaLimits) (L : lua_State) (_n : Int)
    (newsize : Option Int) : Status × lua_State :=
  match newsize with
  | none => (Status.LUA_ERRMEM, L)
  | some sz =>
    (Status.LUA_OK, { L with stacksize := sz, stack_last := L.stack + sz - X.EXTRA_STACK })

/-- What a call of `lua_checkstack` amounts to: the returned `res`, whether the protected
growth was attempted, and the state after the call. -/
structure CheckStack where
  res : Int
  attempted : Bool
  L : lua_State

/-- Function `lua_checkstack` of `lapi.c`. -/
def lua_checkstack (X : LuaLimits) (L : lua_State) (n : Int) (newsize : Option Int) :
    CheckStack :=
  -- api_check: n >= 0; `ci` is the frame `L->ci`, which the growth leaves in place
  let r : Int × Bool × lua_State :=
    if L.stack_last - L.top > n then (1, false, L)
    else
      let inuse := (L.top - L.stack) + X.EXTRA_STACK
      if inuse > X.LUAI_MAXSTACK - n then (0, false, L)
      else
        let g := luaD_rawrunprotected_growstack X L n newsize
        ((if g.1 = Status.LUA_OK then 1 else 0), true, g.2)
  let res := r.1
  let L1 := r.2.2
  if res ≠ 0 ∧ L1.ci.top < L1.top + n then
    ⟨res, r.2.1, { L1 with ci := { L1.ci with top := L1.top + n } }⟩
  else ⟨res, r.2.1, L1⟩

/-! ## Collector control -/

/-- Modelled from the spec: the selectors of the collector control operation (`lua.h`, not
part of the sources at hand): stop, restart, full collection, byte count, sub-kilobyte
remainder, incremental step, set pause, set step multiplier, running state; any other
code is `invalid`. -/
inductive GcWhat where
  | LUA_GCSTOP
  | LUA_GCRESTART
  | LUA_GCCOLLECT
  | LUA_GCCOUNT
  | LUA_GCCOUNTB
  | LUA_GCSTEP
  | LUA_GCSETPAUSE
  | LUA_GCSETSTEPMUL
  | LUA_GCISRUNNING
  | invalid (code : Int)
  deriving DecidableEq, Repr

/-- Modelled from the spec: the collector of `lgc.c` (not part of the sources at hand) as
`lua_gc` uses it.  A full collection or a step changes the two byte counters and the
collector phase; pause and step multiplier are tunables that only the host sets.
`fullgc` and `step` give the counters (`totalbytes`, `GCdebt`) after `luaC_fullgc` and
`luaC_step`, `atpause` tells whether `gcstate == GCSpause` holds afterwards, and
`GCSTEPSIZE` is the constant of `lgc.h`. -/
structure Collector where
  GCSTEPSIZE : Int
  fullgc : global_State → Int × Int
  step : global_State → Int × Int
  atpause : global_State → Bool

/-- Macro `gettotalbytes` of `lstate.h`. -/
def gettotalbytes (g : global_State) : Int := cast_lu_mem (g.totalbytes + g.GCdebt)

/-- Modelled from the spec: `luaE_setdebt` (declared in `lstate.h`, defined in `lstate.c`)
sets the debt and keeps the number of allocated bytes, `totalbytes + GCdebt`. -/
def luaE_setdebt (g : global_State) (debt : Int) : global_State :=
  { g with totalbytes := g.totalbytes - (debt - g.GCdebt), GCdebt := debt }

/-- The global state with the byte counters a collection leaves. -/
def setcounters (g : global_State) (c : Int × Int) : global_State :=
  { g with totalbytes := c.1, GCdebt := c.2 }

/-- Function `lua_gc` of `lapi.c`: the returned `res` and the state after the call. -/
def lua_gc (C : Collector) (L : lua_State) (what : GcWhat) (data : Int) : Int × lua_State :=
  let g := L.l_G
  match what with
  | .LUA_GCSTOP => (0, { L with l_G := { g with gcrunning := 0 } })
  | .LUA_GCRESTART =>
    let g1 := luaE_setdebt g 0
    (0, { L with l_G := { g1 with gcrunning := 1 } })
  | .LUA_GCCOLLECT => (0, { L with l_G := setcounters g (C.fullgc g) })
  | .LUA_GCCOUNT => (cast_int (gettotalbytes g / 2 ^ 10), L)
  | .LUA_GCCOUNTB => (cast_int (gettotalbytes g % 2 ^ 10), L)
  | .LUA_GCSTEP =>
    let oldrunning := g.gcrunning
    let g1 := { g with gcrunning := 1 }
    let r : Int × global_State :=
      if data = 0 then
        let g2 := luaE_setdebt g1 (-C.GCSTEPSIZE)
        (1, setcounters g2 (C.step g2))
      else
        let debt := data * 1024 + g1.GCdebt
        let g2 := luaE_setdebt g1 debt
        -- luaC_checkGC: a step when the debt is positive
        (debt, if g2.GCdebt > 0 then setcounters g2 (C.step g2) else g2)
    let g3 := { r.2 with gcrunning := oldrunning }
    ((if r.1 > 0 ∧ C.atpause g3 = true then 1 else 0), { L with l_G := g3 })
  | .LUA_GCSETPAUSE => (g.gcpause, { L with l_G := { g with gcpause := data } })
  | .LUA_GCSETSTEPMUL =>
    let res := g.gcstepmul
    let data1 := if data < 40 then 40 else data
    (res, { L with l_G := { g with gcstepmul := data1 } })
  | .LUA_GCISRUNNING => (g.gcrunning, L)
  | .invalid _ => (-1, L)

/-- The state after a sequence of `lua_gc` calls, each given by its selector and data. -/
def lua_gc_seq (C : Collector) (L : lua_State) : List (GcWhat × Int) → lua_State
  | [] => L
  | (what, data) :: rest => lua_gc_seq C (lua_gc C L what data).2 rest

/-! ## Dump -/

/-- What a call of `lua_dump` amounts to: the returned status, whether the serializer
`luaU_dump` (the only caller of the writer) was invoked, and the state after the call. -/
structure DumpResult where
  status : Int
  serialized : Bool
  L : lua_State

/-- Function `lua_dump` of `lapi.c`.  The serializer `luaU_dump` of `lundump.h`, with the
writer, its data and the strip flag it is handed, is the parameter `luaU_dump`: for a
state and a prototype it gives the status it reports and the state it leaves. -/
def lua_dump (luaU_dump : lua_State → Proto → Int × lua_State) (L : lua_State) :
    DumpResult :=
  -- api_checknelems(L, 1)
  let o := L.top - 1
  match L.mem o with
  | TValue.lcl r =>
    let s := luaU_dump L (L.l_G.lclosures r).p
    ⟨s.1, true, s.2⟩
  | _ => ⟨1, false, L⟩

/-! ## Writing and sharing upvalues -/

/-- The store `setobj(L, a, v)` through a `TValue *`; the constant nil object
`luaO_nilobject` cannot be written. -/
def setobj (L : lua_State) (a : Addr) (v : TValue) : Option lua_State :=
  match a with
  | .stack o => some { L with mem := Function.update L.mem o v }
  | .registry => some { L with l_G := { L.l_G with l_registry := v } }
  | .upvalue cl i => some (setobj2n_upvalue L cl i v)
  | .upval uv =>
    some { L with l_G := { L.l_G with
      upvals := Function.update L.l_G.upvals uv { L.l_G.upvals uv with value := v } } }
  | .nilobject => none

/-- The state after a write-barrier macro has been invoked. -/
def logbarrier (L : lua_State) (b : BarrierCall) : lua_State :=
  { L with barriers := L.barriers ++ [b] }

/-- Function `lua_setupvalue` of `lapi.c`: the returned name (`none` for NULL) and the
state after the call. -/
def lua_setupvalue (K : LuaConf) (L : lua_State) (funcindex n : Int) :
    Option (Option String × lua_State) :=
  match index2addr K L funcindex with
  | none => none
  | some fi =>
    -- api_checknelems(L, 1)
    match aux_upvalue L fi n with
    | some r =>
      let L1 := { L with top := L.top - 1 }
      match setobj L1 r.val (L1.mem L1.top) with
      | none => none
      | some L2 =>
        match r.owner, r.uv with
        | some owner, _ =>
          some (some r.name, logbarrier L2 (BarrierCall.barrier owner (L2.mem L2.top)))
        | none, some uv => some (some r.name, logbarrier L2 (BarrierCall.upvalbarrier uv))
        | none, none => some (some r.name, L2)
    | none => some (none, L)

/-- Function `getupvalref` of `lapi.c`: the address `&f->upvals[n - 1]`, given as the
script closure `f` and the position `n - 1` in its array. -/
def getupvalref (K : LuaConf) (L : lua_State) (fidx n : Int) : Option (Nat × Int) :=
  match index2addr K L fidx with
  | none => none
  | some fi =>
    -- api_check: ttisLclosure(fi)
    match getobj L fi with
    | TValue.lcl f =>
      -- api_check: 1 <= n && n <= f->p->sizeupvalues
      some (f, n - 1)
    | _ => none  -- clLvalue of a value that is no script closure

/-- Macro `upisopen` of `lfunc.h`: the cell still aliases a stack slot. -/
def upisopen (u : UpVal) : Bool := u.v.isSome

/-- Modelled from the spec: `luaC_upvdeccount` of `lgc.c` (not part of the sources at
hand) does the manual reference counting of a shared upvalue cell: it decrements the
count of the cell, and a closed cell whose count reaches zero is no longer needed by any
closure and is released. -/
def luaC_upvdeccount (L : lua_State) (uv : Nat) : lua_State :=
  let u := L.l_G.upvals uv
  let u1 := { u with refcount := u.refcount - 1 }
  let u2 := if u1.refcount = 0 ∧ upisopen u1 = false then { u1 with freed := true } else u1
  { L with l_G := { L.l_G with upvals := Function.update L.l_G.upvals uv u2 } }

/-- The assignment `*up1 = uv` to position `i` of the array `upvals` of closure `f`. -/
def setupvalref (L : lua_State) (f : Nat) (i : Int) (uv : Nat) : lua_State :=
  { L with l_G := { L.l_G with
      lclosures := Function.update L.l_G.lclosures f
        { L.l_G.lclosures f with upvals := Function.update (L.l_G.lclosures f).upvals i uv } } }

/-- Function `lua_upvaluejoin` of `lapi.c`. -/
def lua_upvaluejoin (K : LuaConf) (L : lua_State) (fidx1 n1 fidx2 n2 : Int) :
    Option lua_State :=
  match getupvalref K L fidx1 n1, getupvalref K L fidx2 n2 with
  | some (f1, i1), some (f2, i2) =>
    let L1 := luaC_upvdeccount L ((L.l_G.lclosures f1).upvals i1)
    let L2 := setupvalref L1 f1 i1 ((L1.l_G.lclosures f2).upvals i2)
    let uv := (L2.l_G.lclosures f1).upvals i1
    let u := L2.l_G.upvals uv
    let u1 := { u with refcount := u.refcount + 1 }
    let u2 := if upisopen u1 then { u1 with touched := 1 } else u1
    let L3 := { L2 with l_G := { L2.l_G with upvals := Function.update L2.l_G.upvals uv u2 } }
    some (logbarrier L3 (BarrierCall.upvalbarrier uv))
  | _, _ => none

/-- An error in flight (`luaD_throw`): its kind and the error object. -/
structure Thrown where
  e : ErrorCode
  errobj : TValue
  deriving DecidableEq, Repr

/-- Modelled from the spec: what running the called function amounts to for its caller:
it returns normally with a list of values, or it raises an error of some kind with an
error object. -/
inductive Callee where
  | returns (vals : List TValue)
  | raises (e : ErrorCode) (errobj : TValue)

/-- The slots after the `n` results of a call have replaced the call region that starts at
`func`: result `i` sits in slot `func + i`, nil where the callee returned fewer values. -/
def putresults (m : Int → TValue) (func : Int) (vals : List TValue) (n : Int) :
    Int → TValue :=
  fun a => if func ≤ a ∧ a < func + n then vals.getD (a - func).toNat TValue.nil else m a

/-- Modelled from the spec: `luaD_call` of `ldo.c` (not part of the sources at hand), the
direct call: a failure is not recoverable locally and propagates to the nearest
enclosing recovery boundary; on success the results of the callee replace the call region
at the function slot, adjusted to the requested count (or all of them when the count is
`LUA_MULTRET`), with `top` just above the last result. -/
def luaD_call (X : LuaLimits) (L : lua_State) (func nResults : Int) (callee : Callee) :
    Except Thrown lua_State :=
  match callee with
  | .raises e errobj => Except.error ⟨e, errobj⟩
  | .returns vals =>
    let n := if nResults = X.LUA_MULTRET then (vals.length : Int) else nResults
    Except.ok { L with mem := putresults L.mem func vals n, top := func + n }

/-- Modelled from the spec: `luaD_callnoyield` of `ldo.c`, a direct call during which the
thread may not yield. -/
def luaD_callnoyield (X : LuaLimits) (L : lua_State) (func nResults : Int)
    (callee : Callee) : Except Thrown lua_State :=
  luaD_call X L func nResults callee

/-- Macro `savestack` of `ldo.h`: the offset of a slot from the stack base. -/
def savestack (L : lua_State) (p : Int) : Int := p - L.stack

/-- Macro `restorestack` of `ldo.h`: the slot at an offset from the stack base. -/
def restorestack (L : lua_State) (n : Int) : Int := L.stack + n

/-- Modelled from the spec: `luaD_pcall` of `ldo.c` (not part of the sources at hand), the
protected call: it runs `body` with the error handler `ef` installed; on normal
completion it reports `LUA_OK`; on a failure control unwinds to this boundary, `top` is
reset to the saved offset `old_top`, the frame, hook-allow flag and non-yieldable
count are restored, exactly the error object is left on top, and the status of the error
is reported.  The previous error handler is restored either way. -/
def luaD_pcall (L : lua_State) (body : lua_State → Except Thrown lua_State)
    (old_top ef : Int) : Status × lua_State :=
  let old_errfunc := L.errfunc
  match body { L with errfunc := ef } with
  | Except.ok L1 => (Status.LUA_OK, { L1 with errfunc := old_errfunc })
  | Except.error t =>
    let oldtop := restorestack L old_top
    (t.e.status,
      { L with mem := Function.update L.mem oldtop t.errobj, top := oldtop + 1,
               errfunc := old_errfunc })

/-- Modelled from the spec: the macro `adjustresults` of `lapi.h` (not part of the sources
at hand): after a call that asked for all results the frame's top bound is raised to
cover them. -/
def adjustresults (X : LuaLimits) (L : lua_State) (nres : Int) : lua_State :=
  if nres = X.LUA_MULTRET ∧ L.ci.top < L.top then { L with ci := { L.ci with top := L.top } }
  else L

/-- Bit `CIST_OAH` of `lstate.h`. -/
def CIST_OAH : Nat := 1 <<< 0

/-- Bit `CIST_YPCALL` of `lstate.h`. -/
def CIST_YPCALL : Nat := 1 <<< 4

/-- Macro `setoah` of `lstate.h` on the 16-bit `callstatus`: `(st & ~CIST_OAH) | v`. -/
def setoah (st : Nat) (v : Int) : Nat := Nat.lor (Nat.land st (65535 - CIST_OAH)) v.toNat

/-- Function `f_call` of `lapi.c`. -/
def f_call (X : LuaLimits) (L : lua_State) (func nresults : Int) (callee : Callee) :
    Except Thrown lua_State :=
  luaD_callnoyield X L func nresults callee

/-- Function `lua_pcallk` of `lapi.c`; `callee` is what running the called function
amounts to.  The result is the returned status with the state after the call, or the
error that leaves the function. -/
def lua_pcallk (K : LuaConf) (X : LuaLimits) (L : lua_State)
    (nargs nresults errfunc ctx : Int) (k : Option Nat) (callee : Callee) :
    Option (Except Thrown (Status × lua_State)) :=
  -- api_check: k == NULL || !isLua(L->ci); api_checknelems(L, nargs+1)
  -- api_check: L->status == LUA_OK; checkresults(L, nargs, nresults)
  let func : Option Int :=
    if errfunc = 0 then some 0
    else
      match index2addr K L errfunc with
      | some (Addr.stack o) =>
        -- api_checkstackindex(L, errfunc, o)
        some (savestack L o)
      | _ => none  -- savestack of an address outside the stack
  match func with
  | none => none
  | some func =>
    let cfunc := L.top - (nargs + 1)
    let r : Except Thrown (Status × lua_State) :=
      if k = none ∨ L.nny > 0 then
        Except.ok
          (luaD_pcall L (fun L1 => f_call X L1 cfunc nresults callee) (savestack L cfunc) func)
      else
        let ci1 := { L.ci with
          k := k, ctx := ctx, extra := savestack L cfunc, old_errfunc := L.errfunc }
        let ci2 := { ci1 with callstatus := setoah ci1.callstatus L.allowhook }
        let ci3 := { ci2 with callstatus := Nat.lor ci2.callstatus CIST_YPCALL }
        let L1 := { L with ci := ci3, errfunc := func }
        match luaD_call X L1 cfunc nresults callee with
        | Except.error t => Except.error t
        | Except.ok L2 =>
          let ci4 := { L2.ci with
            callstatus := Nat.land L2.ci.callstatus (65535 - CIST_YPCALL) }
          -- status = LUA_OK: "if it is here, there were no errors"
          Except.ok (Status.LUA_OK, { L2 with ci := ci4, errfunc := ci4.old_errfunc })
    match r with
    | Except.error t => some (Except.error t)
    | Except.ok (status, L3) => some (Except.ok (status, adjustresults X L3 nresults))

/-! ## Raw table access -/

/-- The table primitives of `ltable.c` (not part of the sources at hand), parameters of
the embedding: `luaH_get` and `luaH_getint` give the value a table holds under a key;
`luaH_set` gives the slot of a key, as the table that a store of a value through the slot
produces, or raises an error for a key it rejects; `luaH_setint` stores a value under an
integer key. -/
structure TableLib where
  luaH_get : Table → TValue → TValue
  luaH_getint : Table → Int → TValue
  luaH_set : Table → TValue → Except Thrown (TValue → Table)
  luaH_setint : Table → Int → TValue → Except Thrown Table

/-- Macro `hvalue` of `lobject.h` on the value at an address: the table it refers to;
there is none when the value is not a table. -/
def hvalue (L : lua_State) (t : Addr) : Option Nat :=
  match getobj L t with
  | TValue.table h => some h
  | _ => none

/-- The state with table `h` replaced. -/
def settable (L : lua_State) (h : Nat) (t : Table) : lua_State :=
  { L with l_G := { L.l_G with tables := Function.update L.l_G.tables h t } }

/-- Modelled from the spec: the macro `invalidateTMcache` of `ltm.h` (not part of the
sources at hand) resets the cached flags that record absent metamethods. -/
def invalidateTMcache (t : Table) : Table := { t with flags := 0 }

/-- Function `lua_rawget` of `lapi.c`: the returned type tag and the state after the
call. -/
def lua_rawget (K : LuaConf) (T : TableLib) (L : lua_State) (idx : Int) :
    Option (LuaType × lua_State) :=
  match index2addr K L idx with
  | none => none
  | some t =>
    -- api_check: ttistable(t)
    match hvalue L t with
    | none => none  -- hvalue of a value that is no table
    | some h =>
      let v := T.luaH_get (L.l_G.tables h) (L.mem (L.top - 1))
      let L1 := { L with mem := Function.update L.mem (L.top - 1) v }
      some (ttnov (L1.mem (L1.top - 1)), L1)

/-- Function `lua_rawgeti` of `lapi.c`. -/
def lua_rawgeti (K : LuaConf) (T : TableLib) (L : lua_State) (idx n : Int) :
    Option (LuaType × lua_State) :=
  match index2addr K L idx with
  | none => none
  | some t =>
    -- api_check: ttistable(t)
    match hvalue L t with
    | none => none  -- hvalue of a value that is no table
    | some h =>
      let v := T.luaH_getint (L.l_G.tables h) n
      let L1 := api_incr_top { L with mem := Function.update L.mem L.top v }
      some (ttnov (L1.mem (L1.top - 1)), L1)

/-- Function `lua_rawgetp` of `lapi.c`; the key is the light userdata `p`. -/
def lua_rawgetp (K : LuaConf) (T : TableLib) (L : lua_State) (idx : Int) (p : Nat) :
    Option (LuaType × lua_State) :=
  match index2addr K L idx with
  | none => none
  | some t =>
    -- api_check: ttistable(t)
    match hvalue L t with
    | none => none  -- hvalue of a value that is no table
    | some h =>
      let k := TValue.lightuserdata p
      let v := T.luaH_get (L.l_G.tables h) k
      let L1 := api_incr_top { L with mem := Function.update L.mem L.top v }
      some (ttnov (L1.mem (L1.top - 1)), L1)

/-- Function `lua_rawset` of `lapi.c`. -/
def lua_rawset (K : LuaConf) (T : TableLib) (L : lua_State) (idx : Int) :
    Option (Except Thrown lua_State) :=
  -- api_checknelems(L, 2)
  match index2addr K L idx with
  | none => none
  | some o =>
    -- api_check: ttistable(o)
    match hvalue L o with
    | none => none  -- hvalue of a value that is no table
    | some h =>
      match T.luaH_set (L.l_G.tables h) (L.mem (L.top - 2)) with
      | Except.error e => some (Except.error e)
      | Except.ok slot =>
        let L1 := settable L h (slot (L.mem (L.top - 1)))
        let L2 := settable L1 h (invalidateTMcache (L1.l_G.tables h))
        let L3 := logbarrier L2 (BarrierCall.barrierback h (L2.mem (L2.top - 1)))
        some (Except.ok { L3 with top := L3.top - 2 })

/-- Function `lua_rawseti` of `lapi.c`. -/
def lua_rawseti (K : LuaConf) (T : TableLib) (L : lua_State) (idx n : Int) :
    Option (Except Thrown lua_State) :=
  -- api_checknelems(L, 1)
  match index2addr K L idx with
  | none => none
  | some o =>
    -- api_check: ttistable(o)
    match hvalue L o with
    | none => none  -- hvalue of a value that is no table
    | some h =>
      match T.luaH_setint (L.l_G.tables h) n (L.mem (L.top - 1)) with
      | Except.error e => some (Except.error e)
      | Except.ok t1 =>
        let L1 := settable L h t1
        let L2 := logbarrier L1 (BarrierCall.barrierback h (L1.mem (L1.top - 1)))
        some (Except.ok { L2 with top := L2.top - 1 })

/-- Function `lua_rawsetp` of `lapi.c`; the key is the light userdata `p`. -/
def lua_rawsetp (K : LuaConf) (T : TableLib) (L : lua_State) (idx : Int) (p : Nat) :
    Option (Except Thrown lua_State) :=
  -- api_checknelems(L, 1)
  match index2addr K L idx with
  | none => none
  | some o =>
    -- api_check: ttistable(o)
    match hvalue L o with
    | none => none  -- hvalue of a value that is no table
    | some h =>
      let k := TValue.lightuserdata p
      match T.luaH_set (L.l_G.tables h) k with
      | Except.error e => some (Except.error e)
      | Except.ok slot =>
        let L1 := settable L h (slot (L.mem (L.top - 1)))
        let L2 := logbarrier L1 (BarrierCall.barrierback h (L1.mem (L1.top - 1)))
        some (Except.ok { L2 with top := L2.top - 1 })

/-! ## Absolute indices, copies and moves between threads -/

/-- Function `lua_absindex` of `lapi.c`. -/
def lua_absindex (K : LuaConf) (L : lua_State) (idx : Int) : Int :=
  if idx > 0 ∨ ispseudo K idx then idx
  else cast_int (L.top - L.ci.func) + idx

/-- Function `lua_copy` of `lapi.c`. -/
def lua_copy (K : LuaConf) (L : lua_State) (fromidx toidx : Int) : Option lua_State :=
  match index2addr K L fromidx, index2addr K L toidx with
  | some fr, some to_ =>
    -- api_checkvalidindex(L, to)
    match setobj L to_ (getobj L fr) with
    | none => none
    | some L1 =>
      if isupvalue K toidx then
        match L1.mem L1.ci.func with
        | TValue.ccl c => some (logbarrier L1 (BarrierCall.barrier c (getobj L1 fr)))
        | _ => none  -- clCvalue of a value that is no C closure
      else some L1
  | _, _ => none

/-- Function `lua_pushvalue` of `lapi.c`. -/
def lua_pushvalue (K : LuaConf) (L : lua_State) (idx : Int) : Option lua_State :=
  match index2addr K L idx with
  | none => none
  | some o => some (api_incr_top { L with mem := Function.update L.mem L.top (getobj L o) })

/-- The loop `for (i = 0; i < n; i++) { setobj2s(to, to->top, from->top + i); to->top++; }`
of `lua_xmove`; fuel counts the remaining iterations. -/
def xmove_loop : Nat → lua_State → lua_State → Int → Int → Option lua_State
  | 0, _, to_, i, n => if i < n then none else some to_
  | fuel + 1, frm, to_, i, n =>
    if i < n then
      xmove_loop fuel frm
        { to_ with mem := Function.update to_.mem to_.top (frm.mem (frm.top + i)),
                   top := to_.top + 1 } (i + 1) n
    else some to_

/-- Function `lua_xmove` of `lapi.c`.  The threads of an engine are numbered; `W` maps the
number of a thread to its state, and the two pointers `from` and `to` are the numbers
`frm` and `to_`. -/
def lua_xmove (W : Nat → lua_State) (frm to_ : Nat) (n : Int) : Option (Nat → lua_State) :=
  if frm = to_ then some W
  else
    -- api_checknelems(from, n); api_check: G(from) == G(to)
    -- api_check: to->ci->top - to->top >= n
    let F := { W frm with top := (W frm).top - n }
    match xmove_loop n.toNat F (W to_) 0 n with
    | none => none
    | some T => some (Function.update (Function.update W frm F) to_ T)

/-- The slots of the receiving thread after `n` values have been moved onto it from the
slots of the sending thread that start at `src`. -/
def movedmem (m : Int → TValue) (dst : Int) (f : Int → TValue) (src n : Int) :
    Int → TValue :=
  fun a => if dst ≤ a ∧ a < dst + n then f (src + (a - dst)) else m a

/-! ## Arithmetic -/

/-- Modelled from the spec: the operator codes of `lua.h` (not part of the sources at
hand) that `lua_arith` accepts. -/
inductive ArithOp where
  | LUA_OPADD | LUA_OPSUB | LUA_OPMUL | LUA_OPMOD | LUA_OPPOW | LUA_OPDIV | LUA_OPIDIV
  | LUA_OPBAND | LUA_OPBOR | LUA_OPBXOR | LUA_OPSHL | LUA_OPSHR | LUA_OPUNM | LUA_OPBNOT
  deriving DecidableEq, Repr

/-- A 64-bit two's-complement `lua_Integer` from an unbounded integer. -/
def wrap_integer (x : Int) : Int := (x + 2 ^ 63) % 2 ^ 64 - 2 ^ 63

/-- Modelled from the spec: `luaO_arith` of `lobject.c` (not part of the sources at hand),
which gives the result of an operator on two operands or raises an error.  The sum of two
integers is their sum as a `lua_Integer`; every other case (floats, conversions,
metamethods) is the parameter `other`. -/
def luaO_arith (other : ArithOp → TValue → TValue → Except Thrown TValue) (op : ArithOp)
    (p1 p2 : TValue) : Except Thrown TValue :=
  match op, p1, p2 with
  | ArithOp.LUA_OPADD, TValue.integer a, TValue.integer b =>
    Except.ok (TValue.integer (wrap_integer (a + b)))
  | _, _, _ => other op p1 p2

/-- Function `lua_pushinteger` of `lapi.c`. -/
def lua_pushinteger (L : lua_State) (n : Int) : lua_State :=
  api_incr_top { L with mem := Function.update L.mem L.top (TValue.integer n) }

/-- Function `lua_arith` of `lapi.c`; an error raised by `luaO_arith` leaves the
function. -/
def lua_arith (other : ArithOp → TValue → TValue → Except Thrown TValue) (L : lua_State)
    (op : ArithOp) : Except Thrown lua_State :=
  let L1 :=
    if op ≠ ArithOp.LUA_OPUNM ∧ op ≠ ArithOp.LUA_OPBNOT then
      -- api_checknelems(L, 2)
      L
    else
      -- api_checknelems(L, 1)
      api_incr_top { L with mem := Function.update L.mem L.top (L.mem (L.top - 1)) }
  match luaO_arith other op (L1.mem (L1.top - 2)) (L1.mem (L1.top - 1)) with
  | Except.error t => Except.error t
  | Except.ok r =>
    let L2 := { L1 with mem := Function.update L1.mem (L1.top - 2) r }
    Except.ok { L2 with top := L2.top - 1 }

/-! ## Metatables -/

/-- The state with full userdata `u` replaced. -/
def setudata (L : lua_State) (u : Nat) (d : Udata) : lua_State :=
  { L with l_G := { L.l_G with udata := Function.update L.l_G.udata u d } }

/-- The `switch` of `lua_setmetatable` on the basic type of the value `v` at `objindex`:
the metatable `mt` (`none` for NULL) goes to the table, to the full userdata, or to the
slot of the basic type in `G(L)->mt`.  The call `luaC_checkfinalizer` (of `lgc.c`, not
part of the sources at hand) moves an object between lists of the collector and changes
no field of the embedding. -/
def setmt (L : lua_State) (v : TValue) (mt : Option Nat) : lua_State :=
  match v with
  | TValue.table h =>
    let L0 := settable L h { L.l_G.tables h with metatable := mt }
    match mt with
    | some m => logbarrier L0 (BarrierCall.objbarrier (TValue.table h) m)
    | none => L0
  | TValue.userdata u =>
    let L0 := setudata L u { L.l_G.udata u with metatable := mt }
    match mt with
    | some m => logbarrier L0 (BarrierCall.objbarrier (TValue.userdata u) m)
    | none => L0
  | v => { L with l_G := { L.l_G with mt := Function.update L.l_G.mt (ttnov v) mt } }

/-- Function `lua_setmetatable` of `lapi.c`: the returned value and the state after the
call. -/
def lua_setmetatable (K : LuaConf) (L : lua_State) (objindex : Int) :
    Option (Int × lua_State) :=
  -- api_checknelems(L, 1)
  match index2addr K L objindex with
  | none => none
  | some obj =>
    let mt : Option (Option Nat) :=
      match L.mem (L.top - 1) with
      | TValue.nil => some none
      -- api_check: ttistable(L->top - 1)
      | TValue.table h => some (some h)
      | _ => none  -- hvalue of a value that is no table
    match mt with
    | none => none
    | some mt =>
      let L1 := setmt L (getobj L obj) mt
      some (1, { L1 with top := L1.top - 1 })

/-- The metatable `lua_getmetatable` finds for a value (`none` for NULL). -/
def getmt (L : lua_State) (v : TValue) : Option Nat :=
  match v with
  | TValue.table h => (L.l_G.tables h).metatable
  | TValue.userdata u => (L.l_G.udata u).metatable
  | v => L.l_G.mt (ttnov v)

/-- Function `lua_getmetatable` of `lapi.c`: the returned value and the state after the
call. -/
def lua_getmetatable (K : LuaConf) (L : lua_State) (objindex : Int) :
    Option (Int × lua_State) :=
  match index2addr K L objindex with
  | none => none
  | some obj =>
    match getmt L (getobj L obj) with
    | some m =>
      some (1, api_incr_top { L with mem := Function.update L.mem L.top (TValue.table m) })
    | none => some (0, L)

/-! ## Unprotected calls and the continuation of a protected call -/

/-- Macro `checkresults` of `lapi.c`: the condition it checks. -/
def checkresults (X : LuaLimits) (L : lua_State) (na nr : Int) : Bool :=
  decide (nr = X.LUA_MULTRET ∨ L.ci.top - L.top ≥ nr - na)

/-- Function `lua_callk` of `lapi.c`; `callee` is what running the called function
amounts to. -/
def lua_callk (X : LuaLimits) (L : lua_State) (nargs nresults ctx : Int) (k : Option Nat)
    (callee : Callee) : Except Thrown lua_State :=
  -- api_check: k == NULL || !isLua(L->ci); api_checknelems(L, nargs+1)
  -- api_check: L->status == LUA_OK; checkresults(L, nargs, nresults)
  let func := L.top - (nargs + 1)
  let r :=
    if k ≠ none ∧ L.nny = 0 then
      let ci1 := { L.ci with k := k, ctx := ctx }
      luaD_call X { L with ci := ci1 } func nresults callee
    else luaD_callnoyield X L func nresults callee
  match r with
  | Except.error t => Except.error t
  | Except.ok L1 => Except.ok (adjustresults X L1 nresults)

/-- The statements of `lua_pcallk` that prepare a continuation, from `ci->u.c.k = k` to
`ci->callstatus |= CIST_YPCALL`: the state in which `luaD_call` is then entered.  Here
`cfunc` is the slot of the function to be called and `func` the offset of the handler. -/
def pcallk_prepare (L : lua_State) (cfunc func ctx : Int) (k : Option Nat) : lua_State :=
  let ci1 := { L.ci with
    k := k, ctx := ctx, extra := savestack L cfunc, old_errfunc := L.errfunc }
  let ci2 := { ci1 with callstatus := setoah ci1.callstatus L.allowhook }
  let ci3 := { ci2 with callstatus := Nat.lor ci2.callstatus CIST_YPCALL }
  { L with ci := ci3, errfunc := func }

/-- The statements of `lua_pcallk` after the callee of a prepared continuation has
returned, from `ci->callstatus &= ~CIST_YPCALL` to `adjustresults`. -/
def pcallk_finish (X : LuaLimits) (L2 : lua_State) (nresults : Int) : lua_State :=
  let ci4 := { L2.ci with callstatus := Nat.land L2.ci.callstatus (65535 - CIST_YPCALL) }
  adjustresults X { L2 with ci := ci4, errfunc := ci4.old_errfunc } nresults

/-- Macro `getoah` of `lstate.h`: `(st) & CIST_OAH`. -/
def getoah (st : Nat) : Nat := Nat.land st CIST_OAH

/-- The offset `func` of the handler that `lua_pcallk` computes from `errfunc`; there is
none when the index does not designate a stack slot. -/
def pcallk_func (K : LuaConf) (L : lua_State) (errfunc : Int) : Option Int :=
  if errfunc = 0 then some 0
  else
    match index2addr K L errfunc with
    | some (Addr.stack o) => some (savestack L o)
    | _ => none

/-- The outcome of an error that is recovered at a frame prepared for a continuation:
the continuation that is called in place of a return, the context and the status passed
to it, and the state in which it is entered. -/
structure Recovered where
  k : Nat
  ctx : Int
  status : Status
  L : lua_State

/-- Modelled from the spec: the recovery of an error raised below a frame that
`lua_pcallk` prepared for a continuation (`ldo.c`, not part of the sources at hand; in
`lapi.c` the call "is already protected by 'resume'").  Control unwinds to the boundary
of the frame marked `CIST_YPCALL` ("function can do error recovery"): the stack top is
reset to the offset saved in `extra` and exactly the error object is left there, the
error handler is restored from `old_errfunc` and the hook-allow flag from `CIST_OAH`, and
the continuation `k` of the frame is called with the status of the error ("in case of
errors, the continuation function can be called with the correct top", `lstate.h`).
There is no recovery at a frame that is not marked or has no continuation. -/
def recover (L : lua_State) (t : Thrown) : Option Recovered :=
  if Nat.land L.ci.callstatus CIST_YPCALL ≠ 0 then
    match L.ci.k with
    | none => none
    | some kf =>
      let oldtop := restorestack L L.ci.extra
      some ⟨kf, L.ci.ctx, t.e.status,
        { L with mem := Function.update L.mem oldtop t.errobj, top := oldtop + 1,
                 errfunc := L.ci.old_errfunc, allowhook := getoah L.ci.callstatus }⟩
  else none

/-! ## Comparisons -/

/-- Modelled from the spec: the comparison operators of `lua.h` (not part of the sources
at hand) that `lua_compare` accepts; any other code is `invalid`. -/
inductive CompareOp where
  | LUA_OPEQ
  | LUA_OPLT
  | LUA_OPLE
  | invalid (code : Int)
  deriving DecidableEq, Repr

/-- The comparison routines of `lvm.c` (not part of the sources at hand), parameters of
the embedding: `luaV_rawequalobj` compares two values without metamethods;
`luaV_equalobj`, `luaV_lessthan` and `luaV_lessequal` may call a metamethod, so each
gives its result with the state after the call, or raises an error. -/
structure VmLib where
  luaV_rawequalobj : TValue → TValue → Int
  luaV_equalobj : lua_State → TValue → TValue → Except Thrown (Int × lua_State)
  luaV_lessthan : lua_State → TValue → TValue → Except Thrown (Int × lua_State)
  luaV_lessequal : lua_State → TValue → TValue → Except Thrown (Int × lua_State)

/-- Function `lua_rawequal` of `lapi.c`. -/
def lua_rawequal (K : LuaConf) (V : VmLib) (L : lua_State) (index1 index2 : Int) :
    Option Int :=
  match index2addr K L index1, index2addr K L index2 with
  | some o1, some o2 =>
    some (if isvalid o1 && isvalid o2 then V.luaV_rawequalobj (getobj L o1) (getobj L o2)
      else 0)
  | _, _ => none

/-- Function `lua_compare` of `lapi.c`: the returned value with the state after the call,
or the error that leaves the function. -/
def lua_compare (K : LuaConf) (V : VmLib) (L : lua_State) (index1 index2 : Int)
    (op : CompareOp) : Option (Except Thrown (Int × lua_State)) :=
  match index2addr K L index1, index2addr K L index2 with
  | some o1, some o2 =>
    if isvalid o1 && isvalid o2 then
      match op with
      | CompareOp.LUA_OPEQ => some (V.luaV_equalobj L (getobj L o1) (getobj L o2))
      | CompareOp.LUA_OPLT => some (V.luaV_lessthan L (getobj L o1) (getobj L o2))
      | CompareOp.LUA_OPLE => some (V.luaV_lessequal L (getobj L o1) (getobj L o2))
      -- api_check(L, 0, "invalid option")
      | CompareOp.invalid _ => some (Except.ok (0, L))
    else some (Except.ok (0, L))
  | _, _ => none

/-! ## Sample states used by the concrete instances -/

/-- The constants as the reference distribution sets them. -/
def sampleConf : LuaConf := ⟨-1001000, 255⟩

/-- A C closure without upvalues. -/
def sampleCClosure : CClosure := ⟨0, 0, fun _ => TValue.nil⟩

/-- A script closure without upvalues. -/
def sampleLClosure : LClosure := ⟨0, ⟨0, fun _ => none⟩, fun _ => 0⟩

/-- A closed upvalue cell holding nil. -/
def sampleUpVal : UpVal := ⟨none, 0, 0, TValue.nil, false⟩

/-- A global state whose registry is table 0 and whose C closure 7 has two upvalues,
the integers 100 and 101. -/
def sampleG : global_State :=
  { totalbytes := 0, GCdebt := 0, l_registry := TValue.table 0, gcrunning := 1,
    gcpause := 200, gcstepmul := 200,
    cclosures := fun r =>
      if r = 7 then ⟨2, 5, fun i => TValue.integer (100 + i)⟩ else sampleCClosure,
    lclosures := fun _ => sampleLClosure,
    upvals := fun _ => sampleUpVal,
    tables := fun _ => ⟨0, none, fun _ => TValue.nil⟩,
    udata := fun _ => ⟨none⟩,
    mt := fun _ => none }

/-- A frame whose function slot is slot 0 and whose declared top bound is slot 6. -/
def sampleCI : CallInfo :=
  { func := 0, top := 6, k := none, old_errfunc := 0, ctx := 0, extra := 0,
    nresults := 0, callstatus := 0 }

/-- A thread running C closure 7 (slot 0) with four values on its stack: the integers
11, 12, 13 in slots 1 to 3 and nil in slot 4; the slots from 5 on hold stale booleans. -/
def sampleL : lua_State :=
  { status := 0, top := 5, l_G := sampleG, ci := sampleCI, stack_last := 20, stack := 0,
    errfunc := 0, stacksize := 25, nny := 0, nCcalls := 0, allowhook := 1,
    mem := fun o =>
      if o = 0 then TValue.ccl 7
      else if 1 ≤ o ∧ o ≤ 3 then TValue.integer (10 + o)
      else if o = 4 then TValue.nil
      else TValue.boolean true,
    barriers := [] }

/-- Sample values of the further constants, as the reference distribution sets them. -/
def sampleLimits : LuaLimits := ⟨-1, 1000000, 5⟩

/-- A collector whose steps free nothing and which is never at its pause. -/
def sampleCollector : Collector :=
  ⟨1600, fun g => (g.totalbytes, g.GCdebt), fun g => (g.totalbytes, g.GCdebt),
   fun _ => false⟩

/-- The sample thread with 5000 bytes allocated, 200 of them as debt. -/
def sampleBytes : lua_State :=
  { sampleL with l_G := { sampleG with totalbytes := 4800, GCdebt := 200 } }

/-- A global state with two script closures, 1 and 2, of one upvalue each (named `x` and
`y`): closure 1 references the closed cell 5 holding the integer 1, closure 2 the closed
cell 6 holding the integer 2; each cell is referenced once and none is released. -/
def sampleGJ : global_State :=
  { sampleG with
    lclosures := fun f =>
      if f = 1 then ⟨1, ⟨1, fun _ => some "x"⟩, fun _ => 5⟩
      else if f = 2 then ⟨1, ⟨1, fun _ => some "y"⟩, fun _ => 6⟩
      else sampleLClosure,
    upvals := fun u =>
      if u = 5 then ⟨none, 1, 0, TValue.integer 1, false⟩
      else if u = 6 then ⟨none, 1, 0, TValue.integer 2, false⟩
      else sampleUpVal }

/-- A thread running C closure 7 with three values on its stack: script closure 1 at
index 1, script closure 2 at index 2 and the integer 42 at index 3. -/
def sampleJ : lua_State :=
  { sampleL with
    top := 4, l_G := sampleGJ,
    mem := fun o =>
      if o = 0 then TValue.ccl 7
      else if o = 1 then TValue.lcl 1
      else if o = 2 then TValue.lcl 2
      else if o = 3 then TValue.integer 42
      else TValue.nil }

/-- Table primitives that keep the entries in `node` and reject the key nil. -/
def sampleTableLib : TableLib :=
  { luaH_get := fun t k => t.node k,
    luaH_getint := fun t n => t.node (TValue.integer n),
    luaH_set := fun t k =>
      if k = TValue.nil then Except.error ⟨ErrorCode.ERRRUN, TValue.shrstr 0⟩
      else Except.ok (fun v => { t with node := Function.update t.node k v }),
    luaH_setint := fun t n v =>
      Except.ok { t with node := Function.update t.node (TValue.integer n) v } }

/-- The sample thread with an empty frame: `top` is the slot above the function. -/
def sampleE : lua_State := { sampleL with top := 1 }

/-- An operator oracle that raises an error for every operation it is asked. -/
def sampleOther : ArithOp → TValue → TValue → Except Thrown TValue :=
  fun _ _ _ => Except.error ⟨ErrorCode.ERRRUN, TValue.shrstr 0⟩

/-- The sample thread with three tables on its stack: table 1 at index 1, table 2 at
index 2 and table 3 on top; no table has a metatable. -/
def sampleM : lua_State :=
  { sampleL with
    top := 4,
    mem := fun o =>
      if o = 0 then TValue.ccl 7
      else if o = 1 then TValue.table 1
      else if o = 2 then TValue.table 2
      else if o = 3 then TValue.table 3
      else TValue.nil }

/-- The sample thread with table 3 at index 1, whose cached flags are 5, and the integer 12
on top. -/
def sampleT : lua_State :=
  { sampleL with
    top := 3,
    l_G := { sampleG with
      tables := fun h =>
        if h = 3 then ⟨5, none, fun _ => TValue.nil⟩ else ⟨0, none, fun _ => TValue.nil⟩ },
    mem := fun o =>
      if o = 0 then TValue.ccl 7
      else if o = 1 then TValue.table 3
      else if o = 2 then TValue.integer 12
      else TValue.nil }

/-- Two threads of one engine: thread 0 is the sample thread, thread 1 has the integer 77
at index 1 and a frame bound at slot 8. -/
def sampleW : Nat → lua_State := fun t =>
  if t = 0 then sampleL
  else
    { sampleL with
      top := 2, ci := { sampleCI with top := 8 },
      mem := fun o => if o = 0 then TValue.ccl 7 else if o = 1 then TValue.integer 77
        else TValue.nil }

/-- Comparison routines that report every two values as equal without metamethods, and
raise an error whenever a routine that may call a metamethod is entered. -/
def sampleVmLib : VmLib :=
  { luaV_rawequalobj := fun _ _ => 1,
    luaV_equalobj := fun _ _ _ => Except.error ⟨ErrorCode.ERRRUN, TValue.shrstr 0⟩,
    luaV_lessthan := fun _ _ _ => Except.error ⟨ErrorCode.ERRRUN, TValue.shrstr 0⟩,
    luaV_lessequal := fun _ _ _ => Except.error ⟨ErrorCode.ERRRUN, TValue.shrstr 0⟩ }

/-! ## Index resolution: theorems -/

/-- No value has the basic type tag `LUA_TNONE`. -/
theorem ttnov_ne_none (v : TValue) : ttnov v ≠ LuaType.LUA_TNONE := by
  cases v <;> simp [ttnov]

/-- C1: a positive index within the frame's declared bound whose slot lies below `top`
resolves to exactly the slot `ci->func + idx`, never to the invalid sentinel. -/
theorem index2addr_positive (K : LuaConf) (L : lua_State) (idx : Int)
    (hpos : 0 < idx) (_hbound : idx ≤ L.ci.top - (L.ci.func + 1))
    (hlt : L.ci.func + idx < L.top) :
    index2addr K L idx = some (Addr.stack (L.ci.func + idx)) ∧
    index2addr K L idx ≠ some NONVALIDVALUE := by
  have h : index2addr K L idx = some (Addr.stack (L.ci.func + idx)) := by
    unfold index2addr
    simp only [gt_iff_lt, hpos, if_true, ge_iff_le]
    rw [if_neg (by omega)]
  refine ⟨h, ?_⟩
  rw [h]
  simp [NONVALIDVALUE]

/-- Instance of C1 on the sample thread: index 3 is slot 3. -/
theorem index2addr_positive_witness :
    (0 : Int) < 3 ∧ (3 : Int) ≤ sampleL.ci.top - (sampleL.ci.func + 1) ∧
    sampleL.ci.func + 3 < sampleL.top ∧
    index2addr sampleConf sampleL 3 = some (Addr.stack (sampleL.ci.func + 3)) ∧
    index2addr sampleConf sampleL 3 ≠ some NONVALIDVALUE :=
  ⟨by decide, by decide, by decide,
   index2addr_positive sampleConf sampleL 3 (by decide) (by decide) (by decide)⟩

/-- C2: a negative index above the pseudo range with `-idx <= L->top - (ci->func + 1)`
resolves to the slot `L->top + idx`, strictly above the function slot and strictly below
`top`; index -1 is the topmost slot and index `-gettop` is the slot of index 1. -/
theorem index2addr_negative (K : LuaConf) (L : lua_State) (idx : Int)
    (hneg : idx < 0) (hnp : ispseudo K idx = false)
    (hbound : -idx ≤ L.top - (L.ci.func + 1)) :
    index2addr K L idx = some (Addr.stack (L.top + idx)) ∧
    L.ci.func < L.top + idx ∧ L.top + idx < L.top ∧
    (idx = -1 → index2addr K L idx = some (Addr.stack (L.top - 1))) ∧
    (idx = -(lua_gettop L) → index2addr K L idx = index2addr K L 1) := by
  have h : index2addr K L idx = some (Addr.stack (L.top + idx)) := by
    unfold index2addr
    rw [if_neg (by omega)]
    simp [hnp]
  refine ⟨h, by omega, by omega, ?_, ?_⟩
  · intro h1
    rw [h, h1]
    rfl
  · intro hg
    unfold lua_gettop at hg
    rw [h]
    unfold index2addr
    simp only [gt_iff_lt, zero_lt_one, if_true, ge_iff_le]
    rw [if_neg (by omega)]
    congr 2
    omega

/-- Instance of C2 on the sample thread: index -4 (= -gettop) is slot 1. -/
theorem index2addr_negative_witness :
    (-4 : Int) < 0 ∧ ispseudo sampleConf (-4) = false ∧
    -(-4 : Int) ≤ sampleL.top - (sampleL.ci.func + 1) ∧
    index2addr sampleConf sampleL (-4) = some (Addr.stack (sampleL.top + (-4))) :=
  ⟨by decide, by decide, by decide,
   (index2addr_negative sampleConf sampleL (-4) (by decide) (by decide) (by decide)).1⟩

/-- C3: a positive index within the frame's declared bound whose slot is at or above
`top` resolves to the invalid sentinel (a result, not a failure) and `lua_type` reports
`LUA_TNONE` for it; `lua_type` reports `LUA_TNONE` only when the index resolves to the
sentinel, so a positive index whose slot lies below `top` never reports `LUA_TNONE`, and
reports `LUA_TNIL` when the slot holds nil. -/
theorem lua_type_none (K : LuaConf) (L : lua_State) (idx : Int)
    (hpos : 0 < idx) (_hbound : idx ≤ L.ci.top - (L.ci.func + 1)) :
    (L.top ≤ L.ci.func + idx →
      index2addr K L idx = some NONVALIDVALUE ∧ lua_type K L idx = some LuaType.LUA_TNONE) ∧
    (∀ j : Int, lua_type K L j = some LuaType.LUA_TNONE →
      index2addr K L j = some NONVALIDVALUE) ∧
    (L.ci.func + idx < L.top →
      lua_type K L idx ≠ some LuaType.LUA_TNONE ∧
      (L.mem (L.ci.func + idx) = TValue.nil → lua_type K L idx = some LuaType.LUA_TNIL)) := by
  have hconv : ∀ j : Int, lua_type K L j = some LuaType.LUA_TNONE →
      index2addr K L j = some NONVALIDVALUE := by
    intro j hj
    unfold lua_type at hj
    cases ha : index2addr K L j with
    | none => rw [ha] at hj; simp at hj
    | some o =>
      rw [ha] at hj
      by_cases hv : isvalid o = true
      · simp only [hv, if_true, Option.some.injEq] at hj
        exact absurd hj (ttnov_ne_none _)
      · cases o <;> first | rfl | exact absurd rfl hv
  refine ⟨?_, hconv, ?_⟩
  · intro hge
    have h : index2addr K L idx = some NONVALIDVALUE := by
      unfold index2addr
      simp only [gt_iff_lt, hpos, if_true, ge_iff_le]
      rw [if_pos (by omega)]
    refine ⟨h, ?_⟩
    unfold lua_type
    rw [h]
    rfl
  · intro hlt
    have h : index2addr K L idx = some (Addr.stack (L.ci.func + idx)) := by
      unfold index2addr
      simp only [gt_iff_lt, hpos, if_true, ge_iff_le]
      rw [if_neg (by omega)]
    refine ⟨?_, ?_⟩
    · intro hn
      have := hconv idx hn
      rw [h] at this
      simp [NONVALIDVALUE] at this
    · intro hnil
      unfold lua_type
      rw [h]
      simp [isvalid, getobj, hnil, ttnov]

/-- Instance of C3 on the sample thread: index 5 (slot 5 = top) is within the frame bound
and reports `LUA_TNONE`. -/
theorem lua_type_none_witness :
    (0 : Int) < 5 ∧ (5 : Int) ≤ sampleL.ci.top - (sampleL.ci.func + 1) ∧
    sampleL.top ≤ sampleL.ci.func + 5 ∧
    index2addr sampleConf sampleL 5 = some NONVALIDVALUE ∧
    lua_type sampleConf sampleL 5 = some LuaType.LUA_TNONE :=
  ⟨by decide, by decide, by decide,
   (lua_type_none sampleConf sampleL 5 (by decide) (by decide)).1 (by decide)⟩

/-- Unfolding of `index2addr` at an upvalue pseudo-index. -/
theorem upvalue_index_eq (K : LuaConf) (L : lua_State) (idx : Int)
    (hreg : K.LUA_REGISTRYINDEX < 0) (hup : idx < K.LUA_REGISTRYINDEX) :
    index2addr K L idx =
      match L.mem L.ci.func with
      | TValue.lcf _ => some NONVALIDVALUE
      | TValue.ccl r =>
        if K.LUA_REGISTRYINDEX - idx ≤ (L.l_G.cclosures r).nupvalues
        then some (Addr.upvalue r (K.LUA_REGISTRYINDEX - idx - 1)) else some NONVALIDVALUE
      | _ => none := by
  unfold index2addr
  rw [if_neg (by omega)]
  have hp : ispseudo K idx = true := by simp [ispseudo]; omega
  rw [if_neg (by simp [hp]), if_neg (by omega)]

/-- C4: for an upvalue pseudo-index `idx < LUA_REGISTRYINDEX` with
`k = LUA_REGISTRYINDEX - idx` (so `k >= 1`): a light C function gives the invalid
sentinel; a C closure gives its upvalue cell `k` (array position `k-1`) when
`k <= nupvalues` and the sentinel when `k > nupvalues`; an upvalue address that is
returned always lies inside the upvalue array of the running closure. -/
theorem index2addr_upvalue (K : LuaConf) (L : lua_State) (idx : Int)
    (hreg : K.LUA_REGISTRYINDEX < 0) (hup : idx < K.LUA_REGISTRYINDEX) :
    1 ≤ K.LUA_REGISTRYINDEX - idx ∧
    (∀ f, L.mem L.ci.func = TValue.lcf f → index2addr K L idx = some NONVALIDVALUE) ∧
    (∀ r, L.mem L.ci.func = TValue.ccl r →
      (K.LUA_REGISTRYINDEX - idx ≤ (L.l_G.cclosures r).nupvalues →
        index2addr K L idx = some (Addr.upvalue r (K.LUA_REGISTRYINDEX - idx - 1))) ∧
      ((L.l_G.cclosures r).nupvalues < K.LUA_REGISTRYINDEX - idx →
        index2addr K L idx = some NONVALIDVALUE)) ∧
    (∀ r i, index2addr K L idx = some (Addr.upvalue r i) →
      L.mem L.ci.func = TValue.ccl r ∧ 0 ≤ i ∧ i < (L.l_G.cclosures r).nupvalues) := by
  have heq := upvalue_index_eq K L idx hreg hup
  refine ⟨by omega, ?_, ?_, ?_⟩
  · intro f hf
    rw [heq, hf]
  · intro r hr
    rw [heq, hr]
    refine ⟨fun h => ?_, fun h => ?_⟩
    · simp only [h, if_true]
    · simp only
      rw [if_neg (by omega)]
  · intro r i h
    rw [heq] at h
    cases hv : L.mem L.ci.func <;> rw [hv] at h <;> simp [NONVALIDVALUE] at h
    rename_i r1
    split at h
    · simp only [Option.some.injEq, Addr.upvalue.injEq] at h
      obtain ⟨h1, h2⟩ := h
      subst h1
      exact ⟨rfl, by omega, by omega⟩
    · simp at h

/-- Instance of C4 on the sample thread (running C closure 7 with two upvalues) at the
pseudo-index of upvalue 2. -/
theorem index2addr_upvalue_witness :
    sampleConf.LUA_REGISTRYINDEX < 0 ∧ (-1001002 : Int) < sampleConf.LUA_REGISTRYINDEX ∧
    sampleL.mem sampleL.ci.func = TValue.ccl 7 ∧
    sampleConf.LUA_REGISTRYINDEX - (-1001002) ≤ (sampleL.l_G.cclosures 7).nupvalues ∧
    index2addr sampleConf sampleL (-1001002)
      = some (Addr.upvalue 7 (sampleConf.LUA_REGISTRYINDEX - (-1001002) - 1)) :=
  ⟨by decide, by decide, by decide, by decide,
   ((index2addr_upvalue sampleConf sampleL (-1001002) (by decide) (by decide)).2.2.1 7
      (by decide)).1 (by decide)⟩

/-- C5: a pseudo-index (`idx <= LUA_REGISTRYINDEX`) never resolves to a slot of the
stack: `LUA_REGISTRYINDEX` resolves to the registry value of the global state, and a
smaller index resolves, when the running function is a light C function or a C closure,
to the invalid sentinel or to a cell inside the upvalue array of the running closure
(and to nothing else in any state). -/
theorem index2addr_pseudo (K : LuaConf) (L : lua_State) (idx : Int)
    (hreg : K.LUA_REGISTRYINDEX < 0) (hps : idx ≤ K.LUA_REGISTRYINDEX) :
    (∀ o, index2addr K L idx ≠ some (Addr.stack o)) ∧
    (idx = K.LUA_REGISTRYINDEX →
      index2addr K L idx = some Addr.registry ∧
      getobj L Addr.registry = L.l_G.l_registry) ∧
    (idx < K.LUA_REGISTRYINDEX →
      (((∃ f, L.mem L.ci.func = TValue.lcf f) ∨ (∃ r, L.mem L.ci.func = TValue.ccl r)) →
        ∃ a, index2addr K L idx = some a) ∧
      (∀ a, index2addr K L idx = some a →
        a = NONVALIDVALUE ∨
        ∃ r i, a = Addr.upvalue r i ∧ L.mem L.ci.func = TValue.ccl r ∧
          0 ≤ i ∧ i < (L.l_G.cclosures r).nupvalues)) := by
  have hregcase : idx = K.LUA_REGISTRYINDEX → index2addr K L idx = some Addr.registry := by
    intro h
    unfold index2addr
    rw [if_neg (by omega)]
    have hp : ispseudo K idx = true := by simp [ispseudo]; omega
    rw [if_neg (by simp [hp]), if_pos h]
  have hupcase : idx < K.LUA_REGISTRYINDEX → ∀ a, index2addr K L idx = some a →
      a = NONVALIDVALUE ∨
      ∃ r i, a = Addr.upvalue r i ∧ L.mem L.ci.func = TValue.ccl r ∧
        0 ≤ i ∧ i < (L.l_G.cclosures r).nupvalues := by
    intro hup a ha
    rw [upvalue_index_eq K L idx hreg hup] at ha
    cases hv : L.mem L.ci.func <;> rw [hv] at ha <;> simp at ha
    · exact Or.inl ha.symm
    · rename_i r1
      split at ha
      · right
        refine ⟨r1, K.LUA_REGISTRYINDEX - idx - 1, ?_, rfl, by omega, by omega⟩
        simp only [Option.some.injEq] at ha
        exact ha.symm
      · left
        simp only [Option.some.injEq] at ha
        exact ha.symm
  refine ⟨?_, fun h => ⟨hregcase h, rfl⟩, fun hup => ⟨?_, hupcase hup⟩⟩
  · intro o ho
    rcases lt_or_eq_of_le hps with hlt | heq
    · rcases hupcase hlt _ ho with h | ⟨r, i, h, _⟩
      · simp [NONVALIDVALUE] at h
      · simp at h
    · rw [hregcase heq] at ho
      simp at ho
  · intro hC
    rw [upvalue_index_eq K L idx hreg hup]
    rcases hC with ⟨f, hf⟩ | ⟨r, hr⟩
    · rw [hf]
      exact ⟨_, rfl⟩
    · rw [hr]
      simp only
      split
      · exact ⟨_, rfl⟩
      · exact ⟨_, rfl⟩

/-- Instance of C5 on the sample thread at the registry pseudo-index. -/
theorem index2addr_pseudo_witness :
    sampleConf.LUA_REGISTRYINDEX < 0 ∧ (-1001000 : Int) ≤ sampleConf.LUA_REGISTRYINDEX ∧
    (∀ o, index2addr sampleConf sampleL (-1001000) ≠ some (Addr.stack o)) :=
  ⟨by decide, by decide,
   (index2addr_pseudo sampleConf sampleL (-1001000) (by decide) (by decide)).1⟩

/-! ## Rotation: theorems -/

/-- With enough fuel the loop of `reverse` ends and has mirrored the segment. -/
theorem reverse_loop_eq (fuel : Nat) : ∀ (L : lua_State) (frm to_ : Int),
    (to_ - frm).toNat ≤ fuel →
    reverse_loop fuel L frm to_ = some (setmem L (revmem L.mem frm to_)) := by
  induction fuel with
  | zero =>
    intro L frm to_ h
    have hle : to_ ≤ frm := by omega
    simp only [reverse_loop]
    rw [if_neg (by omega)]
    congr 1
    show L = { L with mem := revmem L.mem frm to_ }
    have : revmem L.mem frm to_ = L.mem := by
      funext a
      simp only [revmem]
      split
      · congr 1; omega
      · rfl
    rw [this]
  | succ fuel ih =>
    intro L frm to_ h
    simp only [reverse_loop]
    split
    · rename_i hlt
      rw [ih _ _ _ (by omega)]
      congr 1
      simp only [setmem]
      congr 1
      funext a
      simp only [revmem, Function.update_apply]
      split_ifs <;> first | rfl | omega | (congr 1; omega)
    · rename_i hge
      congr 1
      show L = { L with mem := revmem L.mem frm to_ }
      have : revmem L.mem frm to_ = L.mem := by
        funext a
        simp only [revmem]
        split
        · congr 1; omega
        · rfl
      rw [this]

/-- The function `reverse` always returns, with the segment mirrored. -/
theorem reverse_eq (L : lua_State) (frm to_ : Int) :
    reverse L frm to_ = some (setmem L (revmem L.mem frm to_)) :=
  reverse_loop_eq _ L frm to_ (le_refl _)

/-- Three reversals amount to a cyclic shift. -/
theorem rot3_eq (m : Int → TValue) (p t n : Int)
    (hlo : -(t - p + 1) ≤ n) (hhi : n ≤ t - p + 1) :
    revmem (revmem (revmem m p (if n ≥ 0 then t - n else p - n - 1))
      ((if n ≥ 0 then t - n else p - n - 1) + 1) t) p t = rotmem m p t n := by
  funext a
  simp only [revmem, rotmem]
  split_ifs <;> first | rfl | omega | (congr 1; omega)

/-- The state `lua_rotate` returns for a stack index, in closed form. -/
theorem lua_rotate_eq (K : LuaConf) (L : lua_State) (idx n p : Int)
    (hp : index2addr K L idx = some (Addr.stack p))
    (hlo : -(L.top - p) ≤ n) (hhi : n ≤ L.top - p) :
    lua_rotate K L idx n = some (setmem L (rotmem L.mem p (L.top - 1) n)) := by
  unfold lua_rotate
  simp only [hp, reverse_eq]
  congr 1
  simp only [setmem]
  congr 1
  exact rot3_eq L.mem p (L.top - 1) n (by omega) (by omega)

/-- Shifting by `n` and then by `-n` restores the slots. -/
theorem rotmem_inv (m : Int → TValue) (p t n : Int)
    (hlo : -(t - p + 1) ≤ n) (hhi : n ≤ t - p + 1) :
    rotmem (rotmem m p t n) p t (-n) = m := by
  funext a
  simp only [rotmem]
  split_ifs <;> first | rfl | omega | (congr 1; omega)

/-- An index that resolves to a stack slot is positive or negative above the pseudo range. -/
theorem index2addr_stack_cases (K : LuaConf) (L : lua_State) (idx p : Int)
    (hp : index2addr K L idx = some (Addr.stack p)) :
    (idx > 0 ∧ p = L.ci.func + idx ∧ p < L.top) ∨
    (¬ idx > 0 ∧ ispseudo K idx = false ∧ p = L.top + idx) := by
  unfold index2addr at hp
  by_cases h1 : idx > 0
  · left
    simp only [h1, if_true] at hp
    by_cases h3 : L.ci.func + idx ≥ L.top
    · simp [h3, NONVALIDVALUE] at hp
    · simp only [h3, if_false, Option.some.injEq, Addr.stack.injEq] at hp
      exact ⟨h1, hp.symm, by omega⟩
  · right
    simp only [h1, if_false] at hp
    cases h2 : ispseudo K idx
    · simp only [h2, Bool.not_false, if_true, Option.some.injEq, Addr.stack.injEq] at hp
      exact ⟨h1, rfl, hp.symm⟩
    · exfalso
      simp only [h2, Bool.not_true, Bool.false_eq_true, if_false] at hp
      by_cases h4 : idx = K.LUA_REGISTRYINDEX
      · simp [h4] at hp
      · simp only [h4, if_false] at hp
        revert hp
        split
        · simp [NONVALIDVALUE]
        · split <;> simp [NONVALIDVALUE]
        · simp

/-- Resolution of a stack index does not depend on the content of the slots. -/
theorem index2addr_setmem_stack (K : LuaConf) (L : lua_State) (idx p : Int)
    (m : Int → TValue) (hp : index2addr K L idx = some (Addr.stack p)) :
    index2addr K (setmem L m) idx = some (Addr.stack p) := by
  rcases index2addr_stack_cases K L idx p hp with ⟨h1, h2, h3⟩ | ⟨h1, h2, h3⟩
  · unfold index2addr
    simp only [setmem, h1, if_true]
    rw [if_neg (by omega), h2]
  · unfold index2addr
    simp only [setmem, h1, if_false, h2, Bool.not_false, if_true, h3]

/-- The remainder `(i + n) mod len` for an offset `i` and a shift of at most `len`. -/
theorem rot_emod (len i n : Int) (hi0 : 0 ≤ i) (hi : i < len)
    (hlo : -len ≤ n) (hhi : n ≤ len) :
    (i + n) % len =
      if i + n < 0 then i + n + len else if i + n < len then i + n else i + n - len := by
  split_ifs with h1 h2
  · rw [← Int.add_emod_self]
    exact Int.emod_eq_of_lt (by omega) (by omega)
  · exact Int.emod_eq_of_lt (by omega) (by omega)
  · rw [Int.emod_eq_sub_self_emod]
    exact Int.emod_eq_of_lt (by omega) (by omega)

/-- C6: rotating the segment that starts at a valid stack index by `n` and then by `-n`
(with `|n|` at most the segment length `top - p`) gives back the state the thread was in:
every stack slot holds the value it held before and `top` is unchanged. -/
theorem lua_rotate_inverse (K : LuaConf) (L : lua_State) (idx n p : Int)
    (hp : index2addr K L idx = some (Addr.stack p))
    (hlo : -(L.top - p) ≤ n) (hhi : n ≤ L.top - p) :
    ∃ L1, lua_rotate K L idx n = some L1 ∧ lua_rotate K L1 idx (-n) = some L ∧
      L1.top = L.top := by
  refine ⟨setmem L (rotmem L.mem p (L.top - 1) n), lua_rotate_eq K L idx n p hp hlo hhi, ?_, rfl⟩
  have hp1 := index2addr_setmem_stack K L idx p (rotmem L.mem p (L.top - 1) n) hp
  rw [lua_rotate_eq K _ idx (-n) p hp1 (by simp only [setmem]; omega)
    (by simp only [setmem]; omega)]
  simp only [setmem]
  rw [rotmem_inv L.mem p (L.top - 1) n (by omega) (by omega)]

/-- Instance of C6 on the sample thread: the segment of index 2 (three slots) rotated by
2 and back. -/
theorem lua_rotate_inverse_witness :
    index2addr sampleConf sampleL 2 = some (Addr.stack 2) ∧
    -(sampleL.top - 2) ≤ (2 : Int) ∧ (2 : Int) ≤ sampleL.top - 2 ∧
    ∃ L1, lua_rotate sampleConf sampleL 2 2 = some L1 ∧
      lua_rotate sampleConf L1 2 (-2) = some sampleL ∧ L1.top = sampleL.top :=
  ⟨by decide, by decide, by decide,
   lua_rotate_inverse sampleConf sampleL 2 2 2 (by decide) (by decide) (by decide)⟩

/-- C7: `lua_rotate` on the segment of length `len = top - p` that starts at a valid stack
index shifts the segment cyclically toward the top: for `0 <= n <= len` the element at
offset `i` ends at offset `(i + n) mod len`, for `-len <= n < 0` it ends at offset
`(i - |n|) mod len`, for `n = 0` the state is unchanged; the slots outside the segment,
`top`, the frame and the global state are unchanged. -/
theorem lua_rotate_shift (K : LuaConf) (L : lua_State) (idx n p : Int)
    (hp : index2addr K L idx = some (Addr.stack p))
    (hlo : -(L.top - p) ≤ n) (hhi : n ≤ L.top - p) :
    ∃ L1, lua_rotate K L idx n = some L1 ∧
      L1.top = L.top ∧ L1.ci = L.ci ∧ L1.l_G = L.l_G ∧
      (∀ a, a < p ∨ L.top ≤ a → L1.mem a = L.mem a) ∧
      (0 ≤ n → ∀ i, 0 ≤ i → i < L.top - p →
        L1.mem (p + (i + n) % (L.top - p)) = L.mem (p + i)) ∧
      (n < 0 → ∀ i, 0 ≤ i → i < L.top - p →
        L1.mem (p + (i - (-n)) % (L.top - p)) = L.mem (p + i)) ∧
      (n = 0 → L1 = L) := by
  refine ⟨setmem L (rotmem L.mem p (L.top - 1) n), lua_rotate_eq K L idx n p hp hlo hhi,
    rfl, rfl, rfl, ?_, ?_, ?_, ?_⟩
  · intro a ha
    simp only [setmem, rotmem]
    rw [if_neg (by omega)]
  · intro hn i hi0 hi
    rw [rot_emod (L.top - p) i n hi0 hi hlo hhi]
    simp only [setmem, rotmem]
    split_ifs <;> first | rfl | omega | (congr 1; omega)
  · intro hn i hi0 hi
    have he : i - (-n) = i + n := by omega
    rw [he, rot_emod (L.top - p) i n hi0 hi hlo hhi]
    simp only [setmem, rotmem]
    split_ifs <;> first | rfl | omega | (congr 1; omega)
  · intro hn
    subst hn
    show ({ L with mem := rotmem L.mem p (L.top - 1) 0 } : lua_State) = L
    have h0 : rotmem L.mem p (L.top - 1) 0 = L.mem := by
      funext a
      simp only [rotmem]
      split_ifs <;> first | rfl | omega | (congr 1; omega)
    rw [h0]

/-- Instance of C7 on the sample thread: the four-slot segment of index 1 rotated by 1. -/
theorem lua_rotate_shift_witness :
    index2addr sampleConf sampleL 1 = some (Addr.stack 1) ∧
    -(sampleL.top - 1) ≤ (1 : Int) ∧ (1 : Int) ≤ sampleL.top - 1 ∧
    ∃ L1, lua_rotate sampleConf sampleL 1 1 = some L1 ∧
      L1.top = sampleL.top ∧ L1.ci = sampleL.ci ∧ L1.l_G = sampleL.l_G ∧
      (∀ a, a < 1 ∨ sampleL.top ≤ a → L1.mem a = sampleL.mem a) ∧
      ((0 : Int) ≤ 1 → ∀ i, 0 ≤ i → i < sampleL.top - 1 →
        L1.mem (1 + (i + 1) % (sampleL.top - 1)) = sampleL.mem (1 + i)) ∧
      ((1 : Int) < 0 → ∀ i, 0 ≤ i → i < sampleL.top - 1 →
        L1.mem (1 + (i - (-1)) % (sampleL.top - 1)) = sampleL.mem (1 + i)) ∧
      ((1 : Int) = 0 → L1 = sampleL) :=
  ⟨by decide, by decide, by decide,
   lua_rotate_shift sampleConf sampleL 1 1 1 (by decide) (by decide) (by decide)⟩

/-! ## Setting the top: theorems -/

/-- With enough fuel the loop of `lua_settop` ends, having stored nil in the slots from
the old `top` up to the limit and moved `top` there when the limit is higher. -/
theorem settop_loop_eq (fuel : Nat) : ∀ (L : lua_State) (lim : Int),
    (lim - L.top).toNat ≤ fuel →
    settop_loop fuel L lim =
      some { L with mem := nilmem L.mem L.top lim, top := max L.top lim } := by
  induction fuel with
  | zero =>
    intro L lim h
    have hle : lim ≤ L.top := by omega
    simp only [settop_loop]
    rw [if_neg (by omega), max_eq_left hle]
    have : nilmem L.mem L.top lim = L.mem := by
      funext a
      simp only [nilmem]
      rw [if_neg (by omega)]
    rw [this]
  | succ fuel ih =>
    intro L lim h
    simp only [settop_loop]
    split
    · rename_i hlt
      rw [ih _ _ (by simp only; omega)]
      congr 1
      have h1 : max (L.top + 1) lim = max L.top lim := by
        rw [max_eq_right (by omega), max_eq_right (by omega)]
      have h2 : nilmem (Function.update L.mem L.top TValue.nil) (L.top + 1) lim
          = nilmem L.mem L.top lim := by
        funext a
        simp only [nilmem, Function.update_apply]
        split_ifs <;> first | rfl | omega
      simp only [h1, h2]
    · rename_i hge
      rw [max_eq_left (by omega)]
      have : nilmem L.mem L.top lim = L.mem := by
        funext a
        simp only [nilmem]
        rw [if_neg (by omega)]
      rw [this]

/-- The state `lua_settop` returns for a non-negative argument, in closed form. -/
theorem lua_settop_nonneg (L : lua_State) (idx : Int) (h : 0 ≤ idx) :
    lua_settop L idx =
      some { L with mem := nilmem L.mem L.top ((L.ci.func + 1) + idx),
                    top := (L.ci.func + 1) + idx } := by
  unfold lua_settop
  simp only [ge_iff_le, h, if_true]
  rw [settop_loop_eq _ L _ (le_refl _)]

/-- The state `lua_settop` returns for a negative argument. -/
theorem lua_settop_neg (L : lua_State) (idx : Int) (h : idx < 0) :
    lua_settop L idx = some { L with top := L.top + (idx + 1) } := by
  unfold lua_settop
  rw [if_neg (by omega)]

/-- C8: for `k >= 0` accepted by the bounds check of `lua_settop`, `lua_gettop` after
`lua_settop(L, k)` is `k`; for a negative `idx` accepted by the check, `lua_gettop`
afterwards is the previous `gettop + idx + 1`; so `lua_settop(L, -1)` changes nothing and
`lua_settop(L, -n-1)` removes exactly the `n` topmost values. -/
theorem lua_settop_gettop (L : lua_State) (idx : Int) :
    (0 ≤ idx → idx ≤ L.stack_last - (L.ci.func + 1) →
      ∃ L1, lua_settop L idx = some L1 ∧ lua_gettop L1 = idx) ∧
    (idx < 0 → -(idx + 1) ≤ lua_gettop L →
      ∃ L1, lua_settop L idx = some L1 ∧ lua_gettop L1 = lua_gettop L + idx + 1 ∧
        L1.mem = L.mem) ∧
    lua_settop L (-1) = some L ∧
    (∀ n : Int, 0 ≤ n → n ≤ lua_gettop L →
      ∃ L1, lua_settop L (-n - 1) = some L1 ∧ lua_gettop L1 = lua_gettop L - n ∧
        L1.mem = L.mem) := by
  refine ⟨?_, ?_, ?_, ?_⟩
  · intro h _
    refine ⟨_, lua_settop_nonneg L idx h, ?_⟩
    simp only [lua_gettop]
    omega
  · intro h _
    refine ⟨_, lua_settop_neg L idx h, ?_, rfl⟩
    simp only [lua_gettop]
    omega
  · rw [lua_settop_neg L (-1) (by omega)]
    have : L.top + (-1 + 1) = L.top := by omega
    rw [this]
  · intro n h _
    refine ⟨_, lua_settop_neg L (-n - 1) (by omega), ?_, rfl⟩
    simp only [lua_gettop]
    omega

/-- Instance of C8 on the sample thread: `lua_settop(L, 6)` and `lua_settop(L, -3)`. -/
theorem lua_settop_gettop_witness :
    ((0 : Int) ≤ 6 ∧ (6 : Int) ≤ sampleL.stack_last - (sampleL.ci.func + 1) ∧
      ∃ L1, lua_settop sampleL 6 = some L1 ∧ lua_gettop L1 = 6) ∧
    ((-3 : Int) < 0 ∧ -((-3 : Int) + 1) ≤ lua_gettop sampleL ∧
      ∃ L1, lua_settop sampleL (-3) = some L1 ∧
        lua_gettop L1 = lua_gettop sampleL + (-3) + 1 ∧ L1.mem = sampleL.mem) :=
  ⟨⟨by decide, by decide, (lua_settop_gettop sampleL 6).1 (by decide) (by decide)⟩,
   ⟨by decide, by decide, (lua_settop_gettop sampleL (-3)).2.1 (by decide) (by decide)⟩⟩

/-- C9: with `t = gettop`, growing the stack to an acceptable `k >= t` leaves nil in the
slots of indices `t+1 .. k` and the slots of indices up to `t` unchanged; hence shrinking
to `j <= t` and growing back to `k` leaves nil at every index `j+1 .. k`, whatever those
slots held before the shrink. -/
theorem lua_settop_nil (L : lua_State) (k : Int)
    (hk0 : 0 ≤ k) (_hk : lua_gettop L ≤ k) (_hacc : k ≤ L.stack_last - (L.ci.func + 1)) :
    (∃ L1, lua_settop L k = some L1 ∧
      (∀ i, lua_gettop L < i → i ≤ k → L1.mem (L.ci.func + i) = TValue.nil) ∧
      (∀ i, i ≤ lua_gettop L → L1.mem (L.ci.func + i) = L.mem (L.ci.func + i))) ∧
    (∀ j, 0 ≤ j → j ≤ lua_gettop L →
      ∃ L1 L2, lua_settop L j = some L1 ∧ lua_settop L1 k = some L2 ∧
        lua_gettop L2 = k ∧
        (∀ i, j < i → i ≤ k → L2.mem (L.ci.func + i) = TValue.nil) ∧
        (∀ i, i ≤ j → L2.mem (L.ci.func + i) = L.mem (L.ci.func + i))) := by
  unfold lua_gettop at *
  refine ⟨⟨_, lua_settop_nonneg L k hk0, ?_, ?_⟩, ?_⟩
  · intro i h1 h2
    simp only [nilmem]
    rw [if_pos (by omega)]
  · intro i h1
    simp only [nilmem]
    rw [if_neg (by omega)]
  · intro j hj0 hj
    refine ⟨_, _, lua_settop_nonneg L j hj0, lua_settop_nonneg _ k hk0, ?_, ?_, ?_⟩
    · simp only
      omega
    · intro i h1 h2
      simp only [nilmem]
      rw [if_pos (by omega)]
    · intro i h1
      simp only [nilmem]
      rw [if_neg (by omega), if_neg (by omega)]

/-- Instance of C9 on the sample thread (`gettop = 4`): growing to 6 exposes nil in the
slots of indices 5 and 6, which held stale booleans. -/
theorem lua_settop_nil_witness :
    (0 : Int) ≤ 6 ∧ lua_gettop sampleL ≤ 6 ∧
    (6 : Int) ≤ sampleL.stack_last - (sampleL.ci.func + 1) ∧
    sampleL.mem (sampleL.ci.func + 5) = TValue.boolean true ∧
    ∃ L1, lua_settop sampleL 6 = some L1 ∧
      (∀ i, lua_gettop sampleL < i → i ≤ 6 → L1.mem (sampleL.ci.func + i) = TValue.nil) ∧
      (∀ i, i ≤ lua_gettop sampleL →
        L1.mem (sampleL.ci.func + i) = sampleL.mem (sampleL.ci.func + i)) :=
  ⟨by decide, by decide, by decide, by decide,
   (lua_settop_nil sampleL 6 (by decide) (by decide) (by decide)).1⟩

/-! ## C closures: theorems -/

/-- With enough fuel the upvalue-filling loop of `lua_pushcclosure` ends; it copies the
slots `top .. top + n - 1` into the cells `0 .. n - 1` of the closure and touches neither
the stack nor the closure's other fields. -/
theorem pushcclosure_loop_spec (fuel : Nat) : ∀ (L : lua_State) (cl : Nat) (n : Int),
    0 ≤ n → n.toNat ≤ fuel →
    ∃ L1, pushcclosure_loop fuel L cl n = some L1 ∧
      L1.mem = L.mem ∧ L1.top = L.top ∧ L1.ci = L.ci ∧
      (L1.l_G.cclosures cl).nupvalues = (L.l_G.cclosures cl).nupvalues ∧
      (∀ i, 0 ≤ i → i < n → (L1.l_G.cclosures cl).upvalue i = L.mem (L.top + i)) ∧
      (∀ i, n ≤ i → (L1.l_G.cclosures cl).upvalue i = (L.l_G.cclosures cl).upvalue i) := by
  induction fuel with
  | zero =>
    intro L cl n h0 h
    have hn : n = 0 := by omega
    subst hn
    refine ⟨L, by simp [pushcclosure_loop], rfl, rfl, rfl, rfl, ?_, fun _ _ => rfl⟩
    intro i h1 h2
    omega
  | succ fuel ih =>
    intro L cl n h0 h
    by_cases hn : n = 0
    · subst hn
      refine ⟨L, by simp [pushcclosure_loop], rfl, rfl, rfl, rfl, ?_, fun _ _ => rfl⟩
      intro i h1 h2
      omega
    · obtain ⟨L1, hL1, hmem, htop, hci, hnup, hcopy, hrest⟩ :=
        ih (setobj2n_upvalue L cl (n - 1) (L.mem (L.top + (n - 1)))) cl (n - 1)
          (by omega) (by omega)
      refine ⟨L1, ?_, hmem, htop, hci, ?_, ?_, ?_⟩
      · simp only [pushcclosure_loop, ne_eq, hn, not_false_eq_true, if_true]
        exact hL1
      · rw [hnup]
        simp [setobj2n_upvalue]
      · intro i h1 h2
        by_cases hi : i < n - 1
        · rw [hcopy i h1 hi]
          rfl
        · have hi2 : i = n - 1 := by omega
          rw [hrest i (by omega), hi2]
          simp [setobj2n_upvalue]
      · intro i h1
        rw [hrest i (by omega)]
        have : i ≠ n - 1 := by omega
        simp [setobj2n_upvalue, this]

/-- C10: with `n` values `v1 .. vn` on top of the stack (`vi` in slot `top - n + (i - 1)`)
and `1 <= n <= MAXUPVAL`, `lua_pushcclosure` replaces them by one C closure, so `gettop`
becomes the previous `gettop - n + 1`, and for every `i` in `1 .. n` `lua_getupvalue` on
that closure returns a non-NULL name and pushes exactly `vi`. -/
theorem lua_pushcclosure_getupvalue (K : LuaConf) (L : lua_State) (fn : Nat) (n : Int)
    (cl : Nat) (h1 : 1 ≤ n) (_h2 : n ≤ K.MAXUPVAL) :
    ∃ L1, lua_pushcclosure L fn n cl = some L1 ∧
      lua_gettop L1 = lua_gettop L - n + 1 ∧
      L1.mem (L1.top - 1) = TValue.ccl cl ∧
      (∀ a, a < L.top - n → L1.mem a = L.mem a) ∧
      ∀ i, 1 ≤ i → i ≤ n →
        ∀ fidx, index2addr K L1 fidx = some (Addr.stack (L1.top - 1)) →
          ∃ name L2, lua_getupvalue K L1 fidx i = some (some name, L2) ∧
            lua_gettop L2 = lua_gettop L1 + 1 ∧
            L2.mem (L2.top - 1) = L.mem (L.top - n + (i - 1)) ∧
            (∀ a, a < L1.top → L2.mem a = L1.mem a) := by
  obtain ⟨L4, hL4, hmem, htop, hci, hnup, hcopy, _⟩ :=
    pushcclosure_loop_spec n.toNat
      ({ setclf (luaF_newCclosure L n cl) cl fn with
          top := (setclf (luaF_newCclosure L n cl) cl fn).top - n }) cl n
      (by omega) (le_refl _)
  have hn0 : n ≠ 0 := by omega
  simp only [setclf, luaF_newCclosure] at hmem htop hci hnup hcopy
  simp only [Function.update_same] at hnup
  refine ⟨luaC_checkGC (api_incr_top
    { L4 with mem := Function.update L4.mem L4.top (TValue.ccl cl) }), ?_, ?_, ?_, ?_, ?_⟩
  · unfold lua_pushcclosure
    simp only [hn0, if_false, hL4]
  · simp only [lua_gettop, luaC_checkGC, api_incr_top, htop, hci]
    omega
  · simp only [luaC_checkGC, api_incr_top]
    have : L4.top + 1 - 1 = L4.top := by omega
    rw [this, Function.update_same]
  · intro a ha
    simp only [luaC_checkGC, api_incr_top, hmem]
    rw [Function.update_noteq (by omega)]
  · intro i hi1 hi2 fidx hf
    simp only [luaC_checkGC, api_incr_top] at hf ⊢
    have hget : getobj (luaC_checkGC (api_incr_top
        { L4 with mem := Function.update L4.mem L4.top (TValue.ccl cl) }))
        (Addr.stack (L4.top + 1 - 1)) = TValue.ccl cl := by
      simp only [getobj, luaC_checkGC, api_incr_top]
      have : L4.top + 1 - 1 = L4.top := by omega
      rw [this, Function.update_same]
    simp only [luaC_checkGC, api_incr_top] at hget
    unfold lua_getupvalue
    simp only [hf]
    unfold aux_upvalue
    simp only [hget, hnup, hi1, hi2, decide_True, Bool.and_self, Bool.not_true,
      Bool.false_eq_true, if_false]
    refine ⟨_, _, rfl, ?_, ?_, ?_⟩
    · simp only [lua_gettop, api_incr_top]
      omega
    · simp only [api_incr_top, getobj]
      have : L4.top + 1 + 1 - 1 = L4.top + 1 := by omega
      rw [this, Function.update_same, hcopy (i - 1) (by omega) (by omega)]
    · intro a ha
      simp only [api_incr_top]
      rw [Function.update_noteq (by omega)]

/-- Instance of C10 on the sample thread: a closure over the two topmost values. -/
theorem lua_pushcclosure_getupvalue_witness :
    (1 : Int) ≤ 2 ∧ (2 : Int) ≤ sampleConf.MAXUPVAL ∧
    ∃ L1, lua_pushcclosure sampleL 9 2 3 = some L1 ∧
      lua_gettop L1 = lua_gettop sampleL - 2 + 1 ∧
      L1.mem (L1.top - 1) = TValue.ccl 3 ∧
      (∀ a, a < sampleL.top - 2 → L1.mem a = sampleL.mem a) ∧
      ∀ i, 1 ≤ i → i ≤ 2 →
        ∀ fidx, index2addr sampleConf L1 fidx = some (Addr.stack (L1.top - 1)) →
          ∃ name L2, lua_getupvalue sampleConf L1 fidx i = some (some name, L2) ∧
            lua_gettop L2 = lua_gettop L1 + 1 ∧
            L2.mem (L2.top - 1) = sampleL.mem (sampleL.top - 2 + (i - 1)) ∧
            (∀ a, a < L1.top → L2.mem a = L1.mem a) :=
  ⟨by decide, by decide,
   lua_pushcclosure_getupvalue sampleConf sampleL 9 2 3 (by decide) (by decide)⟩

/-! ## Stack growth: theorems -/

/-- The three ways through the first part of `lua_checkstack`. -/
theorem lua_checkstack_cases (X : LuaLimits) (L : lua_State) (n : Int)
    (newsize : Option Int) :
    let r := lua_checkstack X L n newsize
    let g := luaD_rawrunprotected_growstack X L n newsize
    (r.res = 0 ∧ r.L = L ∧
        (r.attempted = false ∨ (r.attempted = true ∧ g.1 ≠ Status.LUA_OK))) ∨
    (r.res = 1 ∧ (r.attempted = false ∨ (r.attempted = true ∧ g.1 = Status.LUA_OK)) ∧
      r.L.top = L.top ∧ r.L.mem = L.mem ∧ r.L.top + n ≤ r.L.ci.top ∧
      L.ci.top ≤ r.L.ci.top) := by
  intro r g
  simp only [r, g, lua_checkstack, luaD_rawrunprotected_growstack]
  by_cases h1 : L.stack_last - L.top > n
  · right
    simp only [h1, if_true]
    by_cases h2 : L.ci.top < L.top + n
    · simp [h2]; omega
    · simp [h2]; omega
  · by_cases h2 : (L.top - L.stack) + X.EXTRA_STACK > X.LUAI_MAXSTACK - n
    · left
      simp [h1, h2]
    · cases newsize with
      | none =>
        left
        simp [h1, h2]
      | some sz =>
        right
        simp only [h1, h2, if_false, if_true]
        by_cases h3 : L.ci.top < L.top + n
        · simp [h3]; omega
        · simp [h3]; omega

/-- C15: when `lua_checkstack(L, n)` returns 1 the frame bound afterwards satisfies
`ci->top >= L->top + n`; the call never lowers `ci->top`, never changes `L->top` or the
content of any slot, and leaves `ci->top` as it was when it returns 0. -/
theorem lua_checkstack_frame (X : LuaLimits) (L : lua_State) (n : Int)
    (newsize : Option Int) :
    ((lua_checkstack X L n newsize).res = 0 ∨ (lua_checkstack X L n newsize).res = 1) ∧
    ((lua_checkstack X L n newsize).res = 1 →
      (lua_checkstack X L n newsize).L.top + n ≤ (lua_checkstack X L n newsize).L.ci.top) ∧
    L.ci.top ≤ (lua_checkstack X L n newsize).L.ci.top ∧
    (lua_checkstack X L n newsize).L.top = L.top ∧
    (lua_checkstack X L n newsize).L.mem = L.mem ∧
    ((lua_checkstack X L n newsize).res = 0 →
      (lua_checkstack X L n newsize).L.ci.top = L.ci.top) := by
  have h := lua_checkstack_cases X L n newsize
  simp only at h
  rcases h with ⟨h0, hL, _⟩ | ⟨h1, _, ht, hm, hb, hc⟩
  · rw [h0, hL]
    simp
  · rw [h1]
    exact ⟨Or.inr rfl, fun _ => hb, hc, ht, hm, fun h => absurd h (by decide)⟩

/-- Instance of C15: the sample thread has 15 free slots, asking for 3 succeeds without
growth and the frame bound moves from slot 6 to slot 8. -/
theorem lua_checkstack_frame_witness :
    (lua_checkstack sampleLimits sampleL 3 none).res = 1 ∧
    (lua_checkstack sampleLimits sampleL 3 none).L.top + 3
      ≤ (lua_checkstack sampleLimits sampleL 3 none).L.ci.top :=
  ⟨by decide,
   (lua_checkstack_frame sampleLimits sampleL 3 none).2.1 (by decide)⟩

/-- C16: `lua_checkstack(L, n)` returns 1 without attempting growth when
`stack_last - top > n`; otherwise it returns 0 without attempting growth when
`(top - stack) + EXTRA_STACK > LUAI_MAXSTACK - n`; otherwise it attempts the protected
growth and returns 1 exactly when that growth reports `LUA_OK`, so that a failed
allocation gives the result 0 (the call always returns a result). -/
theorem lua_checkstack_result (X : LuaLimits) (L : lua_State) (n : Int)
    (newsize : Option Int) (_hn : 0 ≤ n) :
    (L.stack_last - L.top > n →
      (lua_checkstack X L n newsize).res = 1 ∧
      (lua_checkstack X L n newsize).attempted = false) ∧
    (¬ L.stack_last - L.top > n →
      (L.top - L.stack) + X.EXTRA_STACK > X.LUAI_MAXSTACK - n →
      (lua_checkstack X L n newsize).res = 0 ∧
      (lua_checkstack X L n newsize).attempted = false) ∧
    (¬ L.stack_last - L.top > n →
      ¬ (L.top - L.stack) + X.EXTRA_STACK > X.LUAI_MAXSTACK - n →
      (lua_checkstack X L n newsize).attempted = true ∧
      ((lua_checkstack X L n newsize).res = 1 ↔
        (luaD_rawrunprotected_growstack X L n newsize).1 = Status.LUA_OK) ∧
      ((luaD_rawrunprotected_growstack X L n newsize).1 ≠ Status.LUA_OK →
        (lua_checkstack X L n newsize).res = 0) ∧
      (newsize = none → (lua_checkstack X L n newsize).res = 0)) := by
  refine ⟨?_, ?_, ?_⟩
  · intro h1
    simp only [lua_checkstack, h1, if_true]
    split <;> simp
  · intro h1 h2
    simp [lua_checkstack, h1, h2]
  · intro h1 h2
    cases newsize with
    | none => simp [lua_checkstack, luaD_rawrunprotected_growstack, h1, h2]
    | some sz =>
      simp only [lua_checkstack, luaD_rawrunprotected_growstack, h1, h2, if_false, if_true]
      split <;> simp

/-- Instance of C16: on the sample thread a request for 20 slots exceeds the 15 free ones,
the growth is attempted, and the failing allocator gives the result 0. -/
theorem lua_checkstack_result_witness :
    (0 : Int) ≤ 20 ∧ ¬ sampleL.stack_last - sampleL.top > 20 ∧
    ¬ (sampleL.top - sampleL.stack) + sampleLimits.EXTRA_STACK
      > sampleLimits.LUAI_MAXSTACK - 20 ∧
    (lua_checkstack sampleLimits sampleL 20 none).attempted = true ∧
    (lua_checkstack sampleLimits sampleL 20 none).res = 0 :=
  ⟨by decide, by decide, by decide,
   ((lua_checkstack_result sampleLimits sampleL 20 none (by decide)).2.2
      (by decide) (by decide)).1,
   ((lua_checkstack_result sampleLimits sampleL 20 none (by decide)).2.2
      (by decide) (by decide)).2.2.2 rfl⟩

/-! ## Collector control: theorems -/

/-- One call of `lua_gc` keeps a step multiplier of at least 40 at least 40. -/
theorem lua_gc_stepmul_ge (C : Collector) (L : lua_State) (what : GcWhat) (data : Int)
    (h : 40 ≤ L.l_G.gcstepmul) : 40 ≤ (lua_gc C L what data).2.l_G.gcstepmul := by
  cases what <;> simp only [lua_gc, luaE_setdebt, setcounters] <;> try exact h
  · split
    · exact h
    · split <;> exact h
  · split <;> omega

/-- C17: `lua_gc(L, LUA_GCSETSTEPMUL, data)` returns the step multiplier in force before
the call and leaves `gcstepmul = max(data, 40)`; starting from `gcstepmul >= 40`, no
sequence of `lua_gc` calls makes `gcstepmul` smaller than 40. -/
theorem lua_gc_setstepmul (C : Collector) (L : lua_State) (data : Int) :
    (lua_gc C L GcWhat.LUA_GCSETSTEPMUL data).1 = L.l_G.gcstepmul ∧
    (lua_gc C L GcWhat.LUA_GCSETSTEPMUL data).2.l_G.gcstepmul = max data 40 ∧
    (∀ calls : List (GcWhat × Int), 40 ≤ L.l_G.gcstepmul →
      40 ≤ (lua_gc_seq C L calls).l_G.gcstepmul) := by
  refine ⟨rfl, ?_, ?_⟩
  · simp only [lua_gc]
    split
    · rw [max_eq_right (by omega)]
    · rw [max_eq_left (by omega)]
  · intro calls
    induction calls generalizing L with
    | nil => exact fun h => h
    | cons c rest ih =>
      intro h
      exact ih (lua_gc C L c.1 c.2).2 (lua_gc_stepmul_ge C L c.1 c.2 h)

/-- Instance of C17 on the sample thread (step multiplier 200): a request for 5 is
clamped to 40 and a following step leaves it there. -/
theorem lua_gc_setstepmul_witness :
    (40 : Int) ≤ sampleL.l_G.gcstepmul ∧
    40 ≤ (lua_gc_seq sampleCollector sampleL
      [(GcWhat.LUA_GCSETSTEPMUL, 5), (GcWhat.LUA_GCSTEP, 0)]).l_G.gcstepmul :=
  ⟨by decide, (lua_gc_setstepmul sampleCollector sampleL 0).2.2 _ (by decide)⟩

/-- C18: when the byte count `B = totalbytes + GCdebt` satisfies `0 <= B < 2^41`, the
results of `LUA_GCCOUNT` and `LUA_GCCOUNTB` satisfy `count * 1024 + countb = B` with
`0 <= countb <= 1023`, and neither query modifies the state. -/
theorem lua_gc_count (C : Collector) (L : lua_State)
    (h0 : 0 ≤ L.l_G.totalbytes + L.l_G.GCdebt)
    (h1 : L.l_G.totalbytes + L.l_G.GCdebt < 2 ^ 41) :
    (lua_gc C L GcWhat.LUA_GCCOUNT 0).1 * 1024 + (lua_gc C L GcWhat.LUA_GCCOUNTB 0).1
      = L.l_G.totalbytes + L.l_G.GCdebt ∧
    0 ≤ (lua_gc C L GcWhat.LUA_GCCOUNTB 0).1 ∧
    (lua_gc C L GcWhat.LUA_GCCOUNTB 0).1 ≤ 1023 ∧
    (lua_gc C L GcWhat.LUA_GCCOUNT 0).2 = L ∧
    (lua_gc C L GcWhat.LUA_GCCOUNTB 0).2 = L := by
  simp only [lua_gc, gettotalbytes, cast_lu_mem, cast_int]
  norm_num at h1 ⊢
  omega

/-- Instance of C18 on a thread with 5000 bytes allocated: 4 kilobytes and 904 bytes. -/
theorem lua_gc_count_witness :
    (0 : Int) ≤ sampleBytes.l_G.totalbytes + sampleBytes.l_G.GCdebt ∧
    sampleBytes.l_G.totalbytes + sampleBytes.l_G.GCdebt < 2 ^ 41 ∧
    (lua_gc sampleCollector sampleBytes GcWhat.LUA_GCCOUNT 0).1 * 1024
      + (lua_gc sampleCollector sampleBytes GcWhat.LUA_GCCOUNTB 0).1
      = sampleBytes.l_G.totalbytes + sampleBytes.l_G.GCdebt :=
  ⟨by simp [sampleBytes], by simp [sampleBytes],
   (lua_gc_count sampleCollector sampleBytes (by simp [sampleBytes])
      (by simp [sampleBytes])).1⟩

/-! ## Dump: theorems -/

/-- C19: when the value on top of the stack is not a script function (a C closure and a
light C function included), `lua_dump` returns the non-zero status 1, does not invoke the
serializer and so never the writer, and leaves the state unchanged; for a script function
it returns exactly the status the serializer reports. -/
theorem lua_dump_status (luaU_dump : lua_State → Proto → Int × lua_State) (L : lua_State) :
    ((∀ r, L.mem (L.top - 1) ≠ TValue.lcl r) →
      (lua_dump luaU_dump L).status = 1 ∧ (lua_dump luaU_dump L).status ≠ 0 ∧
      (lua_dump luaU_dump L).serialized = false ∧ (lua_dump luaU_dump L).L = L) ∧
    (∀ r, L.mem (L.top - 1) = TValue.lcl r →
      (lua_dump luaU_dump L).status = (luaU_dump L (L.l_G.lclosures r).p).1 ∧
      (lua_dump luaU_dump L).serialized = true) := by
  refine ⟨?_, ?_⟩
  · intro h
    unfold lua_dump
    cases hv : L.mem (L.top - 1) <;> simp
  · intro r hr
    unfold lua_dump
    simp [hr]

/-- Instance of C19 on the sample thread, whose top value is nil. -/
theorem lua_dump_status_witness :
    (∀ r, sampleL.mem (sampleL.top - 1) ≠ TValue.lcl r) ∧
    (lua_dump (fun L _ => (0, L)) sampleL).status = 1 ∧
    (lua_dump (fun L _ => (0, L)) sampleL).serialized = false := by
  have hn : ∀ r, sampleL.mem (sampleL.top - 1) ≠ TValue.lcl r := by
    intro r
    rw [show sampleL.mem (sampleL.top - 1) = TValue.nil from by decide]
    simp
  exact ⟨hn, ((lua_dump_status (fun L _ => (0, L)) sampleL).1 hn).1,
    ((lua_dump_status (fun L _ => (0, L)) sampleL).1 hn).2.2.1⟩

/-! ## Writing upvalues: theorems -/

/-- A store through an address other than `luaO_nilobject` succeeds, and reading the
address back gives the stored value. -/
theorem setobj_get_same (L : lua_State) (a : Addr) (v : TValue) (ha : a ≠ Addr.nilobject) :
    ∃ L1, setobj L a v = some L1 ∧ getobj L1 a = v := by
  cases a with
  | nilobject => exact absurd rfl ha
  | stack o => exact ⟨_, rfl, by simp [getobj]⟩
  | registry => exact ⟨_, rfl, by simp [getobj]⟩
  | upvalue c i => exact ⟨_, rfl, by simp [getobj, setobj2n_upvalue]⟩
  | upval u => exact ⟨_, rfl, by simp [getobj]⟩

/-- A store leaves every other location, `top`, the frame, the script closures, the
upvalue counts of the C closures and the stack aliases of the cells as they were. -/
theorem setobj_frame (L L1 : lua_State) (a : Addr) (v : TValue)
    (h : setobj L a v = some L1) :
    (∀ b, b ≠ a → getobj L1 b = getobj L b) ∧ L1.top = L.top ∧ L1.ci = L.ci ∧
    L1.l_G.lclosures = L.l_G.lclosures ∧
    (∀ c, (L1.l_G.cclosures c).nupvalues = (L.l_G.cclosures c).nupvalues) ∧
    (∀ u, (L1.l_G.upvals u).v = (L.l_G.upvals u).v) := by
  cases a with
  | nilobject => simp [setobj] at h
  | stack o =>
    simp only [setobj, Option.some.injEq] at h
    subst h
    refine ⟨?_, rfl, rfl, rfl, fun _ => rfl, fun _ => rfl⟩
    intro b hb
    cases b <;> simp only [getobj]
    rename_i o1
    rw [Function.update_noteq]
    intro ho
    exact hb (by rw [ho])
  | registry =>
    simp only [setobj, Option.some.injEq] at h
    subst h
    refine ⟨?_, rfl, rfl, rfl, fun _ => rfl, fun _ => rfl⟩
    intro b hb
    cases b <;> simp only [getobj]
    exact absurd rfl hb
  | upvalue c i =>
    simp only [setobj, Option.some.injEq] at h
    subst h
    refine ⟨?_, rfl, rfl, rfl, ?_, fun _ => rfl⟩
    · intro b hb
      cases b <;> simp only [getobj, setobj2n_upvalue]
      rename_i c1 i1
      by_cases hc : c1 = c
      · subst hc
        rw [Function.update_same]
        simp only
        rw [Function.update_noteq]
        intro hi
        exact hb (by rw [hi])
      · rw [Function.update_noteq hc]
    · intro c1
      simp only [setobj2n_upvalue]
      by_cases hc : c1 = c
      · subst hc
        rw [Function.update_same]
      · rw [Function.update_noteq hc]
  | upval u =>
    simp only [setobj, Option.some.injEq] at h
    subst h
    refine ⟨?_, rfl, rfl, rfl, fun _ => rfl, ?_⟩
    · intro b hb
      cases b <;> simp only [getobj]
      rename_i u1
      rw [Function.update_noteq]
      intro hu
      exact hb (by rw [hu])
    · intro u1
      simp only
      by_cases hu : u1 = u
      · subst hu
        rw [Function.update_same]
      · rw [Function.update_noteq hu]

/-- The location `aux_upvalue` reports is never `luaO_nilobject`. -/
theorem aux_upvalue_val_ne (L : lua_State) (fi : Addr) (n : Int) (r : UpvalueInfo)
    (h : aux_upvalue L fi n = some r) : r.val ≠ Addr.nilobject := by
  unfold aux_upvalue at h
  cases hv : getobj L fi <;> rw [hv] at h <;> simp at h
  · obtain ⟨_, h⟩ := h
    subst h
    simp only
    split <;> simp
  · obtain ⟨_, h⟩ := h
    subst h
    simp

/-- The function `aux_upvalue` gives a result exactly for a C closure or a script closure
and a slot `n` within its upvalue count. -/
theorem aux_upvalue_isSome (L : lua_State) (fi : Addr) (n : Int) :
    (∃ r, aux_upvalue L fi n = some r) ↔
      (∃ c, getobj L fi = TValue.ccl c ∧ 1 ≤ n ∧ n ≤ (L.l_G.cclosures c).nupvalues) ∨
      (∃ c, getobj L fi = TValue.lcl c ∧ 1 ≤ n ∧ n ≤ (L.l_G.lclosures c).p.sizeupvalues) := by
  unfold aux_upvalue
  cases hv : getobj L fi <;> simp

/-- Lowering `top` changes the value at no address. -/
theorem getobj_settop (L : lua_State) (t : Int) (a : Addr) :
    getobj { L with top := t } a = getobj L a := by
  cases a <;> rfl

/-! ## Sharing upvalues: theorems -/

/-- Index resolution reads the frame, `top`, the stack slots and the C closures only. -/
theorem index2addr_congr (K : LuaConf) (L L1 : lua_State) (idx : Int)
    (hci : L1.ci = L.ci) (htop : L1.top = L.top) (hmem : L1.mem = L.mem)
    (hcc : L1.l_G.cclosures = L.l_G.cclosures) :
    index2addr K L1 idx = index2addr K L idx := by
  unfold index2addr
  simp only [hci, htop, hmem, hcc]

/-- What `lua_setupvalue` does when `aux_upvalue` reports the upvalue `r`. -/
theorem lua_setupvalue_spec (K : LuaConf) (L : lua_State) (fidx n : Int) (fi : Addr)
    (r : UpvalueInfo) (hfi : index2addr K L fidx = some fi)
    (hr : aux_upvalue L fi n = some r) :
    ∃ L1, lua_setupvalue K L fidx n = some (some r.name, L1) ∧
      L1.top = L.top - 1 ∧ L1.ci = L.ci ∧
      getobj L1 r.val = L.mem (L.top - 1) ∧
      (∀ b, b ≠ r.val → getobj L1 b = getobj L b) ∧
      L1.l_G.lclosures = L.l_G.lclosures ∧
      (∀ c, (L1.l_G.cclosures c).nupvalues = (L.l_G.cclosures c).nupvalues) ∧
      (∀ u, (L1.l_G.upvals u).v = (L.l_G.upvals u).v) := by
  obtain ⟨L1, hset, hget⟩ :=
    setobj_get_same { L with top := L.top - 1 } r.val (L.mem (L.top - 1))
      (aux_upvalue_val_ne L fi n r hr)
  obtain ⟨hframe, htop, hci, hl, hc, hu⟩ := setobj_frame _ L1 _ _ hset
  simp only at htop hci hl hc hu
  have hb : ∀ b, b ≠ r.val → getobj L1 b = getobj L b := by
    intro b hb
    rw [hframe b hb, getobj_settop]
  unfold lua_setupvalue
  simp only [hfi, hr, hset]
  cases r.owner with
  | some owner => exact ⟨_, rfl, htop, hci, hget, hb, hl, hc, hu⟩
  | none =>
    cases r.uv with
    | some uv => exact ⟨_, rfl, htop, hci, hget, hb, hl, hc, hu⟩
    | none => exact ⟨_, rfl, htop, hci, hget, hb, hl, hc, hu⟩

/-- C13, the code at the failing input: on the sample thread every cell's reference count
equals the number of closure slots that reference it, and slot 1 of script closure 1
references the closed cell 5, which no other slot references.  Joining that slot with
itself makes `luaC_upvdeccount` release cell 5 (its count drops to 0) before the cell is
stored back into the slot: after the call the slot still references cell 5, whose count
is 1 again, and cell 5 has been released. -/
theorem lua_upvaluejoin_self_release :
    getupvalref sampleConf sampleJ 1 1 = some (1, 0) ∧
    (sampleJ.l_G.lclosures 1).upvals 0 = 5 ∧
    (sampleJ.l_G.lclosures 2).upvals 0 = 6 ∧
    (sampleJ.l_G.upvals 5).refcount = 1 ∧ (sampleJ.l_G.upvals 6).refcount = 1 ∧
    upisopen (sampleJ.l_G.upvals 5) = false ∧ (sampleJ.l_G.upvals 5).freed = false ∧
    ((luaC_upvdeccount sampleJ 5).l_G.upvals 5).refcount = 0 ∧
    ((luaC_upvdeccount sampleJ 5).l_G.upvals 5).freed = true ∧
    (lua_upvaluejoin sampleConf sampleJ 1 1 1 1).map
        (fun L1 => ((L1.l_G.lclosures 1).upvals 0, (L1.l_G.upvals 5).refcount,
          (L1.l_G.upvals 5).freed))
      = some (5, 1, true) := by
  decide

/-! ## Protected calls: theorems -/

/-- The offset of the error handler that `lua_pcallk` computes exists when `errfunc` is 0
or a stack index. -/
theorem pcallk_handler (K : LuaConf) (L : lua_State) (errfunc : Int)
    (hef : errfunc = 0 ∨ ∃ o, index2addr K L errfunc = some (Addr.stack o)) :
    ∃ fn, (if errfunc = 0 then some 0
      else match index2addr K L errfunc with
        | some (Addr.stack o) => some (savestack L o)
        | _ => none) = some fn := by
  by_cases h0 : errfunc = 0
  · exact ⟨0, by simp [h0]⟩
  · rcases hef with h | ⟨o, ho⟩
    · exact absurd h h0
    · exact ⟨savestack L o, by simp [h0, ho]⟩

/-- The error status of every kind of error differs from `LUA_OK`. -/
theorem ErrorCode.status_ne_ok (e : ErrorCode) : e.status ≠ Status.LUA_OK := by
  cases e <;> simp [ErrorCode.status]

/-- The macro `adjustresults` changes neither `top` nor a slot. -/
theorem adjustresults_top_mem (X : LuaLimits) (L : lua_State) (nres : Int) :
    (adjustresults X L nres).top = L.top ∧ (adjustresults X L nres).mem = L.mem := by
  unfold adjustresults
  split <;> exact ⟨rfl, rfl⟩

/-- When the callee returns normally, `lua_pcallk` returns `LUA_OK` in either branch, with
the results in the call region. -/
theorem lua_pcallk_returns (K : LuaConf) (X : LuaLimits) (L : lua_State)
    (nargs nresults errfunc ctx : Int) (k : Option Nat) (vals : List TValue)
    (hef : errfunc = 0 ∨ ∃ o, index2addr K L errfunc = some (Addr.stack o)) :
    ∃ L1, lua_pcallk K X L nargs nresults errfunc ctx k (Callee.returns vals)
        = some (Except.ok (Status.LUA_OK, L1)) ∧
      L1.top = L.top - (nargs + 1)
        + (if nresults = X.LUA_MULTRET then (vals.length : Int) else nresults) ∧
      L1.mem = putresults L.mem (L.top - (nargs + 1)) vals
        (if nresults = X.LUA_MULTRET then (vals.length : Int) else nresults) := by
  obtain ⟨fn, hfn⟩ := pcallk_handler K L errfunc hef
  by_cases hk : k = none ∨ L.nny > 0
  · apply Exists.intro
    apply And.intro
    · simp only [lua_pcallk, hfn, hk, if_true, luaD_pcall, f_call, luaD_callnoyield,
        luaD_call]
      rfl
    · exact ⟨(adjustresults_top_mem X _ nresults).1, (adjustresults_top_mem X _ nresults).2⟩
  · apply Exists.intro
    apply And.intro
    · simp only [lua_pcallk, hfn, hk, if_false, luaD_call]
      rfl
    · exact ⟨(adjustresults_top_mem X _ nresults).1, (adjustresults_top_mem X _ nresults).2⟩

/-- C14 fails as stated: with a continuation (`k` not NULL) on a thread that may yield
(`nny = 0`), `lua_pcallk` runs the callee through the direct call `luaD_call`; when the
callee raises an error the error leaves `lua_pcallk`, which returns no status. -/
theorem lua_pcallk_continuation_counterexample :
    sampleL.nny = 0 ∧
    lua_pcallk sampleConf sampleLimits sampleL 1 0 0 0 (some 1)
        (Callee.raises ErrorCode.ERRRUN (TValue.shrstr 9))
      = some (Except.error ⟨ErrorCode.ERRRUN, TValue.shrstr 9⟩) ∧
    ∀ st L1, lua_pcallk sampleConf sampleLimits sampleL 1 0 0 0 (some 1)
        (Callee.raises ErrorCode.ERRRUN (TValue.shrstr 9))
      ≠ some (Except.ok (st, L1)) := by
  refine ⟨rfl, rfl, ?_⟩
  intro st L1 h
  rw [show lua_pcallk sampleConf sampleLimits sampleL 1 0 0 0 (some 1)
        (Callee.raises ErrorCode.ERRRUN (TValue.shrstr 9))
      = some (Except.error ⟨ErrorCode.ERRRUN, TValue.shrstr 9⟩) from rfl] at h
  simp at h

/-- A bit that has just been set is found set. -/
theorem land_lor_self (x m : Nat) : Nat.land (Nat.lor x m) m = m := by
  apply Nat.eq_of_testBit_eq
  intro i
  show ((x ||| m) &&& m).testBit i = m.testBit i
  rw [Nat.testBit_land, Nat.testBit_lor]
  cases x.testBit i <;> cases m.testBit i <;> rfl

/-- C14, amended: with the function at slot `f = top - (nargs + 1)`: if the callee raises
an error, the outcome is a status different from `LUA_OK` with `top = f + 1` and the error
value in slot `f`; when no continuation is prepared (`k` is NULL or `nny > 0`),
`lua_pcallk` returns that status; when a continuation is prepared, the error leaves
`lua_pcallk`, which returns no status, and the recovery at the frame that `lua_pcallk`
marked passes the status to the continuation `k` with the context `ctx`, the error
handler being the one from before the call; if the callee returns normally, `lua_pcallk`
returns `LUA_OK` and leaves exactly `nresults` values starting at slot `f`
(`top = f + nresults`), or, when `nresults` is `LUA_MULTRET`, all the values the callee
returned. -/
theorem lua_pcallk_outcome (K : LuaConf) (X : LuaLimits) (L : lua_State)
    (nargs nresults errfunc ctx : Int) (k : Option Nat)
    (hM : X.LUA_MULTRET < 0)
    (hef : errfunc = 0 ∨ ∃ o, index2addr K L errfunc = some (Addr.stack o)) :
    (∀ e errobj, (k = none ∨ L.nny > 0) →
      ∃ L1, lua_pcallk K X L nargs nresults errfunc ctx k (Callee.raises e errobj)
          = some (Except.ok (e.status, L1)) ∧
        e.status ≠ Status.LUA_OK ∧
        L1.top = L.top - (nargs + 1) + 1 ∧ L1.mem (L.top - (nargs + 1)) = errobj) ∧
    (∀ e errobj, ¬ (k = none ∨ L.nny > 0) →
      lua_pcallk K X L nargs nresults errfunc ctx k (Callee.raises e errobj)
        = some (Except.error ⟨e, errobj⟩) ∧
      ∃ fn kf L1, pcallk_func K L errfunc = some fn ∧ k = some kf ∧
        recover (pcallk_prepare L (L.top - (nargs + 1)) fn ctx k) ⟨e, errobj⟩
          = some ⟨kf, ctx, e.status, L1⟩ ∧
        e.status ≠ Status.LUA_OK ∧
        L1.top = L.top - (nargs + 1) + 1 ∧ L1.mem (L.top - (nargs + 1)) = errobj ∧
        L1.errfunc = L.errfunc) ∧
    (∀ vals,
      ∃ L1, lua_pcallk K X L nargs nresults errfunc ctx k (Callee.returns vals)
          = some (Except.ok (Status.LUA_OK, L1)) ∧
        (0 ≤ nresults →
          L1.top = L.top - (nargs + 1) + nresults ∧
          ∀ i : Int, 0 ≤ i → i < nresults →
            L1.mem (L.top - (nargs + 1) + i) = vals.getD i.toNat TValue.nil) ∧
        (nresults = X.LUA_MULTRET →
          L1.top = L.top - (nargs + 1) + vals.length ∧
          ∀ i : Int, 0 ≤ i → i < vals.length →
            L1.mem (L.top - (nargs + 1) + i) = vals.getD i.toNat TValue.nil)) := by
  obtain ⟨fn, hfn⟩ := pcallk_handler K L errfunc hef
  refine ⟨?_, ?_, ?_⟩
  · intro e errobj hk
    apply Exists.intro
    apply And.intro
    · simp only [lua_pcallk, hfn, hk, if_true, luaD_pcall, f_call, luaD_callnoyield,
        luaD_call]
      rfl
    · refine ⟨ErrorCode.status_ne_ok e, ?_, ?_⟩
      · rw [(adjustresults_top_mem X _ nresults).1]
        simp only [restorestack, savestack]
        omega
      · rw [(adjustresults_top_mem X _ nresults).2]
        simp only [restorestack, savestack]
        have : L.stack + (L.top - (nargs + 1) - L.stack) = L.top - (nargs + 1) := by omega
        rw [this, Function.update_same]
  · intro e errobj hk
    refine ⟨by simp only [lua_pcallk, hfn, hk, if_false, luaD_call], ?_⟩
    have hks : ∃ kf, k = some kf := by
      cases k with
      | none => exact absurd (Or.inl rfl) hk
      | some kf => exact ⟨kf, rfl⟩
    obtain ⟨kf, hkf⟩ := hks
    have hoff : L.stack + (L.top - (nargs + 1) - L.stack) = L.top - (nargs + 1) := by omega
    refine ⟨fn, kf,
      { pcallk_prepare L (L.top - (nargs + 1)) fn ctx k with
        mem := Function.update L.mem (L.top - (nargs + 1)) errobj,
        top := L.top - (nargs + 1) + 1, errfunc := L.errfunc,
        allowhook :=
          getoah (pcallk_prepare L (L.top - (nargs + 1)) fn ctx k).ci.callstatus },
      hfn, hkf, ?_, ErrorCode.status_ne_ok e, rfl, Function.update_same _ _ _, rfl⟩
    simp only [recover, pcallk_prepare, land_lor_self, hkf, restorestack, savestack, hoff]
    rw [if_pos (by decide)]
  · intro vals
    obtain ⟨L1, hL1, htop, hmem⟩ :=
      lua_pcallk_returns K X L nargs nresults errfunc ctx k vals hef
    refine ⟨L1, hL1, ?_, ?_⟩
    · intro h0
      have hne : nresults ≠ X.LUA_MULTRET := by omega
      rw [if_neg hne] at htop hmem
      refine ⟨htop, ?_⟩
      intro i hi0 hi
      rw [hmem]
      simp only [putresults]
      rw [if_pos (by omega)]
      congr 2
      omega
    · intro hm
      rw [if_pos hm] at htop hmem
      refine ⟨htop, ?_⟩
      intro i hi0 hi
      rw [hmem]
      simp only [putresults]
      rw [if_pos (by omega)]
      congr 2
      omega

/-- Instance of the amended C14 on the sample thread: a protected call of the value at
slot 3 with one argument, which raises a runtime error, first without a continuation (the
status is returned) and then with the continuation 1 (the status is passed to it). -/
theorem lua_pcallk_outcome_witness :
    sampleLimits.LUA_MULTRET < 0 ∧
    ((0 : Int) = 0 ∨ ∃ o, index2addr sampleConf sampleL 0 = some (Addr.stack o)) ∧
    (∃ L1, lua_pcallk sampleConf sampleLimits sampleL 1 0 0 0 none
          (Callee.raises ErrorCode.ERRRUN (TValue.shrstr 9))
        = some (Except.ok (ErrorCode.ERRRUN.status, L1)) ∧
      ErrorCode.ERRRUN.status ≠ Status.LUA_OK ∧
      L1.top = sampleL.top - (1 + 1) + 1 ∧
      L1.mem (sampleL.top - (1 + 1)) = TValue.shrstr 9) ∧
    ¬ ((some 1 : Option Nat) = none ∨ sampleL.nny > 0) ∧
    (∃ fn kf L1, pcallk_func sampleConf sampleL 0 = some fn ∧
      (some 1 : Option Nat) = some kf ∧
      recover (pcallk_prepare sampleL (sampleL.top - (1 + 1)) fn 0 (some 1))
          ⟨ErrorCode.ERRRUN, TValue.shrstr 9⟩
        = some ⟨kf, 0, ErrorCode.ERRRUN.status, L1⟩ ∧
      ErrorCode.ERRRUN.status ≠ Status.LUA_OK ∧
      L1.top = sampleL.top - (1 + 1) + 1 ∧
      L1.mem (sampleL.top - (1 + 1)) = TValue.shrstr 9 ∧
      L1.errfunc = sampleL.errfunc) :=
  ⟨by decide, Or.inl rfl,
   (lua_pcallk_outcome sampleConf sampleLimits sampleL 1 0 0 0 none (by decide)
      (Or.inl rfl)).1 ErrorCode.ERRRUN (TValue.shrstr 9) (Or.inl rfl),
   by decide,
   ((lua_pcallk_outcome sampleConf sampleLimits sampleL 1 0 0 0 (some 1) (by decide)
      (Or.inl rfl)).2.1 ErrorCode.ERRRUN (TValue.shrstr 9) (by decide)).2⟩

/-! ## Raw table access: theorems -/

/-- C20 fails as stated: the value at index 1 of the sample thread is the integer 11, not
a table, and `lua_rawset(L, 1)` raises no error: the table test is an `api_check`
assertion, after which the code uses the integer as a table, so the call has no result,
and in particular no error that reaches a protected call. -/
theorem lua_rawset_nontable_counterexample :
    index2addr sampleConf sampleL 1 = some (Addr.stack 1) ∧
    getobj sampleL (Addr.stack 1) = TValue.integer 11 ∧
    (lua_rawset sampleConf sampleTableLib sampleL 1).isNone = true ∧
    ∀ e, lua_rawset sampleConf sampleTableLib sampleL 1 ≠ some (Except.error e) := by
  refine ⟨by decide, by decide, rfl, ?_⟩
  intro e h
  rw [show lua_rawset sampleConf sampleTableLib sampleL 1 = none from rfl] at h
  simp at h

/-- The macro `hvalue` gives no table exactly for a value that is not a table. -/
theorem hvalue_eq_none (L : lua_State) (t : Addr) (h : ∀ r, getobj L t ≠ TValue.table r) :
    hvalue L t = none := by
  unfold hvalue
  cases hv : getobj L t <;> simp
  exact absurd hv (h _)

/-- The macro `hvalue` on a table value. -/
theorem hvalue_eq_some (L : lua_State) (t : Addr) (r : Nat)
    (h : getobj L t = TValue.table r) : hvalue L t = some r := by
  unfold hvalue
  rw [h]

/-- C20, amended: for a value at `idx` that is not a table, none of the six raw access
operations has a result: the table test is an `api_check` assertion only, and no error is
raised or reported to a protected call.  For a table each of them reads or writes through
the table primitive on the table's own entries (an error can only come from the primitive
`luaH_set` or `luaH_setint`), so no metamethod is consulted. -/
theorem lua_raw_access (K : LuaConf) (T : TableLib) (L : lua_State) (idx : Int) (t : Addr)
    (ht : index2addr K L idx = some t) :
    ((∀ r, getobj L t ≠ TValue.table r) →
      ∀ (n : Int) (p : Nat),
        lua_rawget K T L idx = none ∧ lua_rawgeti K T L idx n = none ∧
        lua_rawgetp K T L idx p = none ∧ lua_rawset K T L idx = none ∧
        lua_rawseti K T L idx n = none ∧ lua_rawsetp K T L idx p = none) ∧
    (∀ r, getobj L t = TValue.table r →
      ∀ (n : Int) (p : Nat),
        lua_rawget K T L idx =
          some (ttnov (T.luaH_get (L.l_G.tables r) (L.mem (L.top - 1))),
            { L with
              mem := Function.update L.mem (L.top - 1)
                (T.luaH_get (L.l_G.tables r) (L.mem (L.top - 1))) }) ∧
        lua_rawgeti K T L idx n =
          some (ttnov (T.luaH_getint (L.l_G.tables r) n),
            api_incr_top { L with
              mem := Function.update L.mem L.top (T.luaH_getint (L.l_G.tables r) n) }) ∧
        lua_rawgetp K T L idx p =
          some (ttnov (T.luaH_get (L.l_G.tables r) (TValue.lightuserdata p)),
            api_incr_top { L with
              mem := Function.update L.mem L.top
                (T.luaH_get (L.l_G.tables r) (TValue.lightuserdata p)) }) ∧
        lua_rawset K T L idx =
          (match T.luaH_set (L.l_G.tables r) (L.mem (L.top - 2)) with
          | Except.error e => some (Except.error e)
          | Except.ok slot =>
            some (Except.ok { (logbarrier
                (settable L r (invalidateTMcache (slot (L.mem (L.top - 1)))))
                (BarrierCall.barrierback r (L.mem (L.top - 1))))
              with top := L.top - 2 })) ∧
        lua_rawseti K T L idx n =
          (match T.luaH_setint (L.l_G.tables r) n (L.mem (L.top - 1)) with
          | Except.error e => some (Except.error e)
          | Except.ok t1 =>
            some (Except.ok { (logbarrier (settable L r t1)
                (BarrierCall.barrierback r (L.mem (L.top - 1))))
              with top := L.top - 1 })) ∧
        lua_rawsetp K T L idx p =
          (match T.luaH_set (L.l_G.tables r) (TValue.lightuserdata p) with
          | Except.error e => some (Except.error e)
          | Except.ok slot =>
            some (Except.ok { (logbarrier (settable L r (slot (L.mem (L.top - 1))))
                (BarrierCall.barrierback r (L.mem (L.top - 1))))
              with top := L.top - 1 }))) := by
  refine ⟨?_, ?_⟩
  · intro hnt n p
    have hh := hvalue_eq_none L t hnt
    simp only [lua_rawget, lua_rawgeti, lua_rawgetp, lua_rawset, lua_rawseti, lua_rawsetp,
      ht, hh, and_self]
  · intro r hr n p
    have hh := hvalue_eq_some L t r hr
    refine ⟨?_, ?_, ?_, ?_, ?_, ?_⟩
    · simp only [lua_rawget, ht, hh, Function.update_same]
    · simp only [lua_rawgeti, ht, hh, api_incr_top]
      have : L.top + 1 - 1 = L.top := by omega
      rw [this, Function.update_same]
    · simp only [lua_rawgetp, ht, hh, api_incr_top]
      have : L.top + 1 - 1 = L.top := by omega
      rw [this, Function.update_same]
    · simp only [lua_rawset, ht, hh]
      cases T.luaH_set (L.l_G.tables r) (L.mem (L.top - 2)) with
      | error e => rfl
      | ok slot =>
        simp only [settable, logbarrier, Function.update_same, Function.update_idem]
    · simp only [lua_rawseti, ht, hh]
      cases T.luaH_setint (L.l_G.tables r) n (L.mem (L.top - 1)) with
      | error e => rfl
      | ok t1 => rfl
    · simp only [lua_rawsetp, ht, hh]
      cases T.luaH_set (L.l_G.tables r) (TValue.lightuserdata p) with
      | error e => rfl
      | ok slot => rfl

/-- Instance of the amended C20 on the sample thread, whose index 1 holds an integer. -/
theorem lua_raw_access_witness :
    index2addr sampleConf sampleL 1 = some (Addr.stack 1) ∧
    (∀ r, getobj sampleL (Addr.stack 1) ≠ TValue.table r) ∧
    lua_rawget sampleConf sampleTableLib sampleL 1 = none ∧
    lua_rawseti sampleConf sampleTableLib sampleL 1 1 = none := by
  have hn : ∀ r, getobj sampleL (Addr.stack 1) ≠ TValue.table r := by
    intro r
    rw [show getobj sampleL (Addr.stack 1) = TValue.integer 11 from by decide]
    simp
  have h := (lua_raw_access sampleConf sampleTableLib sampleL 1 (Addr.stack 1)
    (by decide)).1 hn 1 0
  exact ⟨by decide, hn, h.1, h.2.2.2.2.1⟩

/-! ## Arithmetic: theorems -/

/-- C21: when `luaO_arith` gives a result `r`: for a binary operator, `lua_arith(L, op)`
leaves `lua_gettop` one less than before, with `r` in the slot that held the first operand
(`top - 2`) and every other slot unchanged; for the unary operators `LUA_OPUNM` and
`LUA_OPBNOT`, applied to the operand and a copy of it, `lua_gettop` is unchanged and `r`
replaces the operand (slot `top - 1`), every slot below being unchanged.  After
`lua_pushinteger(L, 10)` and `lua_pushinteger(L, 20)` on an empty frame,
`lua_arith(L, LUA_OPADD)` returns and leaves exactly one value, the integer 30. -/
theorem lua_arith_effect (other : ArithOp → TValue → TValue → Except Thrown TValue)
    (L : lua_State) (op : ArithOp) :
    (op ≠ ArithOp.LUA_OPUNM → op ≠ ArithOp.LUA_OPBNOT →
      ∀ r, luaO_arith other op (L.mem (L.top - 2)) (L.mem (L.top - 1)) = Except.ok r →
      ∃ L1, lua_arith other L op = Except.ok L1 ∧ lua_gettop L1 = lua_gettop L - 1 ∧
        L1.mem (L.top - 2) = r ∧ L1.mem (L1.top - 1) = r ∧
        ∀ a, a ≠ L.top - 2 → L1.mem a = L.mem a) ∧
    (op = ArithOp.LUA_OPUNM ∨ op = ArithOp.LUA_OPBNOT →
      ∀ r, luaO_arith other op (L.mem (L.top - 1)) (L.mem (L.top - 1)) = Except.ok r →
      ∃ L1, lua_arith other L op = Except.ok L1 ∧ lua_gettop L1 = lua_gettop L ∧
        L1.mem (L.top - 1) = r ∧ L1.mem (L1.top - 1) = r ∧
        ∀ a, a < L.top - 1 → L1.mem a = L.mem a) ∧
    (lua_gettop L = 0 →
      ∃ L1, lua_arith other (lua_pushinteger (lua_pushinteger L 10) 20) ArithOp.LUA_OPADD
          = Except.ok L1 ∧
        lua_gettop L1 = 1 ∧ L1.mem (L1.top - 1) = TValue.integer 30) := by
  refine ⟨?_, ?_, ?_⟩
  · intro h1 h2 r hr
    unfold lua_arith
    simp only [h1, h2, ne_eq, not_false_eq_true, and_self, if_true, hr]
    refine ⟨_, rfl, ?_, ?_, ?_, ?_⟩
    · simp only [lua_gettop]
      omega
    · exact Function.update_same _ _ _
    · show Function.update L.mem (L.top - 2) r (L.top - 1 - 1) = r
      have : L.top - 1 - 1 = L.top - 2 := by omega
      rw [this, Function.update_same]
    · intro a ha
      exact Function.update_noteq ha _ _
  · intro h r hr
    have hc : ¬ (op ≠ ArithOp.LUA_OPUNM ∧ op ≠ ArithOp.LUA_OPBNOT) := by
      intro hh
      rcases h with h | h
      · exact hh.1 h
      · exact hh.2 h
    have e1 : L.top + 1 - 2 = L.top - 1 := by omega
    have e2 : L.top + 1 - 1 = L.top := by omega
    have e3 : L.top - 1 ≠ L.top := by omega
    unfold lua_arith
    simp only [hc, if_false, api_incr_top, e1, e2, Function.update_same,
      Function.update_noteq e3, hr]
    refine ⟨_, rfl, ?_, ?_, ?_, ?_⟩
    · simp only [lua_gettop]
    · exact Function.update_same _ _ _
    · exact Function.update_same _ _ _
    · intro a ha
      have ha1 : a ≠ L.top - 1 := by omega
      have ha2 : a ≠ L.top := by omega
      show Function.update (Function.update L.mem L.top _) (L.top - 1) r a = L.mem a
      rw [Function.update_noteq ha1, Function.update_noteq ha2]
  · intro h0
    have ht : L.top = L.ci.func + 1 := by
      unfold lua_gettop at h0
      omega
    have e1 : L.top + 1 + 1 - 2 = L.top := by omega
    have e2 : L.top + 1 + 1 - 1 = L.top + 1 := by omega
    have e3 : L.top ≠ L.top + 1 := by omega
    unfold lua_arith
    simp only [ne_eq, not_false_eq_true, and_self, if_true, lua_pushinteger, api_incr_top,
      e1, e2, Function.update_same, Function.update_noteq e3, luaO_arith, reduceCtorEq]
    refine ⟨_, rfl, ?_, ?_⟩
    · simp only [lua_gettop]
      omega
    · have e4 : L.top + 1 - 1 = L.top := by omega
      rw [e4]
      show Function.update _ L.top _ L.top = _
      rw [Function.update_same]
      rfl

/-- Instance of C21 on the sample thread with an empty frame: 10 + 20 leaves the single
value 30. -/
theorem lua_arith_effect_witness :
    ∃ L1, lua_arith sampleOther (lua_pushinteger (lua_pushinteger sampleE 10) 20)
        ArithOp.LUA_OPADD = Except.ok L1 ∧
      lua_gettop L1 = 1 ∧ L1.mem (L1.top - 1) = TValue.integer 30 :=
  (lua_arith_effect sampleOther sampleE ArithOp.LUA_OPADD).2.2 (by decide)

/-! ## Metatables: theorems -/

/-- Setting a metatable changes no stack slot, no closure, no upvalue and not the
registry, and leaves `top` and the frame as they were. -/
theorem setmt_frame (L : lua_State) (v : TValue) (mt : Option Nat) :
    (setmt L v mt).top = L.top ∧ (setmt L v mt).ci = L.ci ∧ (setmt L v mt).mem = L.mem ∧
    (setmt L v mt).l_G.cclosures = L.l_G.cclosures ∧
    (∀ a, getobj (setmt L v mt) a = getobj L a) := by
  have key : ∀ L1 : lua_State, L1.top = L.top → L1.ci = L.ci → L1.mem = L.mem →
      L1.l_G.cclosures = L.l_G.cclosures → L1.l_G.upvals = L.l_G.upvals →
      L1.l_G.l_registry = L.l_G.l_registry →
      L1.top = L.top ∧ L1.ci = L.ci ∧ L1.mem = L.mem ∧
      L1.l_G.cclosures = L.l_G.cclosures ∧ (∀ a, getobj L1 a = getobj L a) := by
    intro L1 h1 h2 h3 h4 h5 h6
    refine ⟨h1, h2, h3, h4, ?_⟩
    intro a
    cases a <;> simp only [getobj, h3, h4, h5, h6]
  cases v <;> cases mt <;> exact key _ rfl rfl rfl rfl rfl rfl

/-- The metatable found for the value whose metatable was just set is the one set. -/
theorem getmt_setmt_same (L : lua_State) (v : TValue) (mt : Option Nat) :
    getmt (setmt L v mt) v = mt := by
  cases v <;> cases mt <;>
    simp only [getmt, setmt, settable, setudata, logbarrier, Function.update_same]

/-- Setting the metatable of a value that is neither a table nor a full userdata sets it
for every such value of the same basic type, and for no table and no full userdata. -/
theorem getmt_setmt_type (L : lua_State) (v w : TValue) (mt : Option Nat)
    (hv1 : ∀ h, v ≠ TValue.table h) (hv2 : ∀ u, v ≠ TValue.userdata u) :
    ((∀ h, w ≠ TValue.table h) → (∀ u, w ≠ TValue.userdata u) → ttnov w = ttnov v →
      getmt (setmt L v mt) w = mt) ∧
    ((∀ h, w ≠ TValue.table h) → (∀ u, w ≠ TValue.userdata u) → ttnov w ≠ ttnov v →
      getmt (setmt L v mt) w = getmt L w) ∧
    (∀ h, w = TValue.table h → getmt (setmt L v mt) w = getmt L w) ∧
    (∀ u, w = TValue.userdata u → getmt (setmt L v mt) w = getmt L w) := by
  have hs : setmt L v mt =
      { L with l_G := { L.l_G with mt := Function.update L.l_G.mt (ttnov v) mt } } := by
    cases v with
    | table h => exact absurd rfl (hv1 h)
    | userdata u => exact absurd rfl (hv2 u)
    | _ => rfl
  rw [hs]
  refine ⟨?_, ?_, ?_, ?_⟩
  · intro hw1 hw2 ht
    cases w with
    | table h => exact absurd rfl (hw1 h)
    | userdata u => exact absurd rfl (hw2 u)
    | _ =>
      simp only [getmt]
      rw [ht, Function.update_same]
  · intro hw1 hw2 ht
    cases w with
    | table h => exact absurd rfl (hw1 h)
    | userdata u => exact absurd rfl (hw2 u)
    | _ =>
      simp only [getmt]
      rw [Function.update_noteq ht]
  · intro h e
    subst e
    rfl
  · intro u e
    subst e
    rfl

/-- Setting the metatable of a table or of a full userdata changes the metatable found
for no other value. -/
theorem getmt_setmt_individual (L : lua_State) (v w : TValue) (mt : Option Nat)
    (hv : (∃ h, v = TValue.table h) ∨ (∃ u, v = TValue.userdata u)) (hw : w ≠ v) :
    getmt (setmt L v mt) w = getmt L w := by
  rcases hv with ⟨h, rfl⟩ | ⟨u, rfl⟩
  · cases w with
    | table h1 =>
      have : h1 ≠ h := fun e => hw (by rw [e])
      cases mt <;>
        simp only [getmt, setmt, settable, logbarrier, Function.update_noteq this]
    | _ => cases mt <;> rfl
  · cases w with
    | userdata u1 =>
      have : u1 ≠ u := fun e => hw (by rw [e])
      cases mt <;>
        simp only [getmt, setmt, setudata, logbarrier, Function.update_noteq this]
    | _ => cases mt <;> rfl

/-- Lowering `top` changes the metatable found for no value. -/
theorem getmt_settop (L : lua_State) (t : Int) (v : TValue) :
    getmt { L with top := t } v = getmt L v := by
  cases v <;> rfl

/-- The result of `lua_getmetatable` in terms of the metatable found for the value. -/
theorem lua_getmetatable_eq (K : LuaConf) (L : lua_State) (j : Int) (a : Addr)
    (h : index2addr K L j = some a) :
    lua_getmetatable K L j =
      match getmt L (getobj L a) with
      | some m =>
        some (1, api_incr_top { L with mem := Function.update L.mem L.top (TValue.table m) })
      | none => some (0, L) := by
  unfold lua_getmetatable
  simp only [h]

/-- Only a table has the basic type `LUA_TTABLE`, and only a full userdata the basic
type `LUA_TUSERDATA`. -/
theorem ttnov_individual (v w : TValue) (h : ttnov w = ttnov v)
    (hv1 : ∀ h, v ≠ TValue.table h) (hv2 : ∀ u, v ≠ TValue.userdata u) :
    (∀ h, w ≠ TValue.table h) ∧ (∀ u, w ≠ TValue.userdata u) := by
  cases w with
  | table r =>
    cases v <;> simp [ttnov] at h
    exact absurd rfl (hv1 _)
  | userdata r =>
    cases v <;> simp [ttnov] at h
    exact absurd rfl (hv2 _)
  | _ => exact ⟨fun _ => by simp, fun _ => by simp⟩

/-- An index that designates a value below the popped slot, or a pseudo-index, designates
the same address after one value has been popped. -/
theorem index2addr_pop (K : LuaConf) (L : lua_State) (idx : Int) (a : Addr)
    (hreg : K.LUA_REGISTRYINDEX < 0) (h : index2addr K L idx = some a)
    (hidx : (0 < idx ∧ L.ci.func + idx < L.top - 1) ∨ idx ≤ K.LUA_REGISTRYINDEX) :
    index2addr K { L with top := L.top - 1 } idx = some a := by
  rcases hidx with ⟨h1, h2⟩ | h1
  · unfold index2addr at h ⊢
    simp only [gt_iff_lt, h1, if_true, ge_iff_le] at h ⊢
    rw [if_neg (by omega)] at h ⊢
    exact h
  · have hp : ispseudo K idx = true := by simp [ispseudo]; omega
    unfold index2addr at h ⊢
    rw [if_neg (by omega)] at h ⊢
    rw [if_neg (by simp [hp])] at h ⊢
    exact h

/-- Counterexample to C22 as stated: with table 1 at index 1, table 2 at index 2 and the
table 3 on top, `lua_setmetatable(L, -2)` makes table 3 the metatable of table 2 and pops
it; the index -2 then designates table 1, which has no metatable, so the following
`lua_getmetatable(L, -2)` returns 0 and pushes nothing. -/
theorem lua_setmetatable_relative_index_counterexample :
    sampleM.mem (sampleM.top - 1) = TValue.table 3 ∧
    index2addr sampleConf sampleM (-2) = some (Addr.stack 2) ∧
    ∃ L1, lua_setmetatable sampleConf sampleM (-2) = some (1, L1) ∧
      L1.top = sampleM.top - 1 ∧ (L1.l_G.tables 2).metatable = some 3 ∧
      index2addr sampleConf L1 (-2) = some (Addr.stack 1) ∧
      lua_getmetatable sampleConf L1 (-2) = some (0, L1) := by
  refine ⟨by decide, by decide, ?_⟩
  apply Exists.intro
  apply And.intro
  · rfl
  · exact ⟨by decide, by decide, by decide, rfl⟩

/-- C22 (amended): for every value at `objindex` and every table `M` (`mt = some M`) or
nil (`mt = none`) on top of the stack, `lua_setmetatable` returns 1, pops exactly one
value and changes no stack slot, upvalue or registry value.  A positive `objindex` below
the popped slot and a pseudo-index still designate the value after the pop, and for every
index that then designates the value a following `lua_getmetatable` returns 1 and pushes
`M`, or returns 0 and pushes nothing when nil was on top.  For a value that is neither a
table nor a full userdata the metatable is stored in the slot of its basic type, and
`lua_getmetatable` gives the same result for every value of that basic type; setting the
metatable of a table or full userdata changes the metatable of no other value. -/
theorem lua_setmetatable_getmetatable (K : LuaConf) (L : lua_State) (objindex : Int)
    (obj : Addr) (mt : Option Nat) (hreg : K.LUA_REGISTRYINDEX < 0)
    (hobj : index2addr K L objindex = some obj)
    (hmt : L.mem (L.top - 1) =
      match mt with
      | some M => TValue.table M
      | none => TValue.nil) :
    ∃ L1, lua_setmetatable K L objindex = some (1, L1) ∧
      lua_gettop L1 = lua_gettop L - 1 ∧ (∀ a, getobj L1 a = getobj L a) ∧
      ((0 < objindex ∧ L.ci.func + objindex < L.top - 1) ∨ objindex ≤ K.LUA_REGISTRYINDEX →
        index2addr K L1 objindex = some obj) ∧
      (∀ j a, index2addr K L1 j = some a → getobj L1 a = getobj L obj →
        lua_getmetatable K L1 j =
          match mt with
          | some M =>
            some (1, api_incr_top
              { L1 with mem := Function.update L1.mem L1.top (TValue.table M) })
          | none => some (0, L1)) ∧
      ((∀ h, getobj L obj ≠ TValue.table h) → (∀ u, getobj L obj ≠ TValue.userdata u) →
        L1.l_G.mt (ttnov (getobj L obj)) = mt ∧
        ∀ j a, index2addr K L1 j = some a →
          ttnov (getobj L1 a) = ttnov (getobj L obj) →
          lua_getmetatable K L1 j =
            match mt with
            | some M =>
              some (1, api_incr_top
                { L1 with mem := Function.update L1.mem L1.top (TValue.table M) })
            | none => some (0, L1)) ∧
      ((∃ h, getobj L obj = TValue.table h) ∨ (∃ u, getobj L obj = TValue.userdata u) →
        ∀ w, w ≠ getobj L obj → getmt L1 w = getmt L w) := by
  obtain ⟨htop, hci, hmem, hcc, hget⟩ := setmt_frame L (getobj L obj) mt
  refine ⟨{ setmt L (getobj L obj) mt with top := (setmt L (getobj L obj) mt).top - 1 },
    ?_, ?_, ?_, ?_, ?_, ?_, ?_⟩
  · unfold lua_setmetatable
    simp only [hobj, hmt]
    cases mt <;> rfl
  · simp only [lua_gettop, htop, hci]
    omega
  · intro a
    rw [getobj_settop, hget]
  · intro hidx
    have ht : (setmt L (getobj L obj) mt).top - 1 = L.top - 1 := by rw [htop]
    exact (index2addr_congr K { L with top := L.top - 1 }
      { setmt L (getobj L obj) mt with top := (setmt L (getobj L obj) mt).top - 1 }
      objindex hci ht hmem hcc).trans (index2addr_pop K L objindex obj hreg hobj hidx)
  · intro j a hj ha
    rw [lua_getmetatable_eq K _ j a hj, ha, getmt_settop, getmt_setmt_same]
    cases mt <;> rfl
  · intro h1 h2
    refine ⟨?_, ?_⟩
    · have := getmt_setmt_same L (getobj L obj) mt
      cases hv : getobj L obj with
      | table h => exact absurd hv (h1 h)
      | userdata u => exact absurd hv (h2 u)
      | _ => rw [hv] at this; exact this
    · intro j a hj ht
      obtain ⟨hw1, hw2⟩ := ttnov_individual _ _ ht h1 h2
      rw [lua_getmetatable_eq K _ j a hj, getmt_settop,
        (getmt_setmt_type L (getobj L obj) _ mt h1 h2).1 hw1 hw2 ht]
      cases mt <;> rfl
  · intro hv w hw
    rw [getmt_settop, getmt_setmt_individual L _ w mt hv hw]

/-- Instance of the amended C22 on the sample thread with three tables: table 3 becomes
the metatable of the table at index 1, and is returned for index 1. -/
theorem lua_setmetatable_getmetatable_witness :
    ∃ L1, lua_setmetatable sampleConf sampleM 1 = some (1, L1) ∧
      lua_gettop L1 = lua_gettop sampleM - 1 ∧
      lua_getmetatable sampleConf L1 1 =
        some (1, api_incr_top
          { L1 with mem := Function.update L1.mem L1.top (TValue.table 3) }) := by
  obtain ⟨L1, h, ht, hg, hi, hm, _, _⟩ :=
    lua_setmetatable_getmetatable sampleConf sampleM 1 (Addr.stack 1) (some 3) (by decide)
      (by decide) (by decide)
  exact ⟨L1, h, ht, hm 1 (Addr.stack 1) (hi (Or.inl ⟨by decide, by decide⟩)) (hg _)⟩

/-! ## The top cursor and the frame: theorems -/

/-- Counterexample to C23 as stated: on the sample thread (`func` = slot 0, `top` = slot 5,
`ci->top` = slot 6, `stack_last` = slot 20) the argument 10 passes the bounds check of
`lua_settop` (`idx <= stack_last - (func + 1)`), and the call moves `top` to slot 11,
above `ci->top`. -/
theorem lua_settop_ci_top_counterexample :
    sampleL.ci.func < sampleL.top ∧ sampleL.top ≤ sampleL.ci.top ∧
    sampleL.ci.top ≤ sampleL.stack_last ∧
    (10 : Int) ≤ sampleL.stack_last - (sampleL.ci.func + 1) ∧
    ∃ L1, lua_settop sampleL 10 = some L1 ∧ L1.ci.top = 6 ∧ L1.top = 11 ∧
      ¬ (L1.top ≤ L1.ci.top) := by
  refine ⟨by decide, by decide, by decide, by decide, ?_⟩
  rw [lua_settop_nonneg sampleL 10 (by decide)]
  exact ⟨_, rfl, by decide, by decide, by decide⟩

/-- C23 (amended): for every state with `ci->func < top <= ci->top <= stack_last` and
every argument that the bounds check of `lua_settop` accepts, the call returns, leaves
the frame and `stack_last` as they were, and the new `top` satisfies
`ci->func < top <= stack_last`; the new `top` is at most `ci->top` when the argument is
negative or at most `ci->top - (ci->func + 1)`. -/
theorem lua_settop_within_stack (L : lua_State) (idx : Int)
    (_h1 : L.ci.func < L.top) (h2 : L.top ≤ L.ci.top) (h3 : L.ci.top ≤ L.stack_last)
    (hacc : if idx ≥ 0 then idx ≤ L.stack_last - (L.ci.func + 1)
      else -(idx + 1) ≤ L.top - (L.ci.func + 1)) :
    ∃ L1, lua_settop L idx = some L1 ∧ L1.ci = L.ci ∧ L1.stack_last = L.stack_last ∧
      L1.ci.func < L1.top ∧ L1.top ≤ L1.stack_last ∧
      (idx < 0 ∨ idx ≤ L.ci.top - (L.ci.func + 1) → L1.top ≤ L1.ci.top) := by
  by_cases h : idx ≥ 0
  · rw [if_pos h] at hacc
    rw [lua_settop_nonneg L idx h]
    refine ⟨_, rfl, rfl, rfl, ?_, ?_, ?_⟩
    · show L.ci.func < L.ci.func + 1 + idx
      omega
    · show L.ci.func + 1 + idx ≤ L.stack_last
      omega
    · intro h4
      show L.ci.func + 1 + idx ≤ L.ci.top
      omega
  · rw [if_neg h] at hacc
    rw [lua_settop_neg L idx (by omega)]
    refine ⟨_, rfl, rfl, rfl, ?_, ?_, ?_⟩
    · show L.ci.func < L.top + (idx + 1)
      omega
    · show L.top + (idx + 1) ≤ L.stack_last
      omega
    · intro _
      show L.top + (idx + 1) ≤ L.ci.top
      omega

/-- Instance of the amended C23 on the sample thread with the argument 10. -/
theorem lua_settop_within_stack_witness :
    ∃ L1, lua_settop sampleL 10 = some L1 ∧ L1.ci.func < L1.top ∧
      L1.top ≤ L1.stack_last := by
  obtain ⟨L1, h, _, _, ha, hb, _⟩ := lua_settop_within_stack sampleL 10
    (by decide) (by decide) (by decide) (by decide)
  exact ⟨L1, h, ha, hb⟩

/-! ## Room for the results of a call: theorems -/

/-- The function `lua_pcallk` in terms of its three stages: the offset of the handler, the
preparation of the continuation, and the statements after the call. -/
theorem lua_pcallk_eq (K : LuaConf) (X : LuaLimits) (L : lua_State)
    (nargs nresults errfunc ctx : Int) (k : Option Nat) (callee : Callee) :
    lua_pcallk K X L nargs nresults errfunc ctx k callee =
      match pcallk_func K L errfunc with
      | none => none
      | some func =>
        if k = none ∨ L.nny > 0 then
          some (Except.ok
            ((luaD_pcall L (fun L1 => f_call X L1 (L.top - (nargs + 1)) nresults callee)
                (savestack L (L.top - (nargs + 1))) func).1,
              adjustresults X
                (luaD_pcall L (fun L1 => f_call X L1 (L.top - (nargs + 1)) nresults callee)
                  (savestack L (L.top - (nargs + 1))) func).2 nresults))
        else
          match luaD_call X (pcallk_prepare L (L.top - (nargs + 1)) func ctx k)
              (L.top - (nargs + 1)) nresults callee with
          | Except.error t => some (Except.error t)
          | Except.ok L2 => some (Except.ok (Status.LUA_OK, pcallk_finish X L2 nresults)) := by
  unfold lua_pcallk pcallk_func
  cases (if errfunc = 0 then some 0
      else match index2addr K L errfunc with
        | some (Addr.stack o) => some (savestack L o)
        | _ => none) with
  | none => rfl
  | some func =>
    by_cases hk : k = none ∨ L.nny > 0
    · simp only [hk, if_true]
    · simp only [hk, if_false, pcallk_prepare, pcallk_finish]
      cases luaD_call X _ (L.top - (nargs + 1)) nresults callee with
      | error t => rfl
      | ok L2 => rfl

/-- The offset of the handler exists when `errfunc` is 0 or a stack index; it is 0 for
`errfunc = 0`. -/
theorem pcallk_func_some (K : LuaConf) (L : lua_State) (errfunc : Int)
    (hef : errfunc = 0 ∨ ∃ o, index2addr K L errfunc = some (Addr.stack o)) :
    ∃ fn, pcallk_func K L errfunc = some fn ∧ (errfunc = 0 → fn = 0) ∧
      (∀ o, errfunc ≠ 0 → index2addr K L errfunc = some (Addr.stack o) →
        fn = savestack L o) := by
  unfold pcallk_func
  by_cases h0 : errfunc = 0
  · exact ⟨0, by simp [h0], fun _ => rfl, fun o h => absurd h0 h⟩
  · rcases hef with h | ⟨o, ho⟩
    · exact absurd h h0
    · refine ⟨savestack L o, by simp [h0, ho], fun h => absurd h h0, ?_⟩
      intro o1 _ ho1
      rw [ho] at ho1
      simp only [Option.some.injEq, Addr.stack.injEq] at ho1
      rw [ho1]

/-- A call through `lua_callk` whose callee returns normally leaves the results in the
call region, `top` just above them. -/
theorem lua_callk_returns (X : LuaLimits) (L : lua_State) (nargs nresults ctx : Int)
    (k : Option Nat) (vals : List TValue) :
    ∃ L1, lua_callk X L nargs nresults ctx k (Callee.returns vals) = Except.ok L1 ∧
      L1.top = L.top - (nargs + 1)
        + (if nresults = X.LUA_MULTRET then (vals.length : Int) else nresults) ∧
      (nresults ≠ X.LUA_MULTRET → L1.ci.top = L.ci.top) := by
  unfold lua_callk
  by_cases hk : k ≠ none ∧ L.nny = 0
  · simp only [hk, if_true, luaD_call, and_self, ne_eq, not_false_eq_true]
    refine ⟨_, rfl, (adjustresults_top_mem X _ nresults).1, ?_⟩
    intro hn
    simp only [adjustresults, hn, false_and, if_false]
  · simp only [hk, if_false, luaD_callnoyield, luaD_call]
    refine ⟨_, rfl, (adjustresults_top_mem X _ nresults).1, ?_⟩
    intro hn
    simp only [adjustresults, hn, false_and, if_false]

/-- A call through `lua_pcallk` for a fixed number of results whose callee returns
normally leaves `top` just above the results and the frame bound as it was. -/
theorem lua_pcallk_returns_fixed (K : LuaConf) (X : LuaLimits) (L : lua_State)
    (nargs nresults errfunc ctx : Int) (k : Option Nat) (vals : List TValue)
    (hef : errfunc = 0 ∨ ∃ o, index2addr K L errfunc = some (Addr.stack o))
    (hne : nresults ≠ X.LUA_MULTRET) :
    ∃ L1, lua_pcallk K X L nargs nresults errfunc ctx k (Callee.returns vals)
        = some (Except.ok (Status.LUA_OK, L1)) ∧
      L1.top = L.top - (nargs + 1) + nresults ∧ L1.ci.top = L.ci.top := by
  obtain ⟨fn, hfn, _, _⟩ := pcallk_func_some K L errfunc hef
  rw [lua_pcallk_eq, hfn]
  by_cases hk : k = none ∨ L.nny > 0
  · simp only [hk, if_true, luaD_pcall, f_call, luaD_callnoyield, luaD_call, hne,
      adjustresults, false_and, if_false]
    exact ⟨_, rfl, rfl, rfl⟩
  · simp only [hk, if_false, luaD_call, hne, pcallk_finish, pcallk_prepare,
      adjustresults, false_and]
    exact ⟨_, rfl, rfl, rfl⟩

/-- C24: for every call through `lua_callk` or `lua_pcallk` (the handler index being 0 or
a stack index) with fixed `nresults >= 0` and `nargs >= 0` that satisfies `checkresults`,
where the callee returns normally, the call returns with `top` at the function slot
`top - (nargs + 1)` plus `nresults`, the frame bound `ci->top` is unchanged, and the new
`top` is strictly below `ci->top`; with `nresults = LUA_MULTRET` the condition of
`checkresults` holds in every state. -/
theorem checkresults_room (K : LuaConf) (X : LuaLimits) (L : lua_State)
    (nargs nresults errfunc ctx : Int) (k : Option Nat) (vals : List TValue)
    (hm : X.LUA_MULTRET < 0) (_hna : 0 ≤ nargs) (hnr : 0 ≤ nresults)
    (hef : errfunc = 0 ∨ ∃ o, index2addr K L errfunc = some (Addr.stack o))
    (hchk : checkresults X L nargs nresults = true) :
    L.top - (nargs + 1) + nresults < L.ci.top ∧
    (∃ L1, lua_callk X L nargs nresults ctx k (Callee.returns vals) = Except.ok L1 ∧
      L1.top = L.top - (nargs + 1) + nresults ∧ L1.ci.top = L.ci.top ∧
      L1.top < L1.ci.top) ∧
    (∃ L2, lua_pcallk K X L nargs nresults errfunc ctx k (Callee.returns vals)
        = some (Except.ok (Status.LUA_OK, L2)) ∧
      L2.top = L.top - (nargs + 1) + nresults ∧ L2.ci.top = L.ci.top ∧
      L2.top < L2.ci.top) ∧
    (∀ (L0 : lua_State) (na : Int), checkresults X L0 na X.LUA_MULTRET = true) := by
  have hne : nresults ≠ X.LUA_MULTRET := by omega
  have hroom : L.top - (nargs + 1) + nresults < L.ci.top := by
    unfold checkresults at hchk
    have := of_decide_eq_true hchk
    rcases this with h | h
    · exact absurd h hne
    · omega
  refine ⟨hroom, ?_, ?_, ?_⟩
  · obtain ⟨L1, h, ht, hc⟩ := lua_callk_returns X L nargs nresults ctx k vals
    rw [if_neg hne] at ht
    have hc1 := hc hne
    exact ⟨L1, h, ht, hc1, by rw [ht, hc1]; exact hroom⟩
  · obtain ⟨L2, h, ht, hc2⟩ :=
      lua_pcallk_returns_fixed K X L nargs nresults errfunc ctx k vals hef hne
    exact ⟨L2, h, ht, hc2, by rw [ht, hc2]; exact hroom⟩
  · intro L0 na
    unfold checkresults
    simp

/-- Instance of C24 on the sample thread: a call with one argument and one result. -/
theorem checkresults_room_witness :
    checkresults sampleLimits sampleL 1 1 = true ∧
    ∃ L1, lua_callk sampleLimits sampleL 1 1 0 none (Callee.returns [TValue.nil])
        = Except.ok L1 ∧ L1.top = 4 ∧ L1.top < L1.ci.top := by
  obtain ⟨_, ⟨L1, h, ht, _, hlt⟩, _, _⟩ :=
    checkresults_room sampleConf sampleLimits sampleL 1 1 0 0 none [TValue.nil]
      (by decide) (by decide) (by decide) (Or.inl rfl) (by decide)
  exact ⟨by decide, L1, h, ht.trans (by decide), hlt⟩

/-! ## The continuation of a protected call: theorems -/

/-- The bits of a 16-bit `callstatus` after `setoah(st, v)` and `st |= CIST_YPCALL`:
bit 0 is `v`, bit 4 is set, every other bit is as before. -/
theorem callstatus_prepare_bits (st : Nat) (v : Int) (hst : st < 65536)
    (hv : v = 0 ∨ v = 1) (i : Nat) :
    (Nat.lor (setoah st v) CIST_YPCALL).testBit i =
      if i = 0 then decide (v = 1) else if i = 4 then true else st.testBit i := by
  have c1 : ∀ j, j < 16 → Nat.testBit 65534 j = decide (j ≠ 0) := by decide
  have c2 : ∀ j, j < 16 → Nat.testBit 16 j = decide (j = 4) := by decide
  have c3 : ∀ j, j < 16 → Nat.testBit 1 j = decide (j = 0) := by decide
  have hp : ¬ i < 16 → 65536 ≤ 2 ^ i := by
    intro hi
    have : 2 ^ 16 ≤ 2 ^ i := Nat.pow_le_pow_right (by decide) (by omega)
    simpa using this
  rcases hv with rfl | rfl
  · show (((st &&& 65534) ||| 0) ||| 16).testBit i = _
    rw [Nat.testBit_lor, Nat.testBit_lor, Nat.testBit_land, Nat.zero_testBit]
    by_cases hi : i < 16
    · rw [c1 i hi, c2 i hi]
      by_cases h0 : i = 0
      · simp [h0]
      · by_cases h4 : i = 4
        · simp [h4]
        · simp [h0, h4]
    · have e1 : st.testBit i = false := Nat.testBit_lt_two_pow (by have := hp hi; omega)
      have e3 : (16 : Nat).testBit i = false :=
        Nat.testBit_lt_two_pow (by have := hp hi; omega)
      rw [e1, e3, if_neg (by omega), if_neg (by omega)]
      rfl
  · show (((st &&& 65534) ||| 1) ||| 16).testBit i = _
    rw [Nat.testBit_lor, Nat.testBit_lor, Nat.testBit_land]
    by_cases hi : i < 16
    · rw [c1 i hi, c2 i hi, c3 i hi]
      by_cases h0 : i = 0
      · simp [h0]
      · by_cases h4 : i = 4
        · simp [h4]
        · simp [h0, h4]
    · have e1 : st.testBit i = false := Nat.testBit_lt_two_pow (by have := hp hi; omega)
      have e2 : (1 : Nat).testBit i = false :=
        Nat.testBit_lt_two_pow (by have := hp hi; omega)
      have e3 : (16 : Nat).testBit i = false :=
        Nat.testBit_lt_two_pow (by have := hp hi; omega)
      rw [e1, e2, e3, if_neg (by omega), if_neg (by omega)]
      rfl

/-- Clearing `CIST_YPCALL` leaves bit 4 of the `callstatus` unset. -/
theorem callstatus_finish_bit (st : Nat) :
    (Nat.land st (65535 - CIST_YPCALL)).testBit 4 = false := by
  show (st &&& 65519).testBit 4 = false
  rw [Nat.testBit_land, show Nat.testBit 65519 4 = false from by decide, Bool.and_false]

/-- After `setoah(st, v)` and `st |= CIST_YPCALL` the macro `getoah` gives `v`. -/
theorem getoah_prepare (st : Nat) (v : Int) (hst : st < 65536) (hv : v = 0 ∨ v = 1) :
    (getoah (Nat.lor (setoah st v) CIST_YPCALL) : Int) = v := by
  have key : getoah (Nat.lor (setoah st v) CIST_YPCALL) = v.toNat := by
    apply Nat.eq_of_testBit_eq
    intro i
    show ((Nat.lor (setoah st v) CIST_YPCALL) &&& 1).testBit i = _
    rw [Nat.testBit_land, callstatus_prepare_bits st v hst hv i]
    by_cases h0 : i = 0
    · subst h0
      rcases hv with rfl | rfl <;> simp
    · have e1 : Nat.testBit 1 i = false := by
        cases i with
        | zero => exact absurd rfl h0
        | succ j => simp [Nat.testBit_succ]
      have e2 : v.toNat.testBit i = false := by
        rcases hv with rfl | rfl
        · exact Nat.zero_testBit i
        · exact e1
      rw [e1, e2, Bool.and_false]
  rw [key]
  rcases hv with rfl | rfl <;> rfl

/-- The macro `adjustresults` changes only the bound `top` of the frame. -/
theorem adjustresults_fields (X : LuaLimits) (L : lua_State) (nres : Int) :
    (adjustresults X L nres).ci.k = L.ci.k ∧ (adjustresults X L nres).ci.ctx = L.ci.ctx ∧
    (adjustresults X L nres).ci.extra = L.ci.extra ∧
    (adjustresults X L nres).ci.old_errfunc = L.ci.old_errfunc ∧
    (adjustresults X L nres).ci.callstatus = L.ci.callstatus ∧
    (adjustresults X L nres).errfunc = L.errfunc := by
  unfold adjustresults
  split <;> exact ⟨rfl, rfl, rfl, rfl, rfl, rfl⟩

/-- The statements after the call of a prepared continuation clear `CIST_YPCALL` and
restore the handler saved in the frame. -/
theorem pcallk_finish_fields (X : LuaLimits) (L2 : lua_State) (nresults : Int) :
    (pcallk_finish X L2 nresults).ci.callstatus =
      Nat.land L2.ci.callstatus (65535 - CIST_YPCALL) ∧
    (pcallk_finish X L2 nresults).errfunc = L2.ci.old_errfunc := by
  unfold pcallk_finish
  exact ⟨(adjustresults_fields X _ nresults).2.2.2.2.1,
    (adjustresults_fields X _ nresults).2.2.2.2.2⟩

/-- C25: on a thread with `nny >= 0`, a 16-bit `callstatus`, `allowhook` 0 or 1 and a
handler index that is 0 or a stack index, `lua_pcallk` prepares a continuation exactly
when `k` is not NULL and `nny` is 0, the condition under which `lua_callk` stores `k` and
`ctx`.  In that case the state in which the callee is run holds in its frame `k`, `ctx`,
`extra` = the offset of the function slot and `old_errfunc` = the previous `L->errfunc`;
`getoah` of the `callstatus` is `allowhook`, bit `CIST_YPCALL` is set and every other bit
is as before; `L->errfunc` is the offset of the handler (0 when `errfunc` is 0); an error
of the callee leaves the function, and on normal return bit `CIST_YPCALL` is clear,
`L->errfunc` has its value from before the call and the status is `LUA_OK`.  Otherwise
(`k` is NULL or `nny > 0`) a status is returned and the frame fields `k`, `ctx`, `extra`,
`old_errfunc` and `callstatus` are as before the call. -/
theorem lua_pcallk_continuation_frame (K : LuaConf) (X : LuaLimits) (L : lua_State)
    (nargs nresults errfunc ctx : Int) (k : Option Nat) (callee : Callee)
    (hnny : 0 ≤ L.nny) (hcs : L.ci.callstatus < 65536)
    (hah : L.allowhook = 0 ∨ L.allowhook = 1)
    (hef : errfunc = 0 ∨ ∃ o, index2addr K L errfunc = some (Addr.stack o)) :
    ∃ fn, pcallk_func K L errfunc = some fn ∧ (errfunc = 0 → fn = 0) ∧
      (∀ o, errfunc ≠ 0 → index2addr K L errfunc = some (Addr.stack o) →
        fn = savestack L o) ∧
      (k ≠ none ∧ L.nny = 0 →
        ∀ P, P = pcallk_prepare L (L.top - (nargs + 1)) fn ctx k →
        (lua_pcallk K X L nargs nresults errfunc ctx k callee =
          match luaD_call X P (L.top - (nargs + 1)) nresults callee with
          | Except.error t => some (Except.error t)
          | Except.ok L2 => some (Except.ok (Status.LUA_OK, pcallk_finish X L2 nresults))) ∧
        P.ci.k = k ∧ P.ci.ctx = ctx ∧ P.ci.extra = savestack L (L.top - (nargs + 1)) ∧
        P.ci.old_errfunc = L.errfunc ∧ P.errfunc = fn ∧
        (getoah P.ci.callstatus : Int) = L.allowhook ∧
        P.ci.callstatus.testBit 4 = true ∧
        (∀ i, i ≠ 0 → i ≠ 4 → P.ci.callstatus.testBit i = L.ci.callstatus.testBit i) ∧
        (∀ vals, callee = Callee.returns vals →
          (∃ L3, lua_pcallk K X L nargs nresults errfunc ctx k callee
              = some (Except.ok (Status.LUA_OK, L3)) ∧
            L3.ci.callstatus.testBit 4 = false ∧ L3.errfunc = L.errfunc) ∧
          (∃ L4, lua_callk X L nargs nresults ctx k callee = Except.ok L4 ∧
            L4.ci.k = k ∧ L4.ci.ctx = ctx))) ∧
      (¬ (k ≠ none ∧ L.nny = 0) →
        (∃ st L3, lua_pcallk K X L nargs nresults errfunc ctx k callee
            = some (Except.ok (st, L3)) ∧
          L3.ci.k = L.ci.k ∧ L3.ci.ctx = L.ci.ctx ∧ L3.ci.extra = L.ci.extra ∧
          L3.ci.old_errfunc = L.ci.old_errfunc ∧ L3.ci.callstatus = L.ci.callstatus ∧
          L3.errfunc = L.errfunc) ∧
        (∀ vals, callee = Callee.returns vals →
          ∃ L4, lua_callk X L nargs nresults ctx k callee = Except.ok L4 ∧
            L4.ci.k = L.ci.k ∧ L4.ci.ctx = L.ci.ctx)) := by
  obtain ⟨fn, hfn, hf0, hfo⟩ := pcallk_func_some K L errfunc hef
  refine ⟨fn, hfn, hf0, hfo, ?_, ?_⟩
  · intro hk P hP
    have hk2 : ¬ (k = none ∨ L.nny > 0) := by
      intro h
      rcases h with h | h
      · exact hk.1 h
      · omega
    have hcsP : P.ci.callstatus =
        Nat.lor (setoah L.ci.callstatus L.allowhook) CIST_YPCALL := by
      rw [hP]
      rfl
    refine ⟨?_, by rw [hP]; rfl, by rw [hP]; rfl, by rw [hP]; rfl, by rw [hP]; rfl,
      by rw [hP]; rfl, ?_, ?_, ?_, ?_⟩
    · rw [lua_pcallk_eq, hfn, hP]
      simp only [hk2, if_false]
    · rw [hcsP]
      exact getoah_prepare _ _ hcs hah
    · rw [hcsP, callstatus_prepare_bits _ _ hcs hah]
      rfl
    · intro i h0 h4
      rw [hcsP, callstatus_prepare_bits _ _ hcs hah, if_neg h0, if_neg h4]
    · intro vals hc
      subst hc
      refine ⟨?_, ?_⟩
      · rw [lua_pcallk_eq, hfn]
        simp only [hk2, if_false, luaD_call]
        refine ⟨_, rfl, ?_, ?_⟩
        · rw [(pcallk_finish_fields X _ nresults).1]
          exact callstatus_finish_bit _
        · rw [(pcallk_finish_fields X _ nresults).2]
          rfl
      · unfold lua_callk
        simp only [hk, if_true, luaD_call, and_self, ne_eq, not_false_eq_true]
        exact ⟨_, rfl, (adjustresults_fields X _ nresults).1,
          (adjustresults_fields X _ nresults).2.1⟩
  · intro hk
    have hk2 : k = none ∨ L.nny > 0 := by
      by_cases h : k = none
      · exact Or.inl h
      · right
        by_contra h2
        exact hk ⟨h, by omega⟩
    refine ⟨?_, ?_⟩
    · rw [lua_pcallk_eq, hfn]
      simp only [hk2, if_true]
      refine ⟨_, _, rfl, ?_⟩
      have ha := adjustresults_fields X
        (luaD_pcall L (fun L1 => f_call X L1 (L.top - (nargs + 1)) nresults callee)
          (savestack L (L.top - (nargs + 1))) fn).2 nresults
      rw [ha.1, ha.2.1, ha.2.2.1, ha.2.2.2.1, ha.2.2.2.2.1, ha.2.2.2.2.2]
      cases callee with
      | returns vals => exact ⟨rfl, rfl, rfl, rfl, rfl, rfl⟩
      | raises e errobj => exact ⟨rfl, rfl, rfl, rfl, rfl, rfl⟩
    · intro vals hc
      subst hc
      unfold lua_callk
      simp only [hk, if_false, luaD_callnoyield, luaD_call]
      exact ⟨_, rfl, (adjustresults_fields X _ nresults).1,
        (adjustresults_fields X _ nresults).2.1⟩

/-- Instance of C25 on the sample thread: a protected call with a continuation, one
argument and no result, whose callee returns. -/
theorem lua_pcallk_continuation_frame_witness :
    ∃ fn, pcallk_func sampleConf sampleL 0 = some fn ∧
      (pcallk_prepare sampleL (sampleL.top - (1 + 1)) fn 7 (some 1)).ci.ctx = 7 ∧
      ∃ L3, lua_pcallk sampleConf sampleLimits sampleL 1 0 0 7 (some 1) (Callee.returns [])
          = some (Except.ok (Status.LUA_OK, L3)) ∧
        L3.ci.callstatus.testBit 4 = false ∧ L3.errfunc = sampleL.errfunc := by
  obtain ⟨fn, hfn, _, _, hp, _⟩ :=
    lua_pcallk_continuation_frame sampleConf sampleLimits sampleL 1 0 0 7 (some 1)
      (Callee.returns []) (by decide) (by decide) (Or.inr (by decide)) (Or.inl rfl)
  obtain ⟨_, _, hctx, _, _, _, _, _, _, hret⟩ := hp ⟨by simp, by decide⟩ _ rfl
  exact ⟨fn, hfn, hctx, (hret [] rfl).1⟩

/-! ## Raw updates: theorems -/

/-- C26 fails as stated: `lua_rawseti` does not call `invalidateTMcache`.  On a thread
with table 3 (cached flags 5) at index 1 and the integer 12 on top, `lua_rawseti(L, 1, 1)`
pops the value, stores it under the key 1 and invokes the backward barrier, and the cached
flags of the table are still 5. -/
theorem lua_rawseti_flags_counterexample :
    (sampleT.l_G.tables 3).flags = 5 ∧
    ∃ L1, lua_rawseti sampleConf sampleTableLib sampleT 1 1 = some (Except.ok L1) ∧
      L1.top = sampleT.top - 1 ∧
      (L1.l_G.tables 3).node (TValue.integer 1) = TValue.integer 12 ∧
      L1.barriers = [BarrierCall.barrierback 3 (TValue.integer 12)] ∧
      (L1.l_G.tables 3).flags = 5 ∧
      (L1.l_G.tables 3).flags ≠ (invalidateTMcache (L1.l_G.tables 3)).flags := by
  refine ⟨by decide, ?_⟩
  apply Exists.intro
  apply And.intro
  · simp only [lua_rawseti]
    rfl
  · exact ⟨by decide, by decide, by decide, by decide, by decide⟩

/-- C26 (amended): for a table `r` at `idx`, when the table primitive accepts the key,
each of `lua_rawset`, `lua_rawseti` and `lua_rawsetp` pops its operands (two, one and one
values), stores the value that was on top under the key through `luaH_set` or
`luaH_setint`, and invokes `luaC_barrierback` once on the table with the stored value;
`lua_rawset` also resets the cached flags of the table with `invalidateTMcache`, while
`lua_rawseti` and `lua_rawsetp` leave the flags as the table primitive returns them. -/
theorem lua_raw_update (K : LuaConf) (T : TableLib) (L : lua_State) (idx : Int)
    (t : Addr) (r : Nat) (ht : index2addr K L idx = some t)
    (hr : getobj L t = TValue.table r) :
    (∀ slot, T.luaH_set (L.l_G.tables r) (L.mem (L.top - 2)) = Except.ok slot →
      ∃ L1, lua_rawset K T L idx = some (Except.ok L1) ∧ L1.top = L.top - 2 ∧
        L1.l_G.tables r = invalidateTMcache (slot (L.mem (L.top - 1))) ∧
        (L1.l_G.tables r).flags = 0 ∧
        L1.barriers = L.barriers ++ [BarrierCall.barrierback r (L.mem (L.top - 1))]) ∧
    (∀ n t1, T.luaH_setint (L.l_G.tables r) n (L.mem (L.top - 1)) = Except.ok t1 →
      ∃ L1, lua_rawseti K T L idx n = some (Except.ok L1) ∧ L1.top = L.top - 1 ∧
        L1.l_G.tables r = t1 ∧
        L1.barriers = L.barriers ++ [BarrierCall.barrierback r (L.mem (L.top - 1))]) ∧
    (∀ p slot, T.luaH_set (L.l_G.tables r) (TValue.lightuserdata p) = Except.ok slot →
      ∃ L1, lua_rawsetp K T L idx p = some (Except.ok L1) ∧ L1.top = L.top - 1 ∧
        L1.l_G.tables r = slot (L.mem (L.top - 1)) ∧
        L1.barriers = L.barriers ++ [BarrierCall.barrierback r (L.mem (L.top - 1))]) := by
  have hh := hvalue_eq_some L t r hr
  refine ⟨?_, ?_, ?_⟩
  · intro slot hs
    apply Exists.intro
    apply And.intro
    · simp only [lua_rawset, ht, hh, hs]
      rfl
    · refine ⟨rfl, ?_, ?_, rfl⟩
      · simp only [settable, logbarrier, Function.update_same]
      · simp only [settable, logbarrier, Function.update_same, invalidateTMcache]
  · intro n t1 hs
    apply Exists.intro
    apply And.intro
    · simp only [lua_rawseti, ht, hh, hs]
      rfl
    · refine ⟨rfl, ?_, rfl⟩
      simp only [settable, logbarrier, Function.update_same]
  · intro p slot hs
    apply Exists.intro
    apply And.intro
    · simp only [lua_rawsetp, ht, hh, hs]
      rfl
    · refine ⟨rfl, ?_, rfl⟩
      simp only [settable, logbarrier, Function.update_same]

/-- Instance of the amended C26 on the sample thread with a table at index 1. -/
theorem lua_raw_update_witness :
    ∃ L1, lua_rawseti sampleConf sampleTableLib sampleT 1 1 = some (Except.ok L1) ∧
      L1.top = sampleT.top - 1 ∧
      L1.barriers = sampleT.barriers ++ [BarrierCall.barrierback 3 (TValue.integer 12)] := by
  obtain ⟨L1, h, ht, _, hb⟩ :=
    (lua_raw_update sampleConf sampleTableLib sampleT 1 (Addr.stack 1) 3 (by decide)
      (by decide)).2.1 1 _ rfl
  exact ⟨L1, h, ht, hb⟩

/-! ## Copies: theorems -/

/-- A store invokes no barrier. -/
theorem setobj_barriers (L L1 : lua_State) (a : Addr) (v : TValue)
    (h : setobj L a v = some L1) : L1.barriers = L.barriers := by
  cases a <;> simp only [setobj, Option.some.injEq, setobj2n_upvalue] at h <;>
    first | (subst h; rfl) | exact absurd h (by simp)

/-- Recording a barrier changes the value at no address. -/
theorem getobj_logbarrier (L : lua_State) (b : BarrierCall) (a : Addr) :
    getobj (logbarrier L b) a = getobj L a := by
  cases a <;> rfl

/-- An upvalue pseudo-index that resolves to a valid address resolves to a cell of the
running C closure. -/
theorem index2addr_upvalue_inv (K : LuaConf) (L : lua_State) (idx : Int) (a : Addr)
    (hreg : K.LUA_REGISTRYINDEX < 0) (hup : idx < K.LUA_REGISTRYINDEX)
    (h : index2addr K L idx = some a) (ha : a ≠ Addr.nilobject) :
    ∃ c, L.mem L.ci.func = TValue.ccl c ∧
      K.LUA_REGISTRYINDEX - idx ≤ (L.l_G.cclosures c).nupvalues ∧
      a = Addr.upvalue c (K.LUA_REGISTRYINDEX - idx - 1) := by
  rw [upvalue_index_eq K L idx hreg hup] at h
  cases hv : L.mem L.ci.func with
  | lcf f =>
    rw [hv] at h
    simp only [NONVALIDVALUE, Option.some.injEq] at h
    exact absurd h.symm ha
  | ccl c =>
    rw [hv] at h
    simp only [NONVALIDVALUE] at h
    by_cases hn : K.LUA_REGISTRYINDEX - idx ≤ (L.l_G.cclosures c).nupvalues
    · rw [if_pos hn, Option.some.injEq] at h
      exact ⟨c, rfl, hn, h.symm⟩
    · rw [if_neg hn, Option.some.injEq] at h
      exact absurd h.symm ha
  | _ =>
    rw [hv] at h
    simp at h

/-- A store through the address an index designates leaves the index designating that
address. -/
theorem index2addr_setobj (K : LuaConf) (L L1 : lua_State) (idx : Int) (a : Addr)
    (v : TValue) (h : index2addr K L idx = some a) (ha : a ≠ Addr.nilobject)
    (hset : setobj L a v = some L1) : index2addr K L1 idx = some a := by
  obtain ⟨hframe, htop, hci, _, hc, _⟩ := setobj_frame L L1 a v hset
  by_cases h1 : idx > 0
  · unfold index2addr at h ⊢
    simp only [h1, if_true] at h ⊢
    rw [htop, hci]
    exact h
  · by_cases h2 : ispseudo K idx = true
    · by_cases h3 : idx = K.LUA_REGISTRYINDEX
      · unfold index2addr at h ⊢
        rw [htop, hci]
        rw [if_neg h1] at h ⊢
        rw [if_neg (by simp [h2])] at h ⊢
        rw [if_pos h3] at h ⊢
        exact h
      · unfold index2addr at h ⊢
        simp only [h1, if_false, h2, Bool.not_true, Bool.false_eq_true, h3] at h ⊢
        rw [hci]
        cases hv : L.mem L.ci.func with
        | lcf f =>
          rw [hv] at h
          simp only [NONVALIDVALUE, Option.some.injEq] at h
          exact absurd h.symm ha
        | ccl c =>
          rw [hv] at h
          simp only [NONVALIDVALUE] at h
          by_cases hn : K.LUA_REGISTRYINDEX - idx ≤ (L.l_G.cclosures c).nupvalues
          · rw [if_pos hn, Option.some.injEq] at h
            have hm : L1.mem L.ci.func = TValue.ccl c := by
              have := hframe (Addr.stack L.ci.func) (by rw [← h]; simp)
              simp only [getobj] at this
              rw [this, hv]
            rw [hm]
            simp only [hc, hn, if_true, h]
          · rw [if_neg hn, Option.some.injEq] at h
            exact absurd h.symm ha
        | _ =>
          rw [hv] at h
          simp at h
    · have h2f : ispseudo K idx = false := by simpa using h2
      unfold index2addr at h ⊢
      rw [htop, hci]
      rw [if_neg h1] at h ⊢
      rw [if_pos (by simp [h2f])] at h ⊢
      exact h

/-- What `lua_copy` does to a valid destination: the store, and the barrier when the
destination is an upvalue pseudo-index. -/
theorem lua_copy_spec (K : LuaConf) (L : lua_State) (fromidx toidx : Int) (fr to_ : Addr)
    (hreg : K.LUA_REGISTRYINDEX < 0)
    (hfr : index2addr K L fromidx = some fr) (hto : index2addr K L toidx = some to_)
    (hv : to_ ≠ Addr.nilobject) :
    ∃ L1, lua_copy K L fromidx toidx = some L1 ∧
      index2addr K L1 toidx = some to_ ∧ getobj L1 to_ = getobj L fr ∧
      (∀ b, b ≠ to_ → getobj L1 b = getobj L b) ∧ L1.top = L.top ∧ L1.ci = L.ci ∧
      (toidx < K.LUA_REGISTRYINDEX → ∃ c, L.mem L.ci.func = TValue.ccl c ∧
        L1.barriers = L.barriers ++ [BarrierCall.barrier c (getobj L fr)]) ∧
      (K.LUA_REGISTRYINDEX ≤ toidx → L1.barriers = L.barriers) := by
  obtain ⟨L0, hset, hget⟩ := setobj_get_same L to_ (getobj L fr) hv
  obtain ⟨hframe, htop, hci, _, _, _⟩ := setobj_frame L L0 to_ _ hset
  have hbar := setobj_barriers L L0 to_ _ hset
  have hidx := index2addr_setobj K L L0 toidx to_ _ hto hv hset
  by_cases hup : toidx < K.LUA_REGISTRYINDEX
  · obtain ⟨c, hc, _, hto2⟩ := index2addr_upvalue_inv K L toidx to_ hreg hup hto hv
    have hm : L0.mem L0.ci.func = TValue.ccl c := by
      have := hframe (Addr.stack L.ci.func) (by rw [hto2]; simp)
      simp only [getobj] at this
      rw [hci, this, hc]
    have hfr0 : getobj L0 fr = getobj L fr := by
      by_cases e : fr = to_
      · rw [e, hget, e]
      · exact hframe fr e
    refine ⟨logbarrier L0 (BarrierCall.barrier c (getobj L fr)), ?_, ?_, ?_, ?_, htop, hci,
      ?_, ?_⟩
    · unfold lua_copy
      simp only [hfr, hto, hset, isupvalue, hup, decide_True, if_true, hm, hfr0]
    · exact (index2addr_congr K L0 _ toidx rfl rfl rfl rfl).trans hidx
    · rw [getobj_logbarrier, hget]
    · intro b hb
      rw [getobj_logbarrier, hframe b hb]
    · intro _
      exact ⟨c, hc, by simp only [logbarrier, hbar]⟩
    · intro h
      omega
  · refine ⟨L0, ?_, hidx, hget, hframe, htop, hci, fun h => absurd h hup, fun _ => hbar⟩
    unfold lua_copy
    simp only [hfr, hto, hset, isupvalue, hup, decide_False, Bool.false_eq_true, if_false]

/-- C27: for a valid destination, `lua_copy(L, fromidx, toidx)` invokes `luaC_barrier`
exactly when `toidx` is an upvalue pseudo-index (`toidx < LUA_REGISTRYINDEX`), and then
once, on the running C closure with the copied value; for a stack or registry
destination the barriers invoked on the thread are the same as before the call. -/
theorem lua_copy_barrier (K : LuaConf) (L : lua_State) (fromidx toidx : Int)
    (fr to_ : Addr) (hreg : K.LUA_REGISTRYINDEX < 0)
    (hfr : index2addr K L fromidx = some fr) (hto : index2addr K L toidx = some to_)
    (hv : to_ ≠ Addr.nilobject) :
    ∃ L1, lua_copy K L fromidx toidx = some L1 ∧
      (toidx < K.LUA_REGISTRYINDEX → ∃ c, L.mem L.ci.func = TValue.ccl c ∧
        L1.barriers = L.barriers ++ [BarrierCall.barrier c (getobj L fr)]) ∧
      (K.LUA_REGISTRYINDEX ≤ toidx → L1.barriers = L.barriers) := by
  obtain ⟨L1, h, _, _, _, _, _, hb1, hb2⟩ :=
    lua_copy_spec K L fromidx toidx fr to_ hreg hfr hto hv
  exact ⟨L1, h, hb1, hb2⟩

/-- Instance of C27 on the sample thread: copying index 1 to upvalue 1 of the running
C closure 7 invokes the barrier on closure 7 with the integer 11. -/
theorem lua_copy_barrier_witness :
    ∃ L1, lua_copy sampleConf sampleL 1 (-1001001) = some L1 ∧
      L1.barriers = [BarrierCall.barrier 7 (TValue.integer 11)] := by
  obtain ⟨L1, h, hb, _⟩ := lua_copy_barrier sampleConf sampleL 1 (-1001001)
    (Addr.stack 1) (Addr.upvalue 7 0) (by decide) (by decide) (by decide) (by decide)
  obtain ⟨c, hc, hb1⟩ := hb (by decide)
  have hc7 : c = 7 := by
    have : sampleL.mem sampleL.ci.func = TValue.ccl 7 := by decide
    rw [this] at hc
    exact (TValue.ccl.inj hc).symm
  subst hc7
  exact ⟨L1, h, hb1⟩

/-- C28: for every valid destination index `toidx` and every `fromidx`, after
`lua_copy(L, fromidx, toidx)` the location `toidx` designates holds the value `fromidx`
designated before the call (nil when `fromidx` resolves to the invalid sentinel), `top`
and the frame are unchanged, and every other stack slot, upvalue and the registry hold
what they held; `lua_pushvalue(L, fromidx)` raises `lua_gettop` by one, puts that value
in the new top slot and changes no other location. -/
theorem lua_copy_pushvalue_effect (K : LuaConf) (L : lua_State) (fromidx toidx : Int)
    (fr to_ : Addr) (hreg : K.LUA_REGISTRYINDEX < 0)
    (hfr : index2addr K L fromidx = some fr) (hto : index2addr K L toidx = some to_)
    (hv : to_ ≠ Addr.nilobject) :
    (∃ L1, lua_copy K L fromidx toidx = some L1 ∧
      index2addr K L1 toidx = some to_ ∧ getobj L1 to_ = getobj L fr ∧
      (fr = NONVALIDVALUE → getobj L1 to_ = TValue.nil) ∧
      L1.top = L.top ∧ L1.ci = L.ci ∧
      (∀ b, b ≠ to_ → getobj L1 b = getobj L b)) ∧
    (∃ L2, lua_pushvalue K L fromidx = some L2 ∧
      lua_gettop L2 = lua_gettop L + 1 ∧ L2.mem (L2.top - 1) = getobj L fr ∧
      (∀ b, b ≠ Addr.stack L.top → getobj L2 b = getobj L b)) := by
  obtain ⟨L1, h, hidx, hget, hframe, htop, hci, _, _⟩ :=
    lua_copy_spec K L fromidx toidx fr to_ hreg hfr hto hv
  refine ⟨⟨L1, h, hidx, hget, ?_, htop, hci, hframe⟩, ?_⟩
  · intro e
    rw [hget, e]
    rfl
  · refine ⟨api_incr_top { L with mem := Function.update L.mem L.top (getobj L fr) },
      ?_, ?_, ?_, ?_⟩
    · unfold lua_pushvalue
      simp only [hfr]
    · simp only [lua_gettop, api_incr_top]
      omega
    · simp only [api_incr_top]
      have : L.top + 1 - 1 = L.top := by omega
      rw [this, Function.update_same]
    · intro b hb
      cases b with
      | stack o =>
        have : o ≠ L.top := fun e => hb (by rw [e])
        simp only [getobj, api_incr_top, Function.update_noteq this]
      | _ => rfl

/-- Instance of C28 on the sample thread: copying index 1 to index 4. -/
theorem lua_copy_pushvalue_effect_witness :
    ∃ L1, lua_copy sampleConf sampleL 1 4 = some L1 ∧
      getobj L1 (Addr.stack 4) = TValue.integer 11 ∧ L1.top = sampleL.top := by
  obtain ⟨⟨L1, h, _, hget, _, htop, _, _⟩, _⟩ :=
    lua_copy_pushvalue_effect sampleConf sampleL 1 4 (Addr.stack 1) (Addr.stack 4)
      (by decide) (by decide) (by decide) (by decide)
  exact ⟨L1, h, hget.trans (by decide), htop⟩

/-! ## Absolute indices: theorems -/

/-- The conversion to `int` keeps a difference that fits 32 bits. -/
theorem cast_int_id (x : Int) (h0 : -2 ^ 31 ≤ x) (h1 : x < 2 ^ 31) : cast_int x = x := by
  unfold cast_int
  rw [Int.emod_eq_of_lt (by omega) (by omega)]
  omega

/-- C29: for every acceptable index (positive, pseudo, or negative with `-idx` at most
`lua_gettop`) on a thread whose frame fits an `int`, `lua_absindex` returns a positive
index or a pseudo-index unchanged; for a negative non-pseudo index the result is
`lua_gettop(L) + idx + 1` and lies in `1..gettop`; the result resolves to the same address
as `idx`, and `lua_absindex` is idempotent. -/
theorem lua_absindex_same_slot (K : LuaConf) (L : lua_State) (idx : Int)
    (hfr : L.ci.func < L.top) (hsz : L.top - L.ci.func < 2 ^ 31)
    (hacc : idx > 0 ∨ idx ≤ K.LUA_REGISTRYINDEX ∨ (idx < 0 ∧ -idx ≤ lua_gettop L)) :
    (idx > 0 ∨ idx ≤ K.LUA_REGISTRYINDEX → lua_absindex K L idx = idx) ∧
    (idx < 0 → K.LUA_REGISTRYINDEX < idx →
      lua_absindex K L idx = lua_gettop L + idx + 1 ∧
      1 ≤ lua_absindex K L idx ∧ lua_absindex K L idx ≤ lua_gettop L) ∧
    index2addr K L (lua_absindex K L idx) = index2addr K L idx ∧
    lua_absindex K L (lua_absindex K L idx) = lua_absindex K L idx := by
  have hc : cast_int (L.top - L.ci.func) = L.top - L.ci.func :=
    cast_int_id _ (by omega) hsz
  have hsame : idx > 0 ∨ idx ≤ K.LUA_REGISTRYINDEX → lua_absindex K L idx = idx := by
    intro h
    unfold lua_absindex ispseudo
    rw [if_pos]
    rcases h with h | h
    · exact Or.inl h
    · exact Or.inr (by simpa using h)
  have hneg : idx < 0 → K.LUA_REGISTRYINDEX < idx →
      lua_absindex K L idx = lua_gettop L + idx + 1 := by
    intro h1 h2
    unfold lua_absindex ispseudo lua_gettop
    rw [if_neg, hc]
    · omega
    · intro h
      rcases h with h | h
      · omega
      · have : idx ≤ K.LUA_REGISTRYINDEX := by simpa using h
        omega
  by_cases hp : idx > 0 ∨ idx ≤ K.LUA_REGISTRYINDEX
  · have e := hsame hp
    refine ⟨hsame, ?_, by rw [e], by rw [e, e]⟩
    intro h1 h2
    rcases hp with hp | hp <;> omega
  · have h1 : idx < 0 := by
      rcases hacc with h | h | h
      · exact absurd (Or.inl h) hp
      · exact absurd (Or.inr h) hp
      · exact h.1
    have h2 : K.LUA_REGISTRYINDEX < idx := by
      by_contra h
      exact hp (Or.inr (by omega))
    have h3 : -idx ≤ lua_gettop L := by
      rcases hacc with h | h | h
      · exact absurd (Or.inl h) hp
      · exact absurd (Or.inr h) hp
      · exact h.2
    have e := hneg h1 h2
    have hpos : lua_gettop L + idx + 1 > 0 := by omega
    refine ⟨hsame, fun _ _ => ⟨e, by omega, by omega⟩, ?_, ?_⟩
    · rw [e]
      have hi : ispseudo K idx = false := by
        unfold ispseudo
        simpa using h2
      unfold index2addr
      simp only [hpos, if_true, if_neg (not_lt.mpr (le_of_lt h1)), hi, Bool.not_false]
      unfold lua_gettop
      have : ¬ (L.ci.func + (L.top - (L.ci.func + 1) + idx + 1) ≥ L.top) := by omega
      rw [if_neg this]
      congr 2
      omega
    · rw [e]
      unfold lua_absindex
      rw [if_pos (Or.inl hpos)]

/-- Instance of C29 on the sample thread: index -1 is index 4. -/
theorem lua_absindex_same_slot_witness :
    lua_absindex sampleConf sampleL (-1) = 4 ∧
    index2addr sampleConf sampleL (lua_absindex sampleConf sampleL (-1)) =
      index2addr sampleConf sampleL (-1) :=
  have h := lua_absindex_same_slot sampleConf sampleL (-1) (by decide) (by decide)
    (Or.inr (Or.inr (by decide)))
  ⟨(h.2.1 (by decide) (by decide)).1.trans (by decide), h.2.2.1⟩

/-! ## Moves between threads: theorems -/

/-- With enough fuel the loop of `lua_xmove` ends, having copied the slots
`from->top + i` for the remaining `i < n` onto the receiving thread in order and raised
its `top` by their number. -/
theorem xmove_loop_eq (F : lua_State) (n : Int) (fuel : Nat) :
    ∀ (T : lua_State) (i : Int), (n - i).toNat ≤ fuel → i ≤ n →
    xmove_loop fuel F T i n =
      some { T with mem := movedmem T.mem T.top F.mem (F.top + i) (n - i),
                    top := T.top + (n - i) } := by
  induction fuel with
  | zero =>
    intro T i h hi
    have hle : n = i := by omega
    simp only [xmove_loop]
    rw [if_neg (by omega)]
    have h1 : movedmem T.mem T.top F.mem (F.top + i) (n - i) = T.mem := by
      funext a
      simp only [movedmem]
      rw [if_neg (by omega)]
    have h2 : T.top + (n - i) = T.top := by omega
    rw [h1, h2]
  | succ fuel ih =>
    intro T i h hi
    simp only [xmove_loop]
    split
    · rename_i hlt
      rw [ih _ _ (by omega) (by omega)]
      congr 1
      have h1 : T.top + 1 + (n - (i + 1)) = T.top + (n - i) := by omega
      have h2 : movedmem (Function.update T.mem T.top (F.mem (F.top + i))) (T.top + 1)
          F.mem (F.top + (i + 1)) (n - (i + 1))
          = movedmem T.mem T.top F.mem (F.top + i) (n - i) := by
        funext a
        simp only [movedmem, Function.update_apply]
        split_ifs <;> first | rfl | omega | (congr 1; omega)
      simp only [h1, h2]
    · rename_i hge
      have hle : n = i := by omega
      have h1 : movedmem T.mem T.top F.mem (F.top + i) (n - i) = T.mem := by
        funext a
        simp only [movedmem]
        rw [if_neg (by omega)]
      have h2 : T.top + (n - i) = T.top := by omega
      rw [h1, h2]

/-- C30: for two distinct threads `frm` and `to_` of an engine and `0 <= n`,
`lua_xmove(from, to, n)` returns; it lowers `top` of `from` by `n` and changes nothing
else of it, raises `top` of `to` by `n`, leaves the `n` values that were on top of `from`
on top of `to` in the same order (the value at offset `i` from the bottom of the moved
block at offset `i` above the old `top` of `to`), changes no other slot of `to` and no
other thread; when the two threads are the same the call changes nothing. -/
theorem lua_xmove_moves (W : Nat → lua_State) (frm to_ : Nat) (n : Int)
    (hne : frm ≠ to_) (hn : 0 ≤ n) (_hfrom : n ≤ lua_gettop (W frm))
    (_hroom : (W to_).ci.top - (W to_).top ≥ n) :
    (∃ W1, lua_xmove W frm to_ n = some W1 ∧
      W1 frm = { W frm with top := (W frm).top - n } ∧
      (W1 to_).top = (W to_).top + n ∧
      (∀ i, 0 ≤ i → i < n →
        (W1 to_).mem ((W to_).top + i) = (W frm).mem ((W frm).top - n + i)) ∧
      (∀ a, a < (W to_).top ∨ (W to_).top + n ≤ a → (W1 to_).mem a = (W to_).mem a) ∧
      (W1 to_).ci = (W to_).ci ∧
      (∀ t, t ≠ frm → t ≠ to_ → W1 t = W t)) ∧
    lua_xmove W frm frm n = some W := by
  refine ⟨?_, ?_⟩
  · unfold lua_xmove
    rw [if_neg hne]
    simp only
    rw [xmove_loop_eq _ n n.toNat (W to_) 0 (by simp) hn]
    refine ⟨_, rfl, ?_, ?_, ?_, ?_, ?_, ?_⟩
    · rw [Function.update_noteq hne, Function.update_same]
    · rw [Function.update_same]
      show (W to_).top + (n - 0) = (W to_).top + n
      omega
    · intro i h0 h1
      rw [Function.update_same]
      show movedmem (W to_).mem (W to_).top (W frm).mem ((W frm).top - n + 0) (n - 0)
        ((W to_).top + i) = _
      simp only [movedmem]
      rw [if_pos (by omega)]
      congr 1
      omega
    · intro a ha
      rw [Function.update_same]
      show movedmem (W to_).mem (W to_).top (W frm).mem ((W frm).top - n + 0) (n - 0) a = _
      simp only [movedmem]
      rw [if_neg (by omega)]
    · rw [Function.update_same]
    · intro t h1 h2
      rw [Function.update_noteq h2, Function.update_noteq h1]
  · unfold lua_xmove
    rw [if_pos rfl]

/-- Instance of C30: moving the two top values of sample thread 0 onto sample thread 1. -/
theorem lua_xmove_moves_witness :
    ∃ W1, lua_xmove sampleW 0 1 2 = some W1 ∧
      (W1 1).top = (sampleW 1).top + 2 ∧
      (W1 1).mem ((sampleW 1).top + 0) = TValue.integer 13 ∧
      (W1 1).mem ((sampleW 1).top + 1) = TValue.nil := by
  obtain ⟨⟨W1, h, _, ht, hm, _, _, _⟩, _⟩ :=
    lua_xmove_moves sampleW 0 1 2 (by decide) (by decide) (by decide) (by decide)
  exact ⟨W1, h, ht, (hm 0 (by decide) (by decide)).trans (by decide),
    (hm 1 (by decide) (by decide)).trans (by decide)⟩

/-! ## Upvalue numbers out of range: theorems -/

/-- C31: for every value at `funcindex` and every `n` that is not a valid upvalue number
of it (`n < 1`, `n` greater than the upvalue count of the C closure or script closure, or
a value that is neither, such as a light C function), `lua_getupvalue` and
`lua_setupvalue` return NULL and leave the whole state as it was (nothing pushed, nothing
popped, no upvalue written, no barrier invoked); when `n` is valid, both return a name,
`lua_getupvalue` raises `lua_gettop` by exactly one and `lua_setupvalue` lowers it by
exactly one. -/
theorem lua_upvalue_out_of_range (K : LuaConf) (L : lua_State) (funcindex n : Int)
    (fi : Addr) (hfi : index2addr K L funcindex = some fi) :
    (n < 1 ∨ (∃ c, getobj L fi = TValue.ccl c ∧ (L.l_G.cclosures c).nupvalues < n) ∨
        (∃ c, getobj L fi = TValue.lcl c ∧ (L.l_G.lclosures c).p.sizeupvalues < n) ∨
        ((∀ c, getobj L fi ≠ TValue.ccl c) ∧ (∀ c, getobj L fi ≠ TValue.lcl c)) →
      lua_getupvalue K L funcindex n = some (none, L) ∧
      lua_setupvalue K L funcindex n = some (none, L)) ∧
    (∀ f, getobj L fi = TValue.lcf f →
      lua_getupvalue K L funcindex n = some (none, L) ∧
      lua_setupvalue K L funcindex n = some (none, L)) ∧
    ((∃ c, getobj L fi = TValue.ccl c ∧ 1 ≤ n ∧ n ≤ (L.l_G.cclosures c).nupvalues) ∨
        (∃ c, getobj L fi = TValue.lcl c ∧ 1 ≤ n ∧
          n ≤ (L.l_G.lclosures c).p.sizeupvalues) →
      (∃ name L1, lua_getupvalue K L funcindex n = some (some name, L1) ∧
        lua_gettop L1 = lua_gettop L + 1) ∧
      (∃ name L2, lua_setupvalue K L funcindex n = some (some name, L2) ∧
        lua_gettop L2 = lua_gettop L - 1)) := by
  have hnone : aux_upvalue L fi n = none →
      lua_getupvalue K L funcindex n = some (none, L) ∧
      lua_setupvalue K L funcindex n = some (none, L) := by
    intro h
    constructor
    · unfold lua_getupvalue
      simp only [hfi, h]
    · unfold lua_setupvalue
      simp only [hfi, h]
  refine ⟨?_, ?_, ?_⟩
  · intro hinv
    apply hnone
    cases hr : aux_upvalue L fi n with
    | none => rfl
    | some r =>
      exfalso
      rcases (aux_upvalue_isSome L fi n).1 ⟨r, hr⟩ with ⟨c, hc, h1, h2⟩ | ⟨c, hc, h1, h2⟩
      · rcases hinv with h | ⟨c1, hc1, h⟩ | ⟨c1, hc1, _⟩ | ⟨h, _⟩
        · omega
        · rw [hc] at hc1
          have : c = c1 := TValue.ccl.inj hc1
          subst this
          omega
        · rw [hc] at hc1
          simp at hc1
        · exact h c hc
      · rcases hinv with h | ⟨c1, hc1, _⟩ | ⟨c1, hc1, h⟩ | ⟨_, h⟩
        · omega
        · rw [hc] at hc1
          simp at hc1
        · rw [hc] at hc1
          have : c = c1 := TValue.lcl.inj hc1
          subst this
          omega
        · exact h c hc
  · intro f hf
    apply hnone
    unfold aux_upvalue
    rw [hf]
  · intro hval
    obtain ⟨r, hr⟩ := (aux_upvalue_isSome L fi n).2 hval
    refine ⟨⟨r.name, api_incr_top
      { L with mem := Function.update L.mem L.top (getobj L r.val) }, ?_, ?_⟩, ?_⟩
    · unfold lua_getupvalue
      simp only [hfi, hr]
    · simp only [lua_gettop, api_incr_top]
      omega
    · obtain ⟨L2, h, htop, hci, _⟩ := lua_setupvalue_spec K L funcindex n fi r hfi hr
      refine ⟨r.name, L2, h, ?_⟩
      simp only [lua_gettop, htop, hci]
      omega

/-- Instance of C31 on the sample thread, whose index 1 holds an integer: both functions
return NULL for upvalue 1 and leave the state as it was. -/
theorem lua_upvalue_out_of_range_witness :
    lua_getupvalue sampleConf sampleL 1 1 = some (none, sampleL) ∧
    lua_setupvalue sampleConf sampleL 1 1 = some (none, sampleL) :=
  (lua_upvalue_out_of_range sampleConf sampleL 1 1 (Addr.stack 1) (by decide)).1
    (Or.inr (Or.inr (Or.inr
      ⟨fun c => by rw [show getobj sampleL (Addr.stack 1) = TValue.integer 11 from by decide]
                   simp,
       fun c => by rw [show getobj sampleL (Addr.stack 1) = TValue.integer 11 from by decide]
                   simp⟩)))

/-! ## Comparisons at an invalid index: theorems -/

/-- C32: for every pair of indices of which at least one resolves to the invalid
sentinel, and for every implementation of the comparison routines (also one that raises
an error or changes the state whenever it is entered), `lua_rawequal` returns 0 and
`lua_compare` returns 0 for every operator code and leaves the state as it was: no
comparison routine is entered. -/
theorem lua_compare_invalid_index (K : LuaConf) (V : VmLib) (L : lua_State)
    (index1 index2 : Int) (o1 o2 : Addr) (op : CompareOp)
    (h1 : index2addr K L index1 = some o1) (h2 : index2addr K L index2 = some o2)
    (hinv : o1 = NONVALIDVALUE ∨ o2 = NONVALIDVALUE) :
    lua_rawequal K V L index1 index2 = some 0 ∧
    lua_compare K V L index1 index2 op = some (Except.ok (0, L)) := by
  have hv : (isvalid o1 && isvalid o2) = false := by
    rcases hinv with h | h
    · rw [h]
      rfl
    · rw [h, Bool.and_comm]
      rfl
  constructor
  · unfold lua_rawequal
    simp only [h1, h2, hv, Bool.false_eq_true, if_false]
  · unfold lua_compare
    simp only [h1, h2, hv, Bool.false_eq_true, if_false]

/-- Instance of C32 on the sample thread: index 9 is above `top` and resolves to the
sentinel; with routines that raise an error whenever entered, the comparison with index 1
returns 0. -/
theorem lua_compare_invalid_index_witness :
    index2addr sampleConf sampleL 9 = some NONVALIDVALUE ∧
    lua_rawequal sampleConf sampleVmLib sampleL 1 9 = some 0 ∧
    lua_compare sampleConf sampleVmLib sampleL 1 9 CompareOp.LUA_OPLT
      = some (Except.ok (0, sampleL)) :=
  ⟨by decide,
   lua_compare_invalid_index sampleConf sampleVmLib sampleL 1 9 (Addr.stack 1)
     NONVALIDVALUE CompareOp.LUA_OPLT (by decide) (by decide) (Or.inr rfl)⟩

end LuaApi
